import Mathlib

/-! Receive-queue management of the mlx5 poll-mode driver.

A shallow embedding of `drivers/net/mlx5/mlx5_rxq.c` and the properties
established for it.  Machine integers are natural numbers, reduced modulo
the width of their C type where a wrap-around can occur.  Calls into the
Verbs library and into the memory allocator are deterministic functions of an
explicit outcome record (`Faults`) and of an explicit world state (`Hw`).
Undefined behaviour of the C program (a walk that leaves an array, a store
below the start of a buffer) is the value `none`.  The stores through
`intr_handle->intr_vec` are given twice: `priv_rx_intr_vec_enable` runs the
statements on a vector which records every store next to the number of bytes
asked for it, so that the two can be compared, and
`priv_rx_intr_vec_enable_checked` is the behaviour the C program defines,
`none` when a store is out of those bytes.
-/

namespace Mlx5

/-! ## Declarations the translation unit takes from headers -/

/-- Hash RX queue types, the indices of `hash_rxq_init[]`. -/
inductive hash_rxq_type where
  | HASH_RXQ_TCPV4
  | HASH_RXQ_UDPV4
  | HASH_RXQ_IPV4
  | HASH_RXQ_TCPV6
  | HASH_RXQ_UDPV6
  | HASH_RXQ_IPV6
  | HASH_RXQ_ETH
deriving DecidableEq, Repr

open hash_rxq_type

/-- Modelled from the spec: the enumerator values of `enum hash_rxq_type`,
declared in `mlx5_rxtx.h`, which is not among the sources.  The catalog of
classification types is statically ordered TCP/IPv4, UDP/IPv4, IPv4,
TCP/IPv6, UDP/IPv6, IPv6, Ethernet; the enumerators number it from 0, in
the order in which `hash_rxq_init[]` lists its entries. -/
def hash_rxq_type.toNat : hash_rxq_type → Nat
  | HASH_RXQ_TCPV4 => 0
  | HASH_RXQ_UDPV4 => 1
  | HASH_RXQ_IPV4 => 2
  | HASH_RXQ_TCPV6 => 3
  | HASH_RXQ_UDPV6 => 4
  | HASH_RXQ_IPV6 => 5
  | HASH_RXQ_ETH => 6

/-- The entry of the catalog with a given enumerator value, if any. -/
def hash_rxq_type.ofValue : Nat → Option hash_rxq_type
  | 0 => some HASH_RXQ_TCPV4
  | 1 => some HASH_RXQ_UDPV4
  | 2 => some HASH_RXQ_IPV4
  | 3 => some HASH_RXQ_TCPV6
  | 4 => some HASH_RXQ_UDPV6
  | 5 => some HASH_RXQ_IPV6
  | 6 => some HASH_RXQ_ETH
  | _ => none

/-- Constants and sizes that come from `infiniband/verbs.h` and
`rte_ethdev.h`.  They are parameters of the embedding: no property below
depends on their values. -/
structure Abi where
  /-- The value of `sizeof(struct ibv_flow_attr)`. -/
  sizeof_ibv_flow_attr : Nat
  /-- The value of `sizeof(hash_rxq_init[0].flow_spec.eth)`. -/
  sizeof_flow_spec_eth : Nat
  /-- The value of `sizeof(hash_rxq_init[0].flow_spec.ipv4)`. -/
  sizeof_flow_spec_ipv4 : Nat
  /-- The value of `sizeof(hash_rxq_init[0].flow_spec.ipv6)`. -/
  sizeof_flow_spec_ipv6 : Nat
  /-- The value of `sizeof(hash_rxq_init[0].flow_spec.tcp_udp)`. -/
  sizeof_flow_spec_tcp_udp : Nat
  /-- The enumerator `IBV_FLOW_ATTR_NORMAL`. -/
  IBV_FLOW_ATTR_NORMAL : Nat
  /-- The bytes of the object `hash_rxq_init[T].flow_spec`. -/
  flow_spec_bytes : hash_rxq_type → List Nat
  ETH_RSS_IPV4 : Nat
  ETH_RSS_FRAG_IPV4 : Nat
  ETH_RSS_NONFRAG_IPV4_TCP : Nat
  ETH_RSS_NONFRAG_IPV4_UDP : Nat
  ETH_RSS_IPV6 : Nat
  ETH_RSS_FRAG_IPV6 : Nat
  ETH_RSS_NONFRAG_IPV6_TCP : Nat
  ETH_RSS_NONFRAG_IPV6_UDP : Nat

/-- A sample instance, used for concrete evaluations only: the RSS flags are
those of DPDK (`1ULL << RTE_ETH_FLOW_*`), the sizes are plausible ones, the
bytes of a flow specification are its type, its size and zeroes. -/
def Abi.sample : Abi where
  sizeof_ibv_flow_attr := 20
  sizeof_flow_spec_eth := 40
  sizeof_flow_spec_ipv4 := 24
  sizeof_flow_spec_ipv6 := 72
  sizeof_flow_spec_tcp_udp := 20
  IBV_FLOW_ATTR_NORMAL := 0
  flow_spec_bytes := fun T =>
    match T with
    | HASH_RXQ_TCPV4 => [0x40, 0, 0, 0, 20, 0] ++ List.replicate 66 0
    | HASH_RXQ_UDPV4 => [0x41, 0, 0, 0, 20, 0] ++ List.replicate 66 0
    | HASH_RXQ_IPV4 => [0x30, 0, 0, 0, 24, 0] ++ List.replicate 66 0
    | HASH_RXQ_TCPV6 => [0x40, 0, 0, 0, 20, 0] ++ List.replicate 66 0
    | HASH_RXQ_UDPV6 => [0x41, 0, 0, 0, 20, 0] ++ List.replicate 66 0
    | HASH_RXQ_IPV6 => [0x31, 0, 0, 0, 72, 0] ++ List.replicate 66 0
    | HASH_RXQ_ETH => [0x20, 0, 0, 0, 40, 0] ++ List.replicate 66 0
  ETH_RSS_IPV4 := 2 ^ 2
  ETH_RSS_FRAG_IPV4 := 2 ^ 3
  ETH_RSS_NONFRAG_IPV4_TCP := 2 ^ 4
  ETH_RSS_NONFRAG_IPV4_UDP := 2 ^ 5
  ETH_RSS_IPV6 := 2 ^ 8
  ETH_RSS_FRAG_IPV6 := 2 ^ 9
  ETH_RSS_NONFRAG_IPV6_TCP := 2 ^ 10
  ETH_RSS_NONFRAG_IPV6_UDP := 2 ^ 11

/-- The value of `EINVAL` in `errno.h`. -/
def EINVAL : Nat := 22

/-- The value of `ENOMEM` in `errno.h`. -/
def ENOMEM : Nat := 12

/-- The value of `EOVERFLOW` in `errno.h`. -/
def EOVERFLOW : Nat := 75

/-! ## `hash_rxq_init[]` -/

/-- One element of `hash_rxq_init[]`: `struct hash_rxq_init` without its
`hash_fields`, which only the hash configuration handed to the hardware
reads.  `flow_spec_size` is `flow_spec.hdr.size`. -/
structure hash_rxq_init_t where
  dpdk_rss_hf : Nat
  flow_priority : Nat
  flow_spec_size : Nat
  flow_spec : List Nat
  underlayer : Option hash_rxq_type

/-- Initialization data for hash RX queues. -/
def hash_rxq_init (A : Abi) : hash_rxq_type → hash_rxq_init_t
  | HASH_RXQ_TCPV4 =>
    { dpdk_rss_hf := A.ETH_RSS_NONFRAG_IPV4_TCP
      flow_priority := 0
      flow_spec_size := A.sizeof_flow_spec_tcp_udp
      flow_spec := A.flow_spec_bytes HASH_RXQ_TCPV4
      underlayer := some HASH_RXQ_IPV4 }
  | HASH_RXQ_UDPV4 =>
    { dpdk_rss_hf := A.ETH_RSS_NONFRAG_IPV4_UDP
      flow_priority := 0
      flow_spec_size := A.sizeof_flow_spec_tcp_udp
      flow_spec := A.flow_spec_bytes HASH_RXQ_UDPV4
      underlayer := some HASH_RXQ_IPV4 }
  | HASH_RXQ_IPV4 =>
    { dpdk_rss_hf := A.ETH_RSS_IPV4 ||| A.ETH_RSS_FRAG_IPV4
      flow_priority := 1
      flow_spec_size := A.sizeof_flow_spec_ipv4
      flow_spec := A.flow_spec_bytes HASH_RXQ_IPV4
      underlayer := some HASH_RXQ_ETH }
  | HASH_RXQ_TCPV6 =>
    { dpdk_rss_hf := A.ETH_RSS_NONFRAG_IPV6_TCP
      flow_priority := 0
      flow_spec_size := A.sizeof_flow_spec_tcp_udp
      flow_spec := A.flow_spec_bytes HASH_RXQ_TCPV6
      underlayer := some HASH_RXQ_IPV6 }
  | HASH_RXQ_UDPV6 =>
    { dpdk_rss_hf := A.ETH_RSS_NONFRAG_IPV6_UDP
      flow_priority := 0
      flow_spec_size := A.sizeof_flow_spec_tcp_udp
      flow_spec := A.flow_spec_bytes HASH_RXQ_UDPV6
      underlayer := some HASH_RXQ_IPV6 }
  | HASH_RXQ_IPV6 =>
    { dpdk_rss_hf := A.ETH_RSS_IPV6 ||| A.ETH_RSS_FRAG_IPV6
      flow_priority := 1
      flow_spec_size := A.sizeof_flow_spec_ipv6
      flow_spec := A.flow_spec_bytes HASH_RXQ_IPV6
      underlayer := some HASH_RXQ_ETH }
  | HASH_RXQ_ETH =>
    { dpdk_rss_hf := 0
      flow_priority := 2
      flow_spec_size := A.sizeof_flow_spec_eth
      flow_spec := A.flow_spec_bytes HASH_RXQ_ETH
      underlayer := none }

/-- Number of entries in `hash_rxq_init[]`. -/
def hash_rxq_init_n : Nat := 7

/-! ## `priv_flow_attr` -/

/-- The members of `struct ibv_flow_attr`. -/
structure ibv_flow_attr where
  comp_mask : Nat
  type : Nat
  size : Nat
  priority : Nat
  num_of_specs : Nat
  port : Nat
  flags : Nat
deriving DecidableEq, Repr

/-- The area `flow_attr` points to: the structure itself, and the room that
trails it, one number per byte. -/
structure flow_attr_buf where
  attr : ibv_flow_attr
  room : List Nat
deriving DecidableEq, Repr

/-- The `n` bytes a `memcpy` reads at the start of the object `src`. -/
def read_bytes (src : List Nat) (n : Nat) : List Nat :=
  (List.range n).map (fun i => src.getD i 0)

/-- The effect of `memcpy(dst + off, src, src.length)` on the bytes `dst`. -/
def memcpy (dst : List Nat) (off : Nat) (src : List Nat) : List Nat :=
  dst.take off ++ src ++ dst.drop (off + src.length)

/-- The first `do ... while` of `priv_flow_attr`: add the sizes of the flow
specifications of `init` and of its underlayers to `offset`. -/
def flow_attr_size_loop (A : Abi) : Nat → hash_rxq_type → Nat → Option Nat
  | 0, _, _ => none
  | fuel + 1, init, offset =>
    let offset := offset + (hash_rxq_init A init).flow_spec_size
    match (hash_rxq_init A init).underlayer with
    | none => some offset
    | some u => flow_attr_size_loop A fuel u offset

/-- The second `do ... while` of `priv_flow_attr`: copy the flow
specifications of `init` and of its underlayers below `offset`, the one of
`init` first, and count them.  A copy that does not lie inside the room that
trails the structure is undefined. -/
def flow_attr_fill_loop (A : Abi) :
    Nat → hash_rxq_type → Nat → flow_attr_buf → Option flow_attr_buf
  | 0, _, _, _ => none
  | fuel + 1, init, offset, buf =>
    let size := (hash_rxq_init A init).flow_spec_size
    let offset := offset - size
    if offset < A.sizeof_ibv_flow_attr ∨
        buf.room.length < offset - A.sizeof_ibv_flow_attr + size then none
    else
      let buf : flow_attr_buf :=
        { attr := { buf.attr with num_of_specs := (buf.attr.num_of_specs + 1) % 256 }
          room := memcpy buf.room (offset - A.sizeof_ibv_flow_attr)
            (read_bytes (hash_rxq_init A init).flow_spec size) }
      match (hash_rxq_init A init).underlayer with
      | none => some buf
      | some u => flow_attr_fill_loop A fuel u offset buf

/-- Populate flow steering rule for a given hash RX queue type.  `port` is
`priv->port`; the result is the returned size and the area `flow_attr`
points to after the call. -/
def priv_flow_attr (A : Abi) (port : Nat) (flow_attr : flow_attr_buf)
    (flow_attr_size : Nat) (type : hash_rxq_type) : Option (Nat × flow_attr_buf) :=
  match flow_attr_size_loop A hash_rxq_init_n type A.sizeof_ibv_flow_attr with
  | none => none
  | some offset =>
    if offset > flow_attr_size then some (offset, flow_attr)
    else
      let flow_attr_size := offset
      let flow_attr : flow_attr_buf :=
        { flow_attr with
          attr :=
            { comp_mask := 0
              type := A.IBV_FLOW_ATTR_NORMAL
              size := 0
              priority := ((hash_rxq_init A type).flow_priority + 3) % 65536
              num_of_specs := 0
              port := port
              flags := 0 } }
      match flow_attr_fill_loop A hash_rxq_init_n type offset flow_attr with
      | none => none
      | some flow_attr => some (flow_attr_size, flow_attr)

/-! ### Reference serialization -/

/-- The underlayer chain of a type, the type itself first and the root
last, followed for at most `fuel` links. -/
def underlayer_chain (A : Abi) : Nat → hash_rxq_type → List hash_rxq_type
  | 0, _ => []
  | fuel + 1, T =>
    match (hash_rxq_init A T).underlayer with
    | none => [T]
    | some u => T :: underlayer_chain A fuel u

/-- The ancestor chain of `T` in the catalog, `T` first. -/
def chain (A : Abi) (T : hash_rxq_type) : List hash_rxq_type :=
  underlayer_chain A hash_rxq_init_n T

/-- The match specification of `T`: the first `flow_spec.hdr.size` bytes of
its `flow_spec`. -/
def spec_payload (A : Abi) (T : hash_rxq_type) : List Nat :=
  read_bytes (hash_rxq_init A T).flow_spec (hash_rxq_init A T).flow_spec_size

/-- Sum of the sizes of the match specifications of a list of types. -/
def specs_size (A : Abi) (l : List hash_rxq_type) : Nat :=
  (l.map (fun T => (hash_rxq_init A T).flow_spec_size)).sum

/-- The size the spec requires for `T`: one header and the payloads of the
ancestor chain. -/
def required_size (A : Abi) (T : hash_rxq_type) : Nat :=
  A.sizeof_ibv_flow_attr + specs_size A (chain A T)

/-- The match specifications of a list of types, one after the other. -/
def payloads (A : Abi) : List hash_rxq_type → List Nat
  | [] => []
  | T :: l => spec_payload A T ++ payloads A l

/-- The header of the reference serialization for `T`. -/
def reference_header (A : Abi) (port : Nat) (T : hash_rxq_type) : ibv_flow_attr :=
  { comp_mask := 0
    type := A.IBV_FLOW_ATTR_NORMAL
    size := 0
    priority := (hash_rxq_init A T).flow_priority + 3
    num_of_specs := (chain A T).length
    port := port
    flags := 0 }

/-! ## `ind_table_init[]` and `priv_make_ind_table_init` -/

/-- One element of `ind_table_init[]`. -/
structure ind_table_init_t where
  max_size : Nat
  hash_types : Nat
  hash_types_n : Nat
deriving DecidableEq, Repr, Inhabited

/-- Initialization data for hash RX queue indirection tables. -/
def ind_table_init : List ind_table_init_t :=
  [ { max_size := 2 ^ 32 - 1
      hash_types :=
        1 <<< HASH_RXQ_TCPV4.toNat |||
        1 <<< HASH_RXQ_UDPV4.toNat |||
        1 <<< HASH_RXQ_IPV4.toNat |||
        1 <<< HASH_RXQ_TCPV6.toNat |||
        1 <<< HASH_RXQ_UDPV6.toNat |||
        1 <<< HASH_RXQ_IPV6.toNat |||
        0
      hash_types_n := 6 },
    { max_size := 1
      hash_types := 1 <<< HASH_RXQ_ETH.toNat
      hash_types_n := 1 } ]

/-- The macro `IND_TABLE_INIT_N`, `RTE_DIM(ind_table_init)`. -/
def IND_TABLE_INIT_N : Nat := 2

/-- One turn of the loop of `priv_make_ind_table_init` that collects the
supported types: `if (rss_hf & hash_rxq_init[i].dpdk_rss_hf) hash_types_sup |= (1 << i)`. -/
def hash_types_sup_step (A : Abi) (rss_hf : Nat) (hash_types_sup i : Nat) : Nat :=
  match hash_rxq_type.ofValue i with
  | some T =>
    if rss_hf &&& (hash_rxq_init A T).dpdk_rss_hf ≠ 0 then hash_types_sup ||| (1 <<< i)
    else hash_types_sup
  | none => hash_types_sup

/-- The value of `hash_types_sup` when `priv_make_ind_table_init` starts to
filter: `HASH_RXQ_ETH` is mandatory, other protocols are processed only if
there is more than one queue. -/
def hash_types_sup (A : Abi) (rss_hf rxqs_n : Nat) : Nat :=
  if rxqs_n > 1 then
    (List.range hash_rxq_init_n).foldl (hash_types_sup_step A rss_hf)
      (1 <<< HASH_RXQ_ETH.toNat)
  else 1 <<< HASH_RXQ_ETH.toNat

/-- The loop `for (h = 0, nb = 0; (h != hash_rxq_init_n); ++h)` that counts
the bits of `hash_types`. -/
def count_hash_types (hash_types : Nat) : Nat :=
  (List.range hash_rxq_init_n).foldl
    (fun nb h => if (hash_types >>> h) &&& 1 ≠ 0 then nb + 1 else nb) 0

/-- The variables the filtering loop of `priv_make_ind_table_init` updates. -/
structure make_ind_table_state where
  table : List ind_table_init_t
  j : Nat
  table_n : Nat

/-- The body of the filtering loop of `priv_make_ind_table_init`, for the
index `i`.  The count is stored in entry `i`, as in the source. -/
def make_ind_table_step (hash_types_sup : Nat) (st : make_ind_table_state) (i : Nat) :
    make_ind_table_state :=
  let table := st.table.set st.j (ind_table_init.getD i default)
  let table := table.set st.j
    { table.getD st.j default with
      hash_types := (table.getD st.j default).hash_types &&& hash_types_sup }
  let nb := count_hash_types (table.getD st.j default).hash_types
  let table := table.set i { table.getD i default with hash_types_n := nb }
  if nb ≠ 0 then { table := table, j := st.j + 1, table_n := st.table_n + 1 }
  else { table := table, j := st.j, table_n := st.table_n }

/-- Filter out disabled hash RX queue types from `ind_table_init[]`.  The
arguments are `priv->rss_hf`, `priv->rxqs_n` and the array `table` points to;
the result is the number of table entries and the array after the call. -/
def priv_make_ind_table_init (A : Abi) (rss_hf rxqs_n : Nat)
    (table : List ind_table_init_t) : Nat × List ind_table_init_t :=
  let st := (List.range IND_TABLE_INIT_N).foldl
    (make_ind_table_step (hash_types_sup A rss_hf rxqs_n))
    { table := table, j := 0, table_n := 0 }
  (st.table_n, st.table)

/-- The positions of the bits set in a 32-bit word, in increasing order. -/
def set_bits (n : Nat) : List Nat :=
  (List.range 32).filter (fun h => n.testBit h)

/-- The number of bits set in a 32-bit word. -/
def popcount (n : Nat) : Nat := (set_bits n).length

/-- The entry the spec requires for a static template: its mask restricted
to the supported set, and the number of bits of that mask. -/
def filtered_template (sup : Nat) (t : ind_table_init_t) : ind_table_init_t :=
  { max_size := t.max_size
    hash_types := t.hash_types &&& sup
    hash_types_n := popcount (t.hash_types &&& sup) }

/-- The table the spec requires: the static templates whose mask intersects
the supported set, in their original order, each one restricted. -/
def filtered_templates (sup : Nat) : List ind_table_init_t :=
  (ind_table_init.filter (fun t => t.hash_types &&& sup ≠ 0)).map (filtered_template sup)

/-! ## Helpers of `mlx5_utils.h` -/

/-- The search behind `log2above`: the least `l` at or above the given one
with `v ≤ 2 ^ l`, looked for during `fuel` steps. -/
def log2above_from (v : Nat) : Nat → Nat → Nat
  | 0, l => l
  | fuel + 1, l => if v ≤ 2 ^ l then l else log2above_from v fuel (l + 1)

/-- Modelled from the spec: `log2above()`, a helper of `mlx5_utils.h`, which
is not among the sources: the ceiling base-2 logarithm of `v`, that is the
least `l` with `v ≤ 2 ^ l`. -/
def log2above (v : Nat) : Nat := log2above_from v v 0

/-! ## The Verbs objects behind the hash RX queues -/

/-- An indirection table made by `ibv_create_rwq_ind_table`: its address and
the attributes it was made with. -/
structure ibv_rwq_ind_table where
  handle : Nat
  log_ind_tbl_size : Nat
  ind_tbl : List Nat
deriving DecidableEq, Repr

/-- A queue pair made by `ibv_create_qp_ex`: its address and the indirection
table it is bound to (`qp_init_attr.rwq_ind_tbl`). -/
structure ibv_qp where
  handle : Nat
  rwq_ind_tbl : Option Nat
deriving DecidableEq, Repr

/-- A destroyed object, as written in the log of destructions. -/
inductive hw_object where
  | ind_table (handle : Nat)
  | qp (handle : Nat)
deriving DecidableEq, Repr

/-- The state of the device: the next address to hand out, the live
indirection tables, the live queue pairs, and the destructions performed so
far, the oldest first. -/
structure Hw where
  next_handle : Nat
  ind_tables : List ibv_rwq_ind_table
  qps : List ibv_qp
  destroyed : List hw_object
deriving DecidableEq, Repr

/-- The outcomes of the calls that can fail during `priv_create_hash_rxqs`:
whether each `rte_calloc` returns `NULL`, and for the `i`-th creation of an
indirection table or of a queue pair whether it returns `NULL`, and then the
value it leaves in `errno`. -/
structure Faults where
  ind_tables_alloc : Bool
  ind_table_create : Nat → Option Nat
  hash_rxqs_alloc : Bool
  qp_create : Nat → Option Nat

/-- No call fails. -/
def Faults.never : Faults where
  ind_tables_alloc := false
  ind_table_create := fun _ => none
  hash_rxqs_alloc := false
  qp_create := fun _ => none

/-- The call `ibv_create_rwq_ind_table(priv->ctx, &ind_init_attr)` for the
`i`-th table: the new address, or the value of `errno`. -/
def ibv_create_rwq_ind_table (F : Faults) (i log_ind_tbl_size : Nat) (ind_tbl : List Nat)
    (hw : Hw) : Except Nat Nat × Hw :=
  match F.ind_table_create i with
  | some errno => (.error errno, hw)
  | none =>
    (.ok hw.next_handle,
      { hw with
        next_handle := hw.next_handle + 1
        ind_tables := hw.ind_tables ++ [⟨hw.next_handle, log_ind_tbl_size, ind_tbl⟩] })

/-- The call `ibv_create_qp_ex(priv->ctx, &qp_init_attr)` for the `i`-th hash
RX queue: the new address, or the value of `errno`. -/
def ibv_create_qp_ex (F : Faults) (i : Nat) (rwq_ind_tbl : Option Nat) (hw : Hw) :
    Except Nat Nat × Hw :=
  match F.qp_create i with
  | some errno => (.error errno, hw)
  | none =>
    (.ok hw.next_handle,
      { hw with
        next_handle := hw.next_handle + 1
        qps := hw.qps ++ [⟨hw.next_handle, rwq_ind_tbl⟩] })

/-- The call `ibv_destroy_qp(qp)`. -/
def ibv_destroy_qp (qp : Nat) (hw : Hw) : Hw :=
  { hw with
    qps := hw.qps.filter (fun q => q.handle ≠ qp)
    destroyed := hw.destroyed ++ [hw_object.qp qp] }

/-- The call `ibv_destroy_rwq_ind_table(ind_table)`. -/
def ibv_destroy_rwq_ind_table (ind_table : Nat) (hw : Hw) : Hw :=
  { hw with
    ind_tables := hw.ind_tables.filter (fun t => t.handle ≠ ind_table)
    destroyed := hw.destroyed ++ [hw_object.ind_table ind_table] }

/-! ## `priv_create_hash_rxqs` and `priv_destroy_hash_rxqs` -/

/-- A hash RX queue: `struct hash_rxq` without the back pointer `priv` and
without the flow arrays, which the functions below only assert to be empty.
A pointer is `none` when it is `NULL`. -/
structure hash_rxq where
  qp : Option Nat
  type : Nat
deriving DecidableEq, Repr

/-- The members of `struct priv` the hash RX queue code reads and writes.
`rxqs_wq` holds, for every RX queue, the work queue of its control structure. -/
structure priv where
  rss_hf : Nat
  rxqs_n : Nat
  rxqs_wq : List Nat
  reta_idx : List Nat
  reta_idx_n : Nat
  isolated : Bool
  ind_tables : Option (List (Option Nat))
  ind_tables_n : Nat
  hash_rxqs : Option (List hash_rxq)
  hash_rxqs_n : Nat
deriving DecidableEq, Repr

/-- The loop of `hash_rxq_type_from_pos`: walk the types upwards from `type`
and stop at the set bit reached with `pos` equal to 0. -/
def hash_rxq_type_from_pos_loop (hash_types : Nat) : Nat → Nat → Nat → Option Nat
  | 0, _, _ => none
  | fuel + 1, type, pos =>
    if hash_types &&& (1 <<< type) ≠ 0 then
      if pos = 0 then some type
      else hash_rxq_type_from_pos_loop hash_types fuel (type + 1) (pos - 1)
    else hash_rxq_type_from_pos_loop hash_types fuel (type + 1) pos

/-- Convert hash type position in indirection table initializer to hash RX
queue type.  The walk is undefined once it leaves the 32 bits of
`hash_types`. -/
def hash_rxq_type_from_pos (table : ind_table_init_t) (pos : Nat) : Option Nat :=
  hash_rxq_type_from_pos_loop table.hash_types 32 0 pos

/-- The array `wqs[]` of `priv_create_hash_rxqs`. -/
def hash_rxqs_wqs (p : priv) : List Nat :=
  (List.range p.reta_idx_n).map (fun i => p.rxqs_wq.getD (p.reta_idx.getD i 0) 0)

/-- The loop of `priv_create_hash_rxqs` that creates the indirection tables,
with `n` turns left before `i` reaches `ind_tables_n`.  The first component
of the result is the error code of a jump to `error`. -/
def create_ind_tables_loop (F : Faults) (reta_idx_n : Nat) (wqs : List Nat)
    (ind_table_init : List ind_table_init_t) :
    Nat → Nat → List (Option Nat) → Hw → Option Nat × List (Option Nat) × Hw
  | 0, _, ind_tables, hw => (none, ind_tables, hw)
  | n + 1, i, ind_tables, hw =>
    let ind_tbl_size := (ind_table_init.getD i default).max_size
    let ind_tbl_size := if reta_idx_n < ind_tbl_size then reta_idx_n else ind_tbl_size
    match ibv_create_rwq_ind_table F i (log2above ind_tbl_size) wqs hw with
    | (.ok ind_table, hw) =>
      create_ind_tables_loop F reta_idx_n wqs ind_table_init n (i + 1)
        (ind_tables.set i (some ind_table)) hw
    | (.error errno, hw) => (some (if errno ≠ 0 then errno else EINVAL), ind_tables, hw)

/-- The loop of `priv_create_hash_rxqs` that creates the hash RX queues, with
`n` turns left before `i` reaches `hash_rxqs_n`.  The result is `none` when
the type walk or the index into `hash_rxq_init[]` is undefined; its first
component is the error code of a jump to `error`. -/
def create_hash_rxqs_loop (F : Faults) (ind_table_init : List ind_table_init_t)
    (ind_tables : List (Option Nat)) (ind_tables_n : Nat) :
    Nat → Nat → Nat → Nat → List hash_rxq → Hw → Option (Option Nat × List hash_rxq × Hw)
  | 0, _, _, _, hash_rxqs, hw => some (none, hash_rxqs, hw)
  | n + 1, i, j, k, hash_rxqs, hw =>
    if j = ind_tables_n then some (none, hash_rxqs, hw)
    else
      match hash_rxq_type_from_pos (ind_table_init.getD j default) k with
      | none => none
      | some type =>
        match hash_rxq_type.ofValue type with
        | none => none
        | some _ =>
          match ibv_create_qp_ex F i (ind_tables.getD j none) hw with
          | (.error errno, hw) =>
            some (some (if errno ≠ 0 then errno else EINVAL),
              hash_rxqs.set i { qp := none, type := type }, hw)
          | (.ok qp, hw) =>
            let hash_rxqs := hash_rxqs.set i { qp := some qp, type := type }
            if k + 1 < (ind_table_init.getD j default).hash_types_n then
              create_hash_rxqs_loop F ind_table_init ind_tables ind_tables_n n (i + 1) j (k + 1)
                hash_rxqs hw
            else
              create_hash_rxqs_loop F ind_table_init ind_tables ind_tables_n n (i + 1) (j + 1) 0
                hash_rxqs hw

/-- One turn of the loop after the label `error` that destroys the queue
pairs: `if (qp == NULL) continue; claim_zero(ibv_destroy_qp(qp));`. -/
def destroy_qp_if_set (hw : Hw) (hash_rxq : hash_rxq) : Hw :=
  match hash_rxq.qp with
  | none => hw
  | some qp => ibv_destroy_qp qp hw

/-- One turn of the loop after the label `error` that destroys the
indirection tables: `if (ind_table == NULL) continue;
claim_zero(ibv_destroy_rwq_ind_table(ind_table));`. -/
def destroy_ind_table_if_set (hw : Hw) (ind_table : Option Nat) : Hw :=
  match ind_table with
  | none => hw
  | some ind_table => ibv_destroy_rwq_ind_table ind_table hw

/-- The code after the label `error` of `priv_create_hash_rxqs`: destroy the
queue pairs and the indirection tables that are not `NULL`. -/
def create_hash_rxqs_error (hash_rxqs : Option (List hash_rxq)) (hash_rxqs_n : Nat)
    (ind_tables : Option (List (Option Nat))) (ind_tables_n : Nat) (hw : Hw) : Hw :=
  let hw :=
    match hash_rxqs with
    | none => hw
    | some hash_rxqs =>
      (List.range hash_rxqs_n).foldl
        (fun hw i => destroy_qp_if_set hw (hash_rxqs.getD i ⟨none, 0⟩)) hw
  match ind_tables with
  | none => hw
  | some ind_tables =>
    (List.range ind_tables_n).foldl
      (fun hw j => destroy_ind_table_if_set hw (ind_tables.getD j none)) hw

/-- Initialize hash RX queues and indirection table.  `junk` is what the
local array `ind_table_init[]` holds before it is filled.  The result is the
returned value, the private structure and the device after the call, or
`none` when the behaviour is undefined. -/
def priv_create_hash_rxqs (A : Abi) (F : Faults) (junk : ind_table_init_t) (p : priv)
    (hw : Hw) : Option (Nat × priv × Hw) :=
  let made := priv_make_ind_table_init A p.rss_hf p.rxqs_n (List.replicate IND_TABLE_INIT_N junk)
  let ind_tables_n := made.1
  let ind_table_init := made.2
  if p.isolated then some (0, p, hw)
  else if p.rxqs_n = 0 then some (EINVAL, p, hw)
  else if ind_tables_n = 0 then some (EINVAL, p, hw)
  else
    let wqs := hash_rxqs_wqs p
    let hash_rxqs_n := (List.range ind_tables_n).foldl
      (fun n i => n + (ind_table_init.getD i default).hash_types_n) 0
    if F.ind_tables_alloc then
      some (ENOMEM, p, create_hash_rxqs_error none hash_rxqs_n none ind_tables_n hw)
    else
      match create_ind_tables_loop F p.reta_idx_n wqs ind_table_init ind_tables_n 0
          (List.replicate ind_tables_n none) hw with
      | (some err, ind_tables, hw) =>
        some (err, p, create_hash_rxqs_error none hash_rxqs_n (some ind_tables) ind_tables_n hw)
      | (none, ind_tables, hw) =>
        if F.hash_rxqs_alloc then
          some (ENOMEM, p,
            create_hash_rxqs_error none hash_rxqs_n (some ind_tables) ind_tables_n hw)
        else
          match create_hash_rxqs_loop F ind_table_init ind_tables ind_tables_n hash_rxqs_n 0 0 0
              (List.replicate hash_rxqs_n ⟨none, 0⟩) hw with
          | none => none
          | some (some err, hash_rxqs, hw) =>
            some (err, p,
              create_hash_rxqs_error (some hash_rxqs) hash_rxqs_n (some ind_tables)
                ind_tables_n hw)
          | some (none, hash_rxqs, hw) =>
            some (0,
              { p with
                ind_tables := some ind_tables
                ind_tables_n := ind_tables_n
                hash_rxqs := some hash_rxqs
                hash_rxqs_n := hash_rxqs_n }, hw)

/-- One turn of the loop of `priv_destroy_hash_rxqs` over the hash RX
queues, on the entry `(*priv->hash_rxqs)[i]`: the queue pair is asserted not
to be `NULL` and is destroyed. -/
def destroy_hash_rxq (hw : Hw) (hash_rxq : Option hash_rxq) : Option Hw :=
  match hash_rxq with
  | some ⟨some qp, _⟩ => some (ibv_destroy_qp qp hw)
  | _ => none

/-- One turn of the loop of `priv_destroy_hash_rxqs` over the indirection
tables, on the entry `(*priv->ind_tables)[i]`: the table is asserted not to be
`NULL` and is destroyed. -/
def destroy_ind_table (hw : Hw) (ind_table : Option (Option Nat)) : Option Hw :=
  match ind_table with
  | some (some ind_table) => some (ibv_destroy_rwq_ind_table ind_table hw)
  | _ => none

/-- Clean up hash RX queues and indirection table.  The result is `none`
when an array that is `NULL` or an entry that is `NULL` is dereferenced. -/
def priv_destroy_hash_rxqs (p : priv) (hw : Hw) : Option (priv × Hw) :=
  if p.hash_rxqs_n = 0 then some (p, hw)
  else
    match
      (List.range p.hash_rxqs_n).foldlM
        (fun hw i => destroy_hash_rxq hw (p.hash_rxqs.bind (fun a => a.get? i))) hw with
    | none => none
    | some hw =>
      match
        (List.range p.ind_tables_n).foldlM
          (fun hw i => destroy_ind_table hw (p.ind_tables.bind (fun a => a.get? i))) hw with
      | none => none
      | some hw =>
        some
          ({ p with hash_rxqs_n := 0, hash_rxqs := none, ind_tables_n := 0, ind_tables := none },
            hw)

/-! ## The scatter factor of `rxq_ctrl_setup` -/

/-- Declarations `rxq_ctrl_setup` takes from `rte_config.h` and from
`mlx5_rxtx.h`: the macro `RTE_PKTMBUF_HEADROOM` and the width in bits of the
bit-field `sges_n` of `struct mlx5_rxq_data`. -/
structure RxqDecls where
  RTE_PKTMBUF_HEADROOM : Nat
  sges_n_bits : Nat

/-- The usual declarations: a headroom of 128 bytes and `sges_n:2`. -/
def RxqDecls.usual : RxqDecls where
  RTE_PKTMBUF_HEADROOM := 128
  sges_n_bits := 2

/-- The value `tmpl.rxq.sges_n` holds after `tmpl.rxq.sges_n = sges_n` in the
scatter branch of `rxq_ctrl_setup`: `size` and `sges_n` are `unsigned int`,
the assignment keeps the low bits the field has room for. -/
def rxq_ctrl_setup_stored_sges_n (R : RxqDecls) (max_rx_pkt_len mb_len : Nat) : Nat :=
  let size := (R.RTE_PKTMBUF_HEADROOM + max_rx_pkt_len) % 2 ^ 32
  let sges_n := log2above ((size / mb_len + (if size % mb_len ≠ 0 then 1 else 0)) % 2 ^ 32)
  sges_n % 2 ^ R.sges_n_bits

/-- The part of `rxq_ctrl_setup` that enables scattered packets support:
from `dev_conf.rxmode.max_rx_pkt_len`, the data room `mb_len` of the pool and
`dev_conf.rxmode.enable_scatter` to the error the function returns there, or
to the value of `tmpl.rxq.sges_n` it goes on with. -/
def rxq_ctrl_setup_sges_n (R : RxqDecls) (max_rx_pkt_len mb_len : Nat)
    (enable_scatter : Bool) : Except Nat Nat :=
  if max_rx_pkt_len ≤ (mb_len + 2 ^ 32 - R.RTE_PKTMBUF_HEADROOM) % 2 ^ 32 then .ok 0
  else if enable_scatter then
    let sges_n := rxq_ctrl_setup_stored_sges_n R max_rx_pkt_len mb_len
    let size := (mb_len * (1 <<< sges_n)) % 2 ^ 32
    let size := (size + 2 ^ 32 - R.RTE_PKTMBUF_HEADROOM) % 2 ^ 32
    if size < max_rx_pkt_len then .error EOVERFLOW else .ok sges_n
  else .ok 0

/-- A state of the device in which every live object has an address below
the next one to hand out. -/
def Hw.wf (hw : Hw) : Prop :=
  (∀ t ∈ hw.ind_tables, t.handle < hw.next_handle) ∧
  (∀ q ∈ hw.qps, q.handle < hw.next_handle)

/-- The state of a device on which nothing has been created yet. -/
def Hw.empty : Hw where
  next_handle := 1
  ind_tables := []
  qps := []
  destroyed := []

/-- The pairs of a template index `j` and of a type served by that template,
the types in increasing order. -/
def template_types (table : List ind_table_init_t) (j : Nat) : List (Nat × Nat) :=
  (set_bits (table.getD j default).hash_types).map (fun type => (j, type))

/-- The hash RX queues the spec requires for the templates `j .. n-1` of a
table: template by template, and inside a template one per set bit of its
mask, in increasing order. -/
def hash_rxq_plan_from (table : List ind_table_init_t) (n j : Nat) : List (Nat × Nat) :=
  (List.range' j (n - j)).flatMap (template_types table)

/-- The hash RX queues the spec requires for the first `n` templates of a
table, each one as the index of its template and its type. -/
def hash_rxq_plan (table : List ind_table_init_t) (n : Nat) : List (Nat × Nat) :=
  hash_rxq_plan_from table n 0

/-- The creation of one queue pair per element of a plan, the `i`-th hash RX
queue first, up to the first creation that fails. -/
def run_plan (F : Faults) (ind_tables : List (Option Nat)) :
    List (Nat × Nat) → Nat → List hash_rxq → Hw → Option Nat × List hash_rxq × Hw
  | [], _, hash_rxqs, hw => (none, hash_rxqs, hw)
  | (j, type) :: plan, i, hash_rxqs, hw =>
    match ibv_create_qp_ex F i (ind_tables.getD j none) hw with
    | (.error errno, hw) =>
      (some (if errno ≠ 0 then errno else EINVAL),
        hash_rxqs.set i { qp := none, type := type }, hw)
    | (.ok qp, hw) =>
      run_plan F ind_tables plan (i + 1) (hash_rxqs.set i { qp := some qp, type := type }) hw

/-- The indirection table `priv_create_hash_rxqs` is to create for a
template, at the address `handle`. -/
def expected_ind_table (reta_idx_n : Nat) (wqs : List Nat) (handle : Nat)
    (t : ind_table_init_t) : ibv_rwq_ind_table :=
  { handle := handle
    log_ind_tbl_size := log2above (if reta_idx_n < t.max_size then reta_idx_n else t.max_size)
    ind_tbl := wqs }

/-- The indirection tables of `c` consecutive templates from the `i`-th one,
at consecutive addresses from `handle`. -/
def expected_ind_tables (reta_idx_n : Nat) (wqs : List Nat) (table : List ind_table_init_t) :
    Nat → Nat → Nat → List ibv_rwq_ind_table
  | 0, _, _ => []
  | c + 1, handle, i =>
    expected_ind_table reta_idx_n wqs handle (table.getD i default) ::
      expected_ind_tables reta_idx_n wqs table c (handle + 1) (i + 1)

/-- The hash RX queues of a plan, at consecutive addresses from `handle`. -/
def expected_hash_rxqs : Nat → List (Nat × Nat) → List hash_rxq
  | _, [] => []
  | handle, (_, type) :: plan => ⟨some handle, type⟩ :: expected_hash_rxqs (handle + 1) plan

/-- The queue pairs of a plan, at consecutive addresses from `handle`, each
one bound to the indirection table of its template. -/
def expected_qps (ind_tables : List (Option Nat)) : Nat → List (Nat × Nat) → List ibv_qp
  | _, [] => []
  | handle, (j, _) :: plan =>
    ⟨handle, ind_tables.getD j none⟩ :: expected_qps ind_tables (handle + 1) plan

/-- A device with four RX queues, an indirection of four entries and the RSS
policy of TCP/IPv4 and UDP/IPv4, before any hash RX queue exists. -/
def priv.sample : priv where
  rss_hf := 0x30
  rxqs_n := 4
  rxqs_wq := [100, 101, 102, 103]
  reta_idx := [0, 1, 2, 3]
  reta_idx_n := 4
  isolated := false
  ind_tables := none
  ind_tables_n := 0
  hash_rxqs := none
  hash_rxqs_n := 0

/-- The enumeration `hash_rxq_flow_type` of `mlx5_rxtx.h`, which is not
among the sources: the five enumerators `priv_allow_flow_type` names, and
`other v` for any other value `v` the type can carry. -/
inductive hash_rxq_flow_type
  | HASH_RXQ_FLOW_TYPE_PROMISC
  | HASH_RXQ_FLOW_TYPE_ALLMULTI
  | HASH_RXQ_FLOW_TYPE_BROADCAST
  | HASH_RXQ_FLOW_TYPE_IPV6MULTI
  | HASH_RXQ_FLOW_TYPE_MAC
  | other (v : Nat)
  deriving DecidableEq, Repr

/-- The function `priv_allow_flow_type`, from the members `promisc_req` and
`allmulti_req` of `struct priv` and the flow type to the `int` it returns. -/
def priv_allow_flow_type (promisc_req allmulti_req : Nat) (type : hash_rxq_flow_type) : Nat :=
  if promisc_req ≠ 0 then
    (if type = .HASH_RXQ_FLOW_TYPE_PROMISC then 1 else 0)
  else
    match type with
    | .HASH_RXQ_FLOW_TYPE_PROMISC => if promisc_req ≠ 0 then 1 else 0
    | .HASH_RXQ_FLOW_TYPE_ALLMULTI => if allmulti_req ≠ 0 then 1 else 0
    | .HASH_RXQ_FLOW_TYPE_BROADCAST => if allmulti_req ≠ 0 then 0 else 1
    | .HASH_RXQ_FLOW_TYPE_IPV6MULTI => if allmulti_req ≠ 0 then 0 else 1
    | .HASH_RXQ_FLOW_TYPE_MAC => 1
    | .other _ => 0

/-! ## The interrupt vector of the RX queues -/

/-- Declarations `priv_rx_intr_vec_enable` takes from `rte_interrupts.h` and
from the C library: the capacity `RTE_MAX_RXTX_INTR_VEC_ID` of the event
descriptor array, the base `RTE_INTR_VEC_RXTX_OFFSET` of the vectors of the
queues, the enumerator `RTE_INTR_HANDLE_EXT` and the size of an `int`. -/
structure IntrDecls where
  RTE_MAX_RXTX_INTR_VEC_ID : Nat
  RTE_INTR_VEC_RXTX_OFFSET : Nat
  RTE_INTR_HANDLE_EXT : Nat
  sizeof_int : Nat
  deriving DecidableEq, Repr

/-- Sample declarations: 32 vectors from vector 1 on, `int` of four bytes. -/
def IntrDecls.sample : IntrDecls where
  RTE_MAX_RXTX_INTR_VEC_ID := 32
  RTE_INTR_VEC_RXTX_OFFSET := 1
  RTE_INTR_HANDLE_EXT := 5
  sizeof_int := 4

/-- The area `intr_handle->intr_vec` points to: the number of bytes asked
from `malloc` for it, and the stores made through the pointer since, oldest
first, each one the index and the value stored, whether the entry is within
those bytes or not. -/
structure intr_vec_area where
  alloc_size : Nat
  stores : List (Nat × Nat)
  deriving DecidableEq, Repr

/-- The members of `struct rte_intr_handle` the interrupt vector code reads
and writes. The pointer `intr_vec` is `none` when `NULL`; `efds` is the
array of event descriptors, of `RTE_MAX_RXTX_INTR_VEC_ID` entries. -/
structure rte_intr_handle where
  type : Nat
  intr_vec : Option intr_vec_area
  nb_efd : Nat
  efds : List Nat
  deriving DecidableEq, Repr

/-- What `priv_rx_intr_vec_enable` reads of the entry of a queue in
`priv->rxqs`: `none` when the entry is `NULL`, else the member `channel` of
the queue, `none` when `NULL`, else the descriptor `channel->fd`. -/
abbrev rxq_channel := Option (Option Nat)

/-- Outcomes of the calls `priv_rx_intr_vec_enable` makes to the C library:
whether `malloc` returns `NULL`, and for a descriptor whether the `fcntl`
that makes it non-blocking fails. -/
structure IntrFaults where
  malloc_fails : Bool
  fcntl_fails : Nat → Bool

/-- No call fails. -/
def IntrFaults.never : IntrFaults where
  malloc_fails := false
  fcntl_fails := fun _ => false

/-- The function `priv_rx_intr_vec_disable`. The effect of
`rte_intr_free_epoll_fd` on the epoll state is not modelled. -/
def priv_rx_intr_vec_disable (h : rte_intr_handle) : rte_intr_handle :=
  { h with nb_efd := 0, intr_vec := none }

/-- The store `intr_handle->intr_vec[i] = v`, recorded whatever the size of
the area is: `none` when the pointer is `NULL` only. The store the C program
defines is `intr_vec_store_checked`, which has the bounds of the area. -/
def intr_vec_store (h : rte_intr_handle) (i v : Nat) : Option rte_intr_handle :=
  match h.intr_vec with
  | none => none
  | some a => some { h with intr_vec := some { a with stores := a.stores ++ [(i, v)] } }

/-- The loop of `priv_rx_intr_vec_enable` from index `i` on, for `fuel`
iterations, with `count` descriptors stored so far, on a vector which
records every store. The result is `none` when an access is out of the
bounds of `priv->rxqs` or of `efds`; else the value the function returns
from inside the loop, if it does, the count and the handle. -/
def rx_intr_vec_loop (I : IntrDecls) (F : IntrFaults) (rxqs : List rxq_channel) :
    Nat → Nat → Nat → rte_intr_handle → Option (Option Int × Nat × rte_intr_handle)
  | 0, _, count, h => some (none, count, h)
  | fuel + 1, i, count, h =>
    match rxqs.get? i with
    | none => none
    | some none | some (some none) =>
      match intr_vec_store h i (I.RTE_INTR_VEC_RXTX_OFFSET + I.RTE_MAX_RXTX_INTR_VEC_ID) with
      | none => none
      | some h => rx_intr_vec_loop I F rxqs fuel (i + 1) count h
    | some (some (some fd)) =>
      if count ≥ I.RTE_MAX_RXTX_INTR_VEC_ID then
        some (some (-1), count, priv_rx_intr_vec_disable h)
      else if F.fcntl_fails fd then
        some (some (-1), count, priv_rx_intr_vec_disable h)
      else
        match intr_vec_store h i (I.RTE_INTR_VEC_RXTX_OFFSET + count) with
        | none => none
        | some h =>
          if count < h.efds.length then
            rx_intr_vec_loop I F rxqs fuel (i + 1) (count + 1)
              { h with efds := h.efds.set count fd }
          else none

/-- The function `priv_rx_intr_vec_enable`, from `dev_conf.intr_conf.rxq`,
`priv->rxqs_n`, the queues and the interrupt handle to the value returned
and the handle, on a vector which records every store: the area holds the
number of bytes `malloc` is asked for, `sizeof(intr_handle->intr_vec[rxqs_n])`,
the size of one entry, and the stores made. -/
def priv_rx_intr_vec_enable (I : IntrDecls) (F : IntrFaults) (intr_conf_rxq : Bool)
    (rxqs_n : Nat) (rxqs : List rxq_channel) (h : rte_intr_handle) :
    Option (Int × rte_intr_handle) :=
  let n := min rxqs_n (I.RTE_MAX_RXTX_INTR_VEC_ID % 2 ^ 32)
  if !intr_conf_rxq then some (0, h)
  else
    let h := priv_rx_intr_vec_disable h
    if F.malloc_fails then some (-(ENOMEM : Int), h)
    else
      let h := { h with intr_vec := some { alloc_size := I.sizeof_int, stores := [] } }
      let h := { h with type := I.RTE_INTR_HANDLE_EXT }
      match rx_intr_vec_loop I F rxqs n 0 0 h with
      | none => none
      | some (some ret, _, h) => some (ret, h)
      | some (none, count, h) =>
        if count = 0 then some (0, priv_rx_intr_vec_disable h)
        else some (0, { h with nb_efd := count })

/-- The vectors of the reference table for the queues of a list, the first
of them of index `i` and `c` usable queues before it. -/
def reference_intr_vec (I : IntrDecls) : List rxq_channel → Nat → Nat → List (Nat × Nat)
  | [], _, _ => []
  | some (some _) :: rs, i, c =>
    (i, I.RTE_INTR_VEC_RXTX_OFFSET + c) :: reference_intr_vec I rs (i + 1) (c + 1)
  | _ :: rs, i, c =>
    (i, I.RTE_INTR_VEC_RXTX_OFFSET + I.RTE_MAX_RXTX_INTR_VEC_ID) ::
      reference_intr_vec I rs (i + 1) c

/-- The descriptors of the usable queues of a list: those which exist and
have an event channel. -/
def eligible_fds (rxqs : List rxq_channel) : List Nat :=
  rxqs.filterMap (fun r => r.bind id)

/-- A handle before any vector is set, with 32 event descriptors. -/
def rte_intr_handle.sample : rte_intr_handle where
  type := 0
  intr_vec := none
  nb_efd := 0
  efds := List.replicate 32 0

/-! ## Resources of the RX queues -/

/-- The value of `EEXIST` in `errno.h`. -/
def EEXIST : Nat := 17

/-- What a RX queue obtains from outside and has to give back, each one
named by the address handed out for it: a buffer of the pool
(`rte_pktmbuf_alloc`), an area of memory (`rte_calloc_socket`), a memory
region (`mlx5_mp2mr`), a completion channel (`ibv_create_comp_channel`), a
completion queue (`ibv_create_cq`) and a work queue (`ibv_create_wq`). -/
inductive rx_object
  | mbuf (h : Nat)
  | mem (h : Nat)
  | mr (h : Nat)
  | channel (h : Nat)
  | cq (h : Nat)
  | wq (h : Nat)
  deriving DecidableEq, Repr

/-- The resources outside the RX queues: the next address to hand out, the
objects which exist, and the log of the objects given back, oldest first
(`rte_pktmbuf_free_seg`, `rte_free`, `ibv_dereg_mr`,
`ibv_destroy_comp_channel`, `ibv_destroy_cq`, `ibv_destroy_wq`). -/
structure RxWorld where
  next_handle : Nat
  live : List rx_object
  released : List rx_object
  deriving DecidableEq, Repr

/-- A successful creation: the object is at the next address. -/
def RxWorld.create (w : RxWorld) (kind : Nat → rx_object) : Nat × RxWorld :=
  (w.next_handle,
    { next_handle := w.next_handle + 1
      live := w.live ++ [kind w.next_handle]
      released := w.released })

/-- An object is given back: it exists no more and the log records it. -/
def RxWorld.release (w : RxWorld) (o : rx_object) : RxWorld :=
  { next_handle := w.next_handle
    live := w.live.filter (fun x => decide (x ≠ o))
    released := w.released ++ [o] }

/-- The object of an optional address is given back: what the code does
under `if (p != NULL)`. -/
def RxWorld.release_if (w : RxWorld) (kind : Nat → rx_object) : Option Nat → RxWorld
  | none => w
  | some h => w.release (kind h)

/-- A pointer to a `struct rte_mbuf` in a slot of the ring: a buffer of the
pool, or the address of the member `fake_mbuf` of the queue. -/
inductive mbuf_ptr
  | pool (h : Nat)
  | fake_mbuf
  deriving DecidableEq, Repr

/-- What the member `elts` of `struct mlx5_rxq_data` points to: the area of
memory which holds the array and the slots of the array, `none` for
`NULL`. -/
structure rxq_elts where
  mem : Nat
  slots : List (Option mbuf_ptr)
  deriving DecidableEq, Repr

/-- A memory pool, with the data room of its buffers
(`rte_pktmbuf_data_room_size`). -/
structure rte_mempool where
  id : Nat
  data_room_size : Nat
  deriving DecidableEq, Repr

/-- The members of `struct mlx5_rxq_data` (`mlx5_rxtx.h`) the functions
below read and write. The doorbell records, the descriptors `wqes`, the
completion entries `cqes`, `cq_uar`, `cqn`, `cq_arm_sn`, `mbuf_initializer`
and the content of `fake_mbuf` are not modelled. -/
structure mlx5_rxq_data where
  csum : Bool
  csum_l2tun : Bool
  vlan_strip : Bool
  crc_present : Bool
  sges_n : Nat
  cqe_n : Nat
  elts_n : Nat
  rss_hash : Bool
  port_id : Nat
  rq_ci : Nat
  rq_pi : Nat
  cq_ci : Nat
  elts : Option rxq_elts
  mp : Option rte_mempool
  stats_idx : Nat
  deriving DecidableEq, Repr

/-- The members of `struct mlx5_rxq_ctrl` (`mlx5_rxtx.h`), the Verbs
objects as optional addresses. The pointer `priv` is not modelled: what is
read through it is passed along. -/
structure mlx5_rxq_ctrl where
  rxq : mlx5_rxq_data
  mr : Option Nat
  channel : Option Nat
  cq : Option Nat
  wq : Option Nat
  socket : Nat
  deriving DecidableEq, Repr

/-- The structure after `memset(rxq_ctrl, 0, sizeof(*rxq_ctrl))`. -/
def mlx5_rxq_ctrl.zero : mlx5_rxq_ctrl where
  rxq :=
    { csum := false, csum_l2tun := false, vlan_strip := false, crc_present := false
      sges_n := 0, cqe_n := 0, elts_n := 0, rss_hash := false, port_id := 0
      rq_ci := 0, rq_pi := 0, cq_ci := 0, elts := none, mp := none, stats_idx := 0 }
  mr := none
  channel := none
  cq := none
  wq := none
  socket := 0

/-- The structure with other slots in the array `elts` points to. -/
def mlx5_rxq_ctrl.set_slots (c : mlx5_rxq_ctrl) (slots : List (Option mbuf_ptr)) :
    mlx5_rxq_ctrl :=
  { c with rxq := { c.rxq with elts := c.rxq.elts.map (fun a => { a with slots := slots }) } }

/-- An allocated `struct mlx5_rxq_ctrl`: the area of memory which holds it,
the number of `struct rte_mbuf *` the area has room for after the structure
(the dedicated storage of the ring at `rxq_ctrl + 1`), and the structure. -/
structure rxq_ctrl_ref where
  mem : Nat
  room : Nat
  ctrl : mlx5_rxq_ctrl
  deriving DecidableEq, Repr

/-- What the RX queue functions read of `dev->data` and of `struct priv`:
the members of `dev_conf.rxmode`, `dev_conf.intr_conf.rxq`, `port_id`, and
of `priv` the number of queues and the capability flags. -/
structure RxConf where
  max_rx_pkt_len : Nat
  enable_scatter : Bool
  hw_ip_checksum : Bool
  hw_vlan_strip : Bool
  hw_strip_crc : Bool
  intr_conf_rxq : Bool
  port_id : Nat
  rxqs_n : Nat
  priv_hw_csum : Bool
  priv_hw_csum_l2tun : Bool
  priv_hw_vlan_strip : Bool
  priv_hw_fcs_strip : Bool
  priv_cqe_comp : Bool
  priv_rx_vec_en : Bool
  deriving DecidableEq, Repr

/-- Declarations the RX queue functions take from headers which are not
among the sources: those of `RxqDecls`, the widths in bits of the bit-fields
`elts_n` and `cqe_n` of `struct mlx5_rxq_data`, the macros
`MLX5_VPMD_DESCS_PER_LOOP`, `RTE_CACHE_LINE_SIZE` and `E_RTE_SECONDARY`, and
the function `rxq_check_vec_support` of the vectorized Rx code, from
`priv->rx_vec_en` and the queue to the `int` it returns. -/
structure RxDecls extends RxqDecls where
  elts_n_bits : Nat
  cqe_n_bits : Nat
  MLX5_VPMD_DESCS_PER_LOOP : Nat
  RTE_CACHE_LINE_SIZE : Nat
  E_RTE_SECONDARY : Nat
  rxq_check_vec_support : Bool → mlx5_rxq_data → Int

/-- Sample declarations: the usual ones of `RxqDecls`, `elts_n:4`,
`cqe_n:4`, four descriptors per loop, cache lines of 64 bytes, and a
vectorized Rx code which supports the queues without scattering of a device
with `rx_vec_en`. -/
def RxDecls.sample : RxDecls where
  toRxqDecls := RxqDecls.usual
  elts_n_bits := 4
  cqe_n_bits := 4
  MLX5_VPMD_DESCS_PER_LOOP := 4
  RTE_CACHE_LINE_SIZE := 64
  E_RTE_SECONDARY := 1001
  rxq_check_vec_support := fun rx_vec_en rxq =>
    if !rx_vec_en || rxq.sges_n ≠ 0 then -95 else 1

/-- Outcomes of the calls the RX queue functions make outside: whether
`mlx5_is_secondary` holds; whether the allocation of the queue structure
(`rte_calloc_socket`, `rte_realloc`) fails; whether `mlx5_mp2mr`,
`ibv_create_comp_channel`, `ibv_create_cq` and `ibv_create_wq` fail, with
the `errno` the last one leaves; the `max_wr` and `max_sge` which
`ibv_create_wq` leaves in the attributes, from those asked for; the value
`ibv_modify_wq` returns; whether the allocation of the array in `rxq_setup`
fails; the value `mlx5dv_init_obj` returns and the `cqe_size` and `cqe_cnt`
it reports; and for each index whether `rte_pktmbuf_alloc` fails there. -/
structure RxFaults where
  is_secondary : Bool
  ctrl_alloc_fails : Bool
  mp2mr_fails : Bool
  channel_fails : Bool
  cq_fails : Bool
  wq_fails : Bool
  wq_errno : Nat
  wq_granted : Nat → Nat → Nat × Nat
  modify_wq : Nat
  elts_alloc_fails : Bool
  dv_init_obj : Int
  cqe_size : Nat
  cqe_cnt : Nat
  mbuf_alloc_fails : Nat → Bool

/-- Every call succeeds, for the declarations `D` and a completion queue of
`cqe_cnt` entries. -/
def RxFaults.never (D : RxDecls) (cqe_cnt : Nat) : RxFaults where
  is_secondary := false
  ctrl_alloc_fails := false
  mp2mr_fails := false
  channel_fails := false
  cq_fails := false
  wq_fails := false
  wq_errno := 0
  wq_granted := fun max_wr max_sge => (max_wr, max_sge)
  modify_wq := 0
  elts_alloc_fails := false
  dv_init_obj := 0
  cqe_size := D.RTE_CACHE_LINE_SIZE
  cqe_cnt := cqe_cnt
  mbuf_alloc_fails := fun _ => false
/-! ## Elements of a RX queue -/

/-- The body of the loops which free the elements, for slot `i`:
`if ((*elts)[i] != NULL) rte_pktmbuf_free_seg((*elts)[i]);` then
`(*elts)[i] = NULL`. The result is `none` when the array has no slot `i`,
and when the slot holds the address of `fake_mbuf`, which is no buffer of a
pool. -/
def rxq_free_elt (st : List (Option mbuf_ptr) × RxWorld) (i : Nat) :
    Option (List (Option mbuf_ptr) × RxWorld) :=
  match st.1.get? i with
  | none => none
  | some none => some (st.1.set i none, st.2)
  | some (some (mbuf_ptr.pool h)) => some (st.1.set i none, st.2.release (rx_object.mbuf h))
  | some (some mbuf_ptr.fake_mbuf) => none

/-- The first loop of `rxq_alloc_elts` from index `i` on, for `fuel`
iterations. The result is `none` when the array has no slot for a buffer;
else the index at which `rte_pktmbuf_alloc` failed, if it did, the slots and
the resources. What the loop stores in the buffers and in `wqes` is not
modelled. -/
def rxq_alloc_elts_loop (F : RxFaults) :
    Nat → Nat → List (Option mbuf_ptr) → RxWorld →
      Option (Option Nat × List (Option mbuf_ptr) × RxWorld)
  | 0, _, elts, w => some (none, elts, w)
  | fuel + 1, i, elts, w =>
    if F.mbuf_alloc_fails i then some (some i, elts, w)
    else if i < elts.length then
      rxq_alloc_elts_loop F fuel (i + 1)
        (elts.set i (some (mbuf_ptr.pool (w.create rx_object.mbuf).1)))
        (w.create rx_object.mbuf).2
    else none

/-- The function `rxq_alloc_elts`, to the value returned, the queue and the
resources; `none` when a store is out of the bounds of the array. -/
def rxq_alloc_elts (D : RxDecls) (F : RxFaults) (conf : RxConf) (rxq_ctrl : mlx5_rxq_ctrl)
    (elts_n : Nat) (w : RxWorld) : Option (Nat × mlx5_rxq_ctrl × RxWorld) :=
  let slots := match rxq_ctrl.rxq.elts with
    | some a => a.slots
    | none => []
  match rxq_alloc_elts_loop F elts_n 0 slots w with
  | none => none
  | some (none, slots, w) =>
    if 0 < D.rxq_check_vec_support conf.priv_rx_vec_en (rxq_ctrl.set_slots slots).rxq then
      if elts_n + D.MLX5_VPMD_DESCS_PER_LOOP ≤ slots.length then
        some (0,
          rxq_ctrl.set_slots
            ((List.range D.MLX5_VPMD_DESCS_PER_LOOP).foldl
              (fun s i => s.set (elts_n + i) (some mbuf_ptr.fake_mbuf)) slots),
          w)
      else none
    else some (0, rxq_ctrl.set_slots slots, w)
  | some (some i, slots, w) =>
    match (List.range i).foldlM rxq_free_elt (slots, w) with
    | none => none
    | some (slots, w) => some (ENOMEM, rxq_ctrl.set_slots slots, w)

/-- The value of `used` in `rxq_free_elts`: `q_n - (rq_ci - rq_pi)` stored
in an `uint16_t`, for cursors of 16 bits. -/
def rxq_free_elts_used (elts_n rq_ci rq_pi : Nat) : Nat :=
  ((1 <<< elts_n) % 2 ^ 16 + 2 ^ 16 - (rq_ci + 2 ^ 16 - rq_pi) % 2 ^ 16) % 2 ^ 16

/-- The loop of `rxq_free_elts` for the vectorized Rx: the `used` slots from
`rq_ci` on are set to `NULL`. -/
def rxq_free_elts_clear (elts_n rq_ci used : Nat) (slots : List (Option mbuf_ptr)) :
    Option (List (Option mbuf_ptr)) :=
  (List.range used).foldlM
    (fun s i =>
      let k := (rq_ci + i) &&& (((1 <<< elts_n) % 2 ^ 16 + 2 ^ 16 - 1) % 2 ^ 16)
      if k < s.length then some (s.set k none) else none)
    slots

/-- The function `rxq_free_elts`, to the queue and the resources; `none`
when an access is out of the bounds of the array, when the address of
`fake_mbuf` is freed, and when the last loop does not end, its counter of 16
bits never equal to `1u << elts_n`. -/
def rxq_free_elts (D : RxDecls) (conf : RxConf) (rxq_ctrl : mlx5_rxq_ctrl) (w : RxWorld) :
    Option (mlx5_rxq_ctrl × RxWorld) :=
  let rxq := rxq_ctrl.rxq
  let used := rxq_free_elts_used rxq.elts_n rxq.rq_ci rxq.rq_pi
  match rxq.elts with
  | none => some (rxq_ctrl, w)
  | some a =>
    let vec := decide (0 < D.rxq_check_vec_support conf.priv_rx_vec_en rxq)
    match (if vec then rxq_free_elts_clear rxq.elts_n rxq.rq_ci used a.slots else some a.slots) with
    | none => none
    | some slots =>
      if 2 ^ 16 ≤ 1 <<< rxq.elts_n then none
      else
        match (List.range (1 <<< rxq.elts_n)).foldlM rxq_free_elt (slots, w) with
        | none => none
        | some (slots, w) =>
          some
            ({ rxq_ctrl with
                rxq :=
                  { rxq with
                    rq_pi := if vec then rxq.rq_ci else rxq.rq_pi
                    elts := some { a with slots := slots } } },
              w)

/-- The function `mlx5_rxq_cleanup`, to the queue and the resources. -/
def mlx5_rxq_cleanup (D : RxDecls) (conf : RxConf) (rxq_ctrl : mlx5_rxq_ctrl) (w : RxWorld) :
    Option (mlx5_rxq_ctrl × RxWorld) :=
  match rxq_free_elts D conf rxq_ctrl w with
  | none => none
  | some (c, w) =>
    some
      (mlx5_rxq_ctrl.zero,
        (((w.release_if rx_object.wq c.wq).release_if rx_object.cq c.cq).release_if
          rx_object.channel c.channel).release_if rx_object.mr c.mr)

/-! ## Setup of a RX queue -/

/-- The function `rxq_setup`, to the value returned, the template and the
resources. -/
def rxq_setup (D : RxDecls) (F : RxFaults) (conf : RxConf) (tmpl : mlx5_rxq_ctrl)
    (w : RxWorld) : Int × mlx5_rxq_ctrl × RxWorld :=
  let desc_n :=
    ((1 <<< tmpl.rxq.elts_n) + (if conf.priv_rx_vec_en then 1 else 0) *
      D.MLX5_VPMD_DESCS_PER_LOOP) % 2 ^ 16
  let elts : Option rxq_elts :=
    if F.elts_alloc_fails then none
    else some { mem := (w.create rx_object.mem).1, slots := List.replicate desc_n none }
  let w := if F.elts_alloc_fails then w else (w.create rx_object.mem).2
  if F.dv_init_obj ≠ 0 then (-(EINVAL : Int), tmpl, w)
  else if F.cqe_size ≠ D.RTE_CACHE_LINE_SIZE then ((EINVAL : Int), tmpl, w)
  else
    match elts with
    | none => ((ENOMEM : Int), tmpl, w)
    | some a =>
      (0,
        { tmpl with
          rxq :=
            { tmpl.rxq with
              cqe_n := log2above F.cqe_cnt % 2 ^ D.cqe_n_bits
              cq_ci := 0
              rq_ci := 0
              rq_pi := 0
              elts := some a } },
        w)

/-- The initial value of `tmpl` in `rxq_ctrl_setup`, with the `sges_n` and
the checksum flags the function stores in it before it creates anything. -/
def rxq_ctrl_setup_tmpl (D : RxDecls) (conf : RxConf) (desc socket : Nat) (mp : rte_mempool)
    (sges_n : Nat) : mlx5_rxq_ctrl :=
  { mlx5_rxq_ctrl.zero with
    socket := socket
    rxq :=
      { mlx5_rxq_ctrl.zero.rxq with
        elts_n := log2above desc % 2 ^ D.elts_n_bits
        mp := some mp
        rss_hash := decide (conf.rxqs_n > 1)
        sges_n := sges_n
        csum := conf.priv_hw_csum && conf.hw_ip_checksum
        csum_l2tun := conf.priv_hw_csum_l2tun && conf.hw_ip_checksum } }

/-- The part of `rxq_ctrl_setup` from the creation of the memory region to
the transition of the work queue to the ready state: `.error` with the value
of `ret`, the template and the resources at a jump to the label `error`,
`.ok` with the template and the resources after `ibv_modify_wq` succeeded.
The arguments of the Verbs calls other than the geometry of the work queue
are not modelled. -/
def rxq_ctrl_setup_verbs (F : RxFaults) (conf : RxConf) (tmpl : mlx5_rxq_ctrl) (desc : Nat)
    (w : RxWorld) : Except (Int × mlx5_rxq_ctrl × RxWorld) (mlx5_rxq_ctrl × RxWorld) :=
  if F.mp2mr_fails then .error ((EINVAL : Int), tmpl, w)
  else
    let tmpl := { tmpl with mr := some (w.create rx_object.mr).1 }
    let w := (w.create rx_object.mr).2
    if conf.intr_conf_rxq && F.channel_fails then .error ((ENOMEM : Int), tmpl, w)
    else
      let tmpl :=
        if conf.intr_conf_rxq then { tmpl with channel := some (w.create rx_object.channel).1 }
        else tmpl
      let w := if conf.intr_conf_rxq then (w.create rx_object.channel).2 else w
      if F.cq_fails then .error ((ENOMEM : Int), tmpl, w)
      else
        let tmpl := { tmpl with cq := some (w.create rx_object.cq).1 }
        let w := (w.create rx_object.cq).2
        let tmpl :=
          { tmpl with
            rxq :=
              { tmpl.rxq with
                vlan_strip := conf.priv_hw_vlan_strip && conf.hw_vlan_strip
                crc_present := !conf.hw_strip_crc && conf.priv_hw_fcs_strip } }
        if F.wq_fails then
          .error (((if F.wq_errno ≠ 0 then F.wq_errno else EINVAL : Nat) : Int), tmpl, w)
        else
          let tmpl := { tmpl with wq := some (w.create rx_object.wq).1 }
          let w := (w.create rx_object.wq).2
          let granted := F.wq_granted (desc >>> tmpl.rxq.sges_n) (1 <<< tmpl.rxq.sges_n)
          if granted.1 ≠ desc >>> tmpl.rxq.sges_n ∨ granted.2 ≠ 1 <<< tmpl.rxq.sges_n then
            .error ((EINVAL : Int), tmpl, w)
          else
            let tmpl := { tmpl with rxq := { tmpl.rxq with port_id := conf.port_id } }
            if F.modify_wq ≠ 0 then .error ((F.modify_wq : Int), tmpl, w)
            else .ok (tmpl, w)

/-- The code of `rxq_ctrl_setup` at the label `error`: the template is
cleaned up, the array `tmpl.rxq.elts` pointed to is freed and `ret` is
returned; the structure of the caller is as it was. -/
def rxq_ctrl_setup_error (D : RxDecls) (conf : RxConf) (tmpl : mlx5_rxq_ctrl) (ret : Int)
    (rxq_ctrl : rxq_ctrl_ref) (w : RxWorld) : Option (Int × rxq_ctrl_ref × RxWorld) :=
  match mlx5_rxq_cleanup D conf tmpl w with
  | none => none
  | some (_, w) =>
    some (ret, rxq_ctrl, w.release_if rx_object.mem (tmpl.rxq.elts.map (fun a => a.mem)))

/-- The function `rxq_ctrl_setup`, to the value returned, the structure of
the caller and the resources; `none` when an access is out of bounds: the
copy of the array to the dedicated storage reads `desc_n` pointers of the
array and stores them in the room after the structure. -/
def rxq_ctrl_setup (D : RxDecls) (F : RxFaults) (conf : RxConf) (rxq_ctrl : rxq_ctrl_ref)
    (desc socket : Nat) (mp : rte_mempool) (w : RxWorld) :
    Option (Int × rxq_ctrl_ref × RxWorld) :=
  let desc_n :=
    (desc + (if conf.priv_rx_vec_en then 1 else 0) * D.MLX5_VPMD_DESCS_PER_LOOP) % 2 ^ 16
  match rxq_ctrl_setup_sges_n D.toRxqDecls conf.max_rx_pkt_len mp.data_room_size
      conf.enable_scatter with
  | .error e => some ((e : Int), rxq_ctrl, w)
  | .ok sges_n =>
    if desc % (1 <<< sges_n) ≠ 0 then some ((EINVAL : Int), rxq_ctrl, w)
    else
      match rxq_ctrl_setup_verbs F conf (rxq_ctrl_setup_tmpl D conf desc socket mp sges_n) desc
          w with
      | .error (ret, tmpl, w) => rxq_ctrl_setup_error D conf tmpl ret rxq_ctrl w
      | .ok (tmpl, w) =>
        match rxq_setup D F conf tmpl w with
        | (ret, tmpl, w) =>
          if ret ≠ 0 then rxq_ctrl_setup_error D conf tmpl ret rxq_ctrl w
          else
            match rxq_alloc_elts D F conf tmpl desc w with
            | none => none
            | some (ret, tmpl, w) =>
              if ret ≠ 0 then rxq_ctrl_setup_error D conf tmpl (ret : Int) rxq_ctrl w
              else
                match mlx5_rxq_cleanup D conf rxq_ctrl.ctrl w, tmpl.rxq.elts with
                | none, _ => none
                | some _, none => none
                | some (_, w), some a =>
                  if desc_n ≤ a.slots.length ∧ desc_n ≤ rxq_ctrl.room then
                    some (0,
                      { rxq_ctrl with
                        ctrl :=
                          { tmpl with
                            rxq :=
                              { tmpl.rxq with
                                elts := some { mem := rxq_ctrl.mem, slots := a.slots.take desc_n }
                                rq_ci := (desc >>> tmpl.rxq.sges_n) % 2 ^ 16 } } },
                      w.release (rx_object.mem a.mem))
                  else none

/-- Modelled from the spec: `rte_is_power_of_2()` of `rte_common.h`, which
is not among the sources: whether `n` is a power of two. -/
def rte_is_power_of_2 (n : Nat) : Bool := decide (n = 2 ^ log2above n)

/-- The value of `desc` in `mlx5_rx_queue_setup` after the rounding to a
power of two: `1 << log2above(desc)` stored in the `uint16_t`. -/
def mlx5_rx_queue_setup_desc (desc : Nat) : Nat :=
  if rte_is_power_of_2 desc then desc else (1 <<< log2above desc) % 2 ^ 16

/-- The function `mlx5_rx_queue_setup`, from the declarations, the outcomes
of the calls, the configuration, `dev->data->dev_started`, the array
`priv->rxqs` and the arguments to the value returned, the array and the
resources. The entry of index `idx` is read as `NULL` when the array has
none. The storage after the structure has room for `desc_n` pointers, from
the `desc` of the caller. -/
def mlx5_rx_queue_setup (D : RxDecls) (F : RxFaults) (conf : RxConf) (dev_started : Bool)
    (rxqs : List (Option rxq_ctrl_ref)) (idx desc socket : Nat) (mp : rte_mempool)
    (w : RxWorld) : Option (Int × List (Option rxq_ctrl_ref) × RxWorld) :=
  let desc_n :=
    (desc + (if conf.priv_rx_vec_en then 1 else 0) * D.MLX5_VPMD_DESCS_PER_LOOP) % 2 ^ 16
  let finish (rxqs : List (Option rxq_ctrl_ref)) (rxq_ctrl : rxq_ctrl_ref) (desc : Nat)
      (w : RxWorld) : Option (Int × List (Option rxq_ctrl_ref) × RxWorld) :=
    match rxq_ctrl_setup D F conf rxq_ctrl desc socket mp w with
    | none => none
    | some (ret, rxq_ctrl, w) =>
      if ret ≠ 0 then some (-ret, rxqs, w.release (rx_object.mem rxq_ctrl.mem))
      else
        some (-ret,
          rxqs.set idx
            (some
              { rxq_ctrl with
                ctrl :=
                  { rxq_ctrl.ctrl with rxq := { rxq_ctrl.ctrl.rxq with stats_idx := idx } } }),
          w)
  if F.is_secondary then some (-(D.E_RTE_SECONDARY : Int), rxqs, w)
  else
    let desc := mlx5_rx_queue_setup_desc desc
    if idx ≥ conf.rxqs_n then some (-(EOVERFLOW : Int), rxqs, w)
    else
      match rxqs.getD idx none with
      | some rxq_ctrl =>
        if dev_started then some (-(EEXIST : Int), rxqs, w)
        else
          match mlx5_rxq_cleanup D conf rxq_ctrl.ctrl w with
          | none => none
          | some (ctrl, w) =>
            if ctrl.rxq.elts_n ≠ log2above desc then
              if F.ctrl_alloc_fails then some (-(ENOMEM : Int), rxqs.set idx none, w)
              else
                finish (rxqs.set idx none) { mem := rxq_ctrl.mem, room := desc_n, ctrl := ctrl }
                  desc w
            else finish (rxqs.set idx none) { rxq_ctrl with ctrl := ctrl } desc w
      | none =>
        if F.ctrl_alloc_fails then some (-(ENOMEM : Int), rxqs, w)
        else
          finish rxqs
            { mem := (w.create rx_object.mem).1, room := desc_n, ctrl := mlx5_rxq_ctrl.zero }
            desc (w.create rx_object.mem).2

/-- No resource yet, addresses from 1 on. -/
def RxWorld.empty : RxWorld where
  next_handle := 1
  live := []
  released := []

/-- A sample configuration: frames of up to 1518 bytes, no scattering, Rx
interrupts, two queues. -/
def RxConf.sample : RxConf where
  max_rx_pkt_len := 1518
  enable_scatter := false
  hw_ip_checksum := true
  hw_vlan_strip := false
  hw_strip_crc := true
  intr_conf_rxq := true
  port_id := 0
  rxqs_n := 2
  priv_hw_csum := true
  priv_hw_csum_l2tun := false
  priv_hw_vlan_strip := true
  priv_hw_fcs_strip := false
  priv_cqe_comp := false
  priv_rx_vec_en := false

/-- A sample pool, with buffers of 2176 bytes of data room. -/
def rte_mempool.sample : rte_mempool where
  id := 1
  data_room_size := 2176
/-! ## Reference definitions for the RX queues -/

/-- The address of an object. -/
def rx_object.handle : rx_object → Nat
  | .mbuf h => h
  | .mem h => h
  | .mr h => h
  | .channel h => h
  | .cq h => h
  | .wq h => h

/-- Resources in which every object which exists has an address below the
next one to hand out. -/
def RxWorld.wf (w : RxWorld) : Prop := ∀ o ∈ w.live, o.handle < w.next_handle

/-- The objects of a list are given back, one after the other. -/
def RxWorld.release_all (w : RxWorld) (os : List rx_object) : RxWorld :=
  os.foldl RxWorld.release w

/-- The buffer of the pool a slot holds, if any. -/
def mbuf_object : Option mbuf_ptr → Option rx_object
  | some (mbuf_ptr.pool h) => some (rx_object.mbuf h)
  | _ => none

/-- The `n` buffers of the pool at consecutive addresses from `h` on. -/
def fresh_mbufs (h n : Nat) : List rx_object := (List.range' h n).map rx_object.mbuf

/-- Slots which hold the `n` buffers of the pool at consecutive addresses
from `h` on. -/
def fresh_slots (h n : Nat) : List (Option mbuf_ptr) :=
  (List.range' h n).map (fun b => some (mbuf_ptr.pool b))
/-- Whether slot `i` of a ring of `2 ^ elts_n` slots is one of the slots
from `rq_pi` on up to `rq_ci` excluded, modulo the size of the ring, for
cursors of 16 bits: its distance from `rq_pi` is below `rq_ci - rq_pi`. -/
def rxq_slot_owned (elts_n rq_ci rq_pi i : Nat) : Bool :=
  decide ((i + 2 ^ elts_n - rq_pi % 2 ^ elts_n) % 2 ^ elts_n < (rq_ci + 2 ^ 16 - rq_pi) % 2 ^ 16)

/-- The buffers `rxq_free_elts` is to free, in the order of the slots: the
buffers of the pool in the `2 ^ elts_n` slots of the ring, for the
vectorized Rx only those in the slots from `rq_pi` up to `rq_ci`. -/
def rxq_free_elts_released (vec : Bool) (elts_n rq_ci rq_pi : Nat)
    (slots : List (Option mbuf_ptr)) : List rx_object :=
  (List.range (2 ^ elts_n)).filterMap (fun i =>
    if vec && !rxq_slot_owned elts_n rq_ci rq_pi i then none
    else mbuf_object (slots.getD i none))

/-- A ring of four slots for the vectorized Rx: four buffers of the pool,
then the padding; the slots 3 and 0 are those from `rq_pi` up to `rq_ci`. -/
def mlx5_rxq_ctrl.sample_vec : mlx5_rxq_ctrl :=
  { mlx5_rxq_ctrl.zero with
    rxq :=
      { mlx5_rxq_ctrl.zero.rxq with
        elts_n := 2
        cqe_n := 2
        rq_ci := 5
        rq_pi := 3
        elts :=
          some
            { mem := 1
              slots :=
                [some (mbuf_ptr.pool 10), some (mbuf_ptr.pool 11), some (mbuf_ptr.pool 12),
                  some (mbuf_ptr.pool 13), some mbuf_ptr.fake_mbuf, some mbuf_ptr.fake_mbuf,
                  some mbuf_ptr.fake_mbuf, some mbuf_ptr.fake_mbuf] } } }

/-- Every call the RX queue functions make outside succeeds: the process is
the primary one, the allocations and the Verbs calls succeed, the work queue
has the geometry asked for, and the completion entries have the size of a
cache line. -/
def RxFaults.ok (D : RxDecls) (F : RxFaults) : Prop :=
  F.is_secondary = false ∧ F.ctrl_alloc_fails = false ∧ F.mp2mr_fails = false ∧
  F.channel_fails = false ∧ F.cq_fails = false ∧ F.wq_fails = false ∧
  (∀ max_wr max_sge, F.wq_granted max_wr max_sge = (max_wr, max_sge)) ∧
  F.modify_wq = 0 ∧ F.elts_alloc_fails = false ∧ F.dv_init_obj = 0 ∧
  F.cqe_size = D.RTE_CACHE_LINE_SIZE ∧ ∀ i, F.mbuf_alloc_fails i = false

/-- What is assumed of the declarations: the bit-field `elts_n` has room
for the logarithm of a 16-bit count, a 16-bit count has room for the padding
after `2 ^ 15` descriptors, and the vectorized Rx code supports a queue only
on a device with `rx_vec_en` and without scattering. -/
def RxDecls.ok (D : RxDecls) (conf : RxConf) : Prop :=
  4 ≤ D.elts_n_bits ∧ D.MLX5_VPMD_DESCS_PER_LOOP < 2 ^ 15 ∧
  ∀ rxq, 0 < D.rxq_check_vec_support conf.priv_rx_vec_en rxq →
    conf.priv_rx_vec_en = true ∧ rxq.sges_n = 0

/-- The objects a queue holds: the buffers of the pool in the slots of its
ring, its work queue, its completion queue, its completion channel and its
memory region. -/
def mlx5_rxq_ctrl.objects (c : mlx5_rxq_ctrl) : List rx_object :=
  (match c.rxq.elts with
    | some a => (a.slots.take (2 ^ c.rxq.elts_n)).filterMap mbuf_object
    | none => []) ++
  (c.wq.toList.map rx_object.wq ++ (c.cq.toList.map rx_object.cq ++
    (c.channel.toList.map rx_object.channel ++ c.mr.toList.map rx_object.mr)))

/-- The slots of the array after `rxq_alloc_elts` succeeded, from the slots
before and the address `h` of the first buffer obtained: the buffers in the
slots below `elts_n`, then the padding for the vectorized Rx. -/
def rxq_alloc_elts_slots (D : RxDecls) (conf : RxConf) (rxq_ctrl : mlx5_rxq_ctrl)
    (slots : List (Option mbuf_ptr)) (elts_n h : Nat) : List (Option mbuf_ptr) :=
  if 0 < D.rxq_check_vec_support conf.priv_rx_vec_en
      (rxq_ctrl.set_slots (fresh_slots h elts_n ++ slots.drop elts_n)).rxq then
    (List.range D.MLX5_VPMD_DESCS_PER_LOOP).foldl
      (fun s i => s.set (elts_n + i) (some mbuf_ptr.fake_mbuf))
      (fresh_slots h elts_n ++ slots.drop elts_n)
  else fresh_slots h elts_n ++ slots.drop elts_n

/-- Whether the store of the entry of index `i` is within the area: the
entry, of `sizeof_int` bytes, ends at or before the number of bytes asked
from `malloc`. -/
def intr_vec_store_in_bounds (I : IntrDecls) (a : intr_vec_area) (i : Nat) : Bool :=
  decide ((i + 1) * I.sizeof_int ≤ a.alloc_size)

/-! ## The stores through `intr_vec` within the area -/

/-- The store `intr_handle->intr_vec[i] = v` as the C program defines it:
`none` when the pointer is `NULL` and when the entry is not within the bytes
asked from `malloc` for the area, where the behaviour is undefined; else
the store of `intr_vec_store`. -/
def intr_vec_store_checked (I : IntrDecls) (h : rte_intr_handle) (i v : Nat) :
    Option rte_intr_handle :=
  match h.intr_vec with
  | none => none
  | some a => if intr_vec_store_in_bounds I a i then intr_vec_store h i v else none

/-- The loop of `priv_rx_intr_vec_enable` as the C program defines it: the
statements of `rx_intr_vec_loop`, the stores through `intr_vec` being those
of `intr_vec_store_checked`. -/
def rx_intr_vec_loop_checked (I : IntrDecls) (F : IntrFaults) (rxqs : List rxq_channel) :
    Nat → Nat → Nat → rte_intr_handle → Option (Option Int × Nat × rte_intr_handle)
  | 0, _, count, h => some (none, count, h)
  | fuel + 1, i, count, h =>
    match rxqs.get? i with
    | none => none
    | some none | some (some none) =>
      match intr_vec_store_checked I h i
          (I.RTE_INTR_VEC_RXTX_OFFSET + I.RTE_MAX_RXTX_INTR_VEC_ID) with
      | none => none
      | some h => rx_intr_vec_loop_checked I F rxqs fuel (i + 1) count h
    | some (some (some fd)) =>
      if count ≥ I.RTE_MAX_RXTX_INTR_VEC_ID then
        some (some (-1), count, priv_rx_intr_vec_disable h)
      else if F.fcntl_fails fd then
        some (some (-1), count, priv_rx_intr_vec_disable h)
      else
        match intr_vec_store_checked I h i (I.RTE_INTR_VEC_RXTX_OFFSET + count) with
        | none => none
        | some h =>
          if count < h.efds.length then
            rx_intr_vec_loop_checked I F rxqs fuel (i + 1) (count + 1)
              { h with efds := h.efds.set count fd }
          else none

/-- The function `priv_rx_intr_vec_enable` as the C program defines it: the
statements of `priv_rx_intr_vec_enable` above, with no result when a store
through `intr_vec` is out of the area `malloc` was asked for. -/
def priv_rx_intr_vec_enable_checked (I : IntrDecls) (F : IntrFaults) (intr_conf_rxq : Bool)
    (rxqs_n : Nat) (rxqs : List rxq_channel) (h : rte_intr_handle) :
    Option (Int × rte_intr_handle) :=
  let n := min rxqs_n (I.RTE_MAX_RXTX_INTR_VEC_ID % 2 ^ 32)
  if !intr_conf_rxq then some (0, h)
  else
    let h := priv_rx_intr_vec_disable h
    if F.malloc_fails then some (-(ENOMEM : Int), h)
    else
      let h := { h with intr_vec := some { alloc_size := I.sizeof_int, stores := [] } }
      let h := { h with type := I.RTE_INTR_HANDLE_EXT }
      match rx_intr_vec_loop_checked I F rxqs n 0 0 h with
      | none => none
      | some (some ret, _, h) => some (ret, h)
      | some (none, count, h) =>
        if count = 0 then some (0, priv_rx_intr_vec_disable h)
        else some (0, { h with nb_efd := count })

end Mlx5

namespace Mlx5

open hash_rxq_type

/-! ## Properties of `priv_flow_attr` -/

theorem read_bytes_length (src : List Nat) (n : Nat) : (read_bytes src n).length = n := by
  simp [read_bytes]

theorem spec_payload_length (A : Abi) (T : hash_rxq_type) :
    (spec_payload A T).length = (hash_rxq_init A T).flow_spec_size := by
  simp [spec_payload, read_bytes_length]

theorem payloads_append (A : Abi) (l₁ l₂ : List hash_rxq_type) :
    payloads A (l₁ ++ l₂) = payloads A l₁ ++ payloads A l₂ := by
  induction l₁ with
  | nil => simp [payloads]
  | cons T l ih => simp [payloads, ih]

theorem payloads_length (A : Abi) (l : List hash_rxq_type) :
    (payloads A l).length = specs_size A l := by
  induction l with
  | nil => simp [payloads, specs_size]
  | cons T l ih =>
    simp only [payloads, List.length_append, ih, spec_payload_length]
    simp [specs_size]

theorem specs_size_reverse (A : Abi) (l : List hash_rxq_type) :
    specs_size A l.reverse = specs_size A l := by
  simp only [specs_size, List.map_reverse, List.sum_reverse]

/-- The size loop returns for every type of the catalog. -/
theorem flow_attr_size_loop_some (A : Abi) (T : hash_rxq_type) (offset : Nat) :
    flow_attr_size_loop A hash_rxq_init_n T offset =
      some (offset + specs_size A (chain A T)) := by
  cases T <;>
    simp [flow_attr_size_loop, hash_rxq_init_n, hash_rxq_init, chain, underlayer_chain,
      specs_size] <;> omega

/-- Shifting the start value of the size loop shifts its result. -/
theorem flow_attr_size_loop_shift (A : Abi) :
    ∀ (fuel : Nat) (init : hash_rxq_type) (offset : Nat),
      flow_attr_size_loop A fuel init offset =
        (flow_attr_size_loop A fuel init 0).map (fun s => offset + s) := by
  intro fuel
  induction fuel with
  | zero => intro init offset; simp [flow_attr_size_loop]
  | succ fuel ih =>
    intro init offset
    simp only [flow_attr_size_loop]
    cases hu : (hash_rxq_init A init).underlayer with
    | none => simp
    | some u =>
      simp only [Nat.zero_add]
      rw [ih u (offset + _), ih u ((hash_rxq_init A init).flow_spec_size)]
      cases flow_attr_size_loop A fuel u 0 <;> simp [Nat.add_assoc]

/-- The fill loop, started at the end of the area the size loop measured,
stores the payloads of the chain root first and counts them. -/
theorem flow_attr_fill_loop_eq (A : Abi) :
    ∀ (fuel : Nat) (init : hash_rxq_type) (s : Nat) (buf : flow_attr_buf),
      flow_attr_size_loop A fuel init 0 = some s →
      s ≤ buf.room.length →
      flow_attr_fill_loop A fuel init (A.sizeof_ibv_flow_attr + s) buf =
        some
          { attr :=
              { buf.attr with
                num_of_specs :=
                  (buf.attr.num_of_specs + (underlayer_chain A fuel init).length) % 256 }
            room :=
              payloads A (underlayer_chain A fuel init).reverse ++ buf.room.drop s } := by
  intro fuel
  induction fuel with
  | zero => intro init s buf h; simp [flow_attr_size_loop] at h
  | succ fuel ih =>
    intro init s buf h hlen
    simp only [flow_attr_size_loop, Nat.zero_add] at h
    simp only [flow_attr_fill_loop, underlayer_chain]
    cases hu : (hash_rxq_init A init).underlayer with
    | none =>
      simp only [hu, Option.some.injEq] at h
      subst h
      have e0 : ¬ buf.room.length < (hash_rxq_init A init).flow_spec_size := by omega
      simp [memcpy, payloads, spec_payload, read_bytes_length, e0]
    | some u =>
      simp only [hu] at h
      rw [flow_attr_size_loop_shift] at h
      cases hs : flow_attr_size_loop A fuel u 0 with
      | none => simp [hs] at h
      | some s' =>
        simp only [hs, Option.map_some', Option.some.injEq] at h
        subst h
        have e1 : A.sizeof_ibv_flow_attr + ((hash_rxq_init A init).flow_spec_size + s') -
            (hash_rxq_init A init).flow_spec_size = A.sizeof_ibv_flow_attr + s' := by omega
        simp only [e1, Nat.add_sub_cancel_left]
        rw [if_neg (by omega)]
        rw [ih u s' _ hs]
        · simp only [List.reverse_cons, payloads_append, payloads, List.append_nil,
            List.length_cons, memcpy, read_bytes_length, spec_payload]
          have hd : (List.take s' buf.room ++
              read_bytes (hash_rxq_init A init).flow_spec (hash_rxq_init A init).flow_spec_size ++
              List.drop (s' + (hash_rxq_init A init).flow_spec_size) buf.room).drop s' =
              read_bytes (hash_rxq_init A init).flow_spec (hash_rxq_init A init).flow_spec_size ++
              List.drop (s' + (hash_rxq_init A init).flow_spec_size) buf.room := by
            rw [List.append_assoc, List.drop_append_of_le_length]
            · rw [List.drop_eq_nil_of_le (by simp)]; simp
            · simp; omega
          rw [hd]
          have hm : ((buf.attr.num_of_specs + 1) % 256 +
              (underlayer_chain A fuel u).length) % 256 =
              (buf.attr.num_of_specs + ((underlayer_chain A fuel u).length + 1)) % 256 := by
            omega
          simp [hm, Nat.add_comm s']
        · simp only [memcpy, List.length_append, List.length_take, List.length_drop,
            read_bytes_length]
          omega

/-- The chain of every type starts at the type, follows the `underlayer`
links and ends at the root. -/
theorem chain_spec (A : Abi) (T : hash_rxq_type) :
    (chain A T).head? = some T ∧
    (chain A T).getLast? = some HASH_RXQ_ETH ∧
    (hash_rxq_init A HASH_RXQ_ETH).underlayer = none ∧
    List.Chain' (fun a b => (hash_rxq_init A a).underlayer = some b) (chain A T) := by
  cases T <;> simp [chain, underlayer_chain, hash_rxq_init_n, hash_rxq_init]

/-- The value `priv_flow_attr` returns and the area it leaves, for every
size for which the call is defined. -/
theorem priv_flow_attr_eq (A : Abi) (port : Nat) (buf : flow_attr_buf) (n : Nat)
    (T : hash_rxq_type) :
    priv_flow_attr A port buf n T =
      if n < required_size A T then some (required_size A T, buf)
      else if specs_size A (chain A T) ≤ buf.room.length then
        some (required_size A T,
          { attr := reference_header A port T
            room := payloads A (chain A T).reverse ++
              buf.room.drop (specs_size A (chain A T)) })
      else priv_flow_attr A port buf n T := by
  by_cases h1 : n < required_size A T
  · simp only [h1, if_true]
    simp only [priv_flow_attr, flow_attr_size_loop_some]
    simp only [required_size] at h1
    simp [h1, required_size]
  · by_cases h2 : specs_size A (chain A T) ≤ buf.room.length
    · simp only [h1, h2, if_true, if_false]
      simp only [priv_flow_attr, flow_attr_size_loop_some]
      simp only [required_size] at h1
      have h3 : ¬ (A.sizeof_ibv_flow_attr + specs_size A (chain A T) > n) := by omega
      simp only [h3, if_false]
      have hs := flow_attr_size_loop_some A T 0
      rw [Nat.zero_add] at hs
      rw [flow_attr_fill_loop_eq A hash_rxq_init_n T _
        ⟨⟨0, A.IBV_FLOW_ATTR_NORMAL, 0, ((hash_rxq_init A T).flow_priority + 3) % 65536, 0,
          port, 0⟩, buf.room⟩ hs h2]
      have hp : ((hash_rxq_init A T).flow_priority + 3) % 65536 =
          (hash_rxq_init A T).flow_priority + 3 := by
        cases T <;> simp [hash_rxq_init]
      have hl : (chain A T).length % 256 = (chain A T).length := by
        cases T <;> simp [chain, underlayer_chain, hash_rxq_init_n, hash_rxq_init]
      simp only [chain] at hl
      simp [reference_header, required_size, hp, chain, hl]
    · simp [h1, h2]

/-- C1: for every hash RX queue type `T`, `priv_flow_attr` called with
`flow_attr_size = 0` returns `sizeof(struct ibv_flow_attr)` plus the sum of
`flow_spec.hdr.size` over `T` and its underlayer ancestors up to the root, and
called with a larger or equal size (the size of the area it is given) it
returns the same value.  The chain summed over starts at `T`, follows the
`underlayer` links and ends at the root `HASH_RXQ_ETH`. -/
theorem priv_flow_attr_size (A : Abi) (port : Nat) (buf : flow_attr_buf)
    (T : hash_rxq_type) :
    (priv_flow_attr A port buf 0 T).map Prod.fst =
      some (A.sizeof_ibv_flow_attr + specs_size A (chain A T)) ∧
    (∀ n, A.sizeof_ibv_flow_attr + specs_size A (chain A T) ≤ n →
      n ≤ A.sizeof_ibv_flow_attr + buf.room.length →
      (priv_flow_attr A port buf n T).map Prod.fst =
        some (A.sizeof_ibv_flow_attr + specs_size A (chain A T))) ∧
    ((chain A T).head? = some T ∧
      (chain A T).getLast? = some HASH_RXQ_ETH ∧
      (hash_rxq_init A HASH_RXQ_ETH).underlayer = none ∧
      List.Chain' (fun a b => (hash_rxq_init A a).underlayer = some b) (chain A T)) := by
  refine ⟨?_, ?_, chain_spec A T⟩
  · rw [priv_flow_attr_eq]
    by_cases h : 0 < required_size A T
    · rw [if_pos h]; rfl
    · have h0 : specs_size A (chain A T) ≤ buf.room.length := by
        simp only [required_size] at h; omega
      rw [if_neg h, if_pos h0]; rfl
  · intro n h1 h2
    rw [priv_flow_attr_eq]
    have h0 : specs_size A (chain A T) ≤ buf.room.length := by omega
    have h3 : ¬ n < required_size A T := by simp only [required_size]; omega
    rw [if_neg h3, if_pos h0]; rfl

/-- Witness of C1 on the sample instance: TCP/IPv4 needs 20 + 20 + 24 + 40
bytes, and a call with exactly that room returns 104. -/
theorem priv_flow_attr_size_witness :
    Abi.sample.sizeof_ibv_flow_attr + specs_size Abi.sample (chain Abi.sample HASH_RXQ_TCPV4)
      ≤ 104 ∧
    104 ≤ Abi.sample.sizeof_ibv_flow_attr + (List.replicate 84 0).length ∧
    (priv_flow_attr Abi.sample 1 ⟨⟨0, 0, 0, 0, 0, 0, 0⟩, List.replicate 84 0⟩ 104
      HASH_RXQ_TCPV4).map Prod.fst = some 104 :=
  ⟨by decide, by decide,
    (priv_flow_attr_size Abi.sample 1 ⟨⟨0, 0, 0, 0, 0, 0, 0⟩, List.replicate 84 0⟩
      HASH_RXQ_TCPV4).2.1 104 (by decide) (by decide)⟩

/-- C2: for every type `T` and every `flow_attr_size` smaller than the
required size, `priv_flow_attr` leaves the area unchanged and returns the
required size; with a `flow_attr_size` at least the required size (and an
area of that size) the structure and the specifications are stored, whatever
the area held before.  So the area is written exactly when `flow_attr_size`
is at least the required size. -/
theorem priv_flow_attr_probe (A : Abi) (port : Nat) (buf : flow_attr_buf) (n : Nat)
    (T : hash_rxq_type) :
    (n < required_size A T →
      priv_flow_attr A port buf n T = some (required_size A T, buf)) ∧
    (required_size A T ≤ n → n ≤ A.sizeof_ibv_flow_attr + buf.room.length →
      ∃ b, priv_flow_attr A port buf n T = some (required_size A T, b) ∧
        b.attr = reference_header A port T ∧
        b.room.take (specs_size A (chain A T)) = payloads A (chain A T).reverse ∧
        b.room.drop (specs_size A (chain A T)) =
          buf.room.drop (specs_size A (chain A T))) := by
  constructor
  · intro h
    rw [priv_flow_attr_eq]
    simp [h]
  · intro h1 h2
    have h0 : specs_size A (chain A T) ≤ buf.room.length := by
      simp only [required_size] at h1; omega
    have h3 : ¬ n < required_size A T := by omega
    refine ⟨⟨reference_header A port T,
      payloads A (chain A T).reverse ++ buf.room.drop (specs_size A (chain A T))⟩,
      ?_, rfl, ?_, ?_⟩
    · rw [priv_flow_attr_eq, if_neg h3, if_pos h0]
    · simp only
      rw [List.take_append_of_le_length (by simp [payloads_length, specs_size_reverse])]
      rw [List.take_of_length_le (by simp [payloads_length, specs_size_reverse])]
    · simp only
      rw [List.drop_append_of_le_length (by simp [payloads_length, specs_size_reverse])]
      rw [List.drop_eq_nil_of_le (by simp [payloads_length, specs_size_reverse])]
      simp

/-- Witness of C2 on the sample instance: a probe with size 10 returns 104
and leaves the area as it was; a call with 104 bytes stores the header. -/
theorem priv_flow_attr_probe_witness :
    10 < required_size Abi.sample HASH_RXQ_TCPV4 ∧
    priv_flow_attr Abi.sample 1 ⟨⟨7, 7, 7, 7, 7, 7, 7⟩, [1, 2, 3]⟩ 10 HASH_RXQ_TCPV4 =
      some (required_size Abi.sample HASH_RXQ_TCPV4, ⟨⟨7, 7, 7, 7, 7, 7, 7⟩, [1, 2, 3]⟩) ∧
    required_size Abi.sample HASH_RXQ_TCPV4 ≤ 104 ∧
    104 ≤ Abi.sample.sizeof_ibv_flow_attr + (List.replicate 84 9).length ∧
    ∃ b, priv_flow_attr Abi.sample 1 ⟨⟨7, 7, 7, 7, 7, 7, 7⟩, List.replicate 84 9⟩ 104
        HASH_RXQ_TCPV4 = some (required_size Abi.sample HASH_RXQ_TCPV4, b) ∧
      b.attr = reference_header Abi.sample 1 HASH_RXQ_TCPV4 ∧
      b.room.take (specs_size Abi.sample (chain Abi.sample HASH_RXQ_TCPV4)) =
        payloads Abi.sample (chain Abi.sample HASH_RXQ_TCPV4).reverse ∧
      b.room.drop (specs_size Abi.sample (chain Abi.sample HASH_RXQ_TCPV4)) =
        (List.replicate 84 9).drop (specs_size Abi.sample (chain Abi.sample HASH_RXQ_TCPV4)) :=
  ⟨by decide,
    (priv_flow_attr_probe Abi.sample 1 ⟨⟨7, 7, 7, 7, 7, 7, 7⟩, [1, 2, 3]⟩ 10
      HASH_RXQ_TCPV4).1 (by decide),
    by decide, by decide,
    (priv_flow_attr_probe Abi.sample 1 ⟨⟨7, 7, 7, 7, 7, 7, 7⟩, List.replicate 84 9⟩ 104
      HASH_RXQ_TCPV4).2 (by decide) (by decide)⟩

theorem count_hash_types_eq_popcount : ∀ x < 128, count_hash_types x = popcount x := by
  decide

theorem popcount_eq_zero : ∀ x < 128, (popcount x = 0 ↔ x = 0) := by
  decide

theorem and_63_lt (s : Nat) : 63 &&& s < 128 :=
  lt_of_le_of_lt Nat.and_le_left (by decide)

/-- The bits of the supported set after the first `k` turns of the loop
that collects it. -/
theorem hash_types_sup_fold_testBit (A : Abi) (rss_hf : Nat) (k i : Nat) :
    ((List.range k).foldl (hash_types_sup_step A rss_hf) (1 <<< HASH_RXQ_ETH.toNat)).testBit i =
      (decide (i = 6) ||
        (decide (i < k) &&
          match hash_rxq_type.ofValue i with
          | some T => decide (rss_hf &&& (hash_rxq_init A T).dpdk_rss_hf ≠ 0)
          | none => false)) := by
  induction k with
  | zero =>
    simp only [List.range_zero, List.foldl_nil, hash_rxq_type.toNat, Nat.one_shiftLeft,
      Nat.testBit_two_pow, Nat.not_lt_zero, decide_False, Bool.false_and, Bool.or_false]
    by_cases h : i = 6 <;> simp [h, eq_comm]
  | succ k ih =>
    rw [List.range_succ, List.foldl_append, List.foldl_cons, List.foldl_nil]
    by_cases hik : i = k
    · subst hik
      simp only [hash_types_sup_step]
      cases hT : hash_rxq_type.ofValue i with
      | none => simp [ih, hT]
      | some T =>
        by_cases hc : rss_hf &&& (hash_rxq_init A T).dpdk_rss_hf ≠ 0
        · simp [hc, Nat.testBit_or, Nat.one_shiftLeft, Nat.testBit_two_pow]
        · simp [hc, ih, hT]
    · have hlt : (i < k + 1) = (i < k) := by
        apply propext; constructor <;> intro h <;> omega
      simp only [hlt, ← ih, hash_types_sup_step]
      cases hT : hash_rxq_type.ofValue k with
      | none => rfl
      | some T =>
        by_cases hc : rss_hf &&& (hash_rxq_init A T).dpdk_rss_hf ≠ 0
        · have : ¬ k = i := fun h => hik h.symm
          simp [hc, Nat.testBit_or, Nat.one_shiftLeft, Nat.testBit_two_pow, this]
        · simp [hc]

theorem ofValue_eq_some (i : Nat) (T : hash_rxq_type) :
    hash_rxq_type.ofValue i = some T ↔ T.toNat = i := by
  constructor
  · intro h
    match i, h with
    | 0, h | 1, h | 2, h | 3, h | 4, h | 5, h | 6, h =>
      simp only [hash_rxq_type.ofValue, Option.some.injEq] at h
      subst h
      rfl
    | i + 7, h => simp [hash_rxq_type.ofValue] at h
  · intro h
    subst h
    cases T <;> rfl

/-- The supported set: the bit of `HASH_RXQ_ETH`, and with more than one queue
the bit of every type whose RSS flags meet `rss_hf`. -/
theorem hash_types_sup_testBit (A : Abi) (rss_hf rxqs_n i : Nat) :
    (hash_types_sup A rss_hf rxqs_n).testBit i = true ↔
      i = HASH_RXQ_ETH.toNat ∨
      (1 < rxqs_n ∧ ∃ T : hash_rxq_type, T.toNat = i ∧
        rss_hf &&& (hash_rxq_init A T).dpdk_rss_hf ≠ 0) := by
  unfold hash_types_sup
  by_cases hq : rxqs_n > 1
  · rw [if_pos hq, hash_types_sup_fold_testBit]
    simp only [Bool.or_eq_true, decide_eq_true_eq, Bool.and_eq_true, hash_rxq_type.toNat]
    constructor
    · rintro (h | ⟨h1, h2⟩)
      · exact Or.inl h
      · cases hT : hash_rxq_type.ofValue i with
        | none => simp [hT] at h2
        | some T =>
          simp only [hT, decide_eq_true_eq] at h2
          exact Or.inr ⟨hq, T, (ofValue_eq_some i T).1 hT, h2⟩
    · rintro (h | ⟨_, T, hT, hc⟩)
      · exact Or.inl h
      · refine Or.inr ⟨?_, ?_⟩
        · subst hT; cases T <;> simp [hash_rxq_type.toNat, hash_rxq_init_n]
        · rw [(ofValue_eq_some i T).2 hT]
          simpa using hc
  · rw [if_neg hq]
    simp only [hash_rxq_type.toNat, Nat.one_shiftLeft, Nat.testBit_two_pow, decide_eq_true_eq]
    constructor
    · intro h; exact Or.inl h.symm
    · rintro (h | ⟨h, _⟩)
      · exact h.symm
      · exact absurd h hq

/-- The type `HASH_RXQ_ETH` is always in the supported set. -/
theorem and_hash_types_sup (A : Abi) (rss_hf rxqs_n : Nat) :
    64 &&& hash_types_sup A rss_hf rxqs_n = 64 := by
  apply Nat.eq_of_testBit_eq
  intro j
  have h6 : (hash_types_sup A rss_hf rxqs_n).testBit 6 = true :=
    (hash_types_sup_testBit A rss_hf rxqs_n 6).2 (Or.inl rfl)
  have e : (64 : Nat) = 2 ^ 6 := by norm_num
  rw [Nat.testBit_and, e, Nat.testBit_two_pow]
  by_cases hj : 6 = j
  · subst hj; simp [h6]
  · simp [hj]

/-- With at most one queue only `HASH_RXQ_ETH` is supported. -/
theorem hash_types_sup_single (A : Abi) (rss_hf rxqs_n : Nat) (h : rxqs_n ≤ 1) :
    hash_types_sup A rss_hf rxqs_n = 64 := by
  unfold hash_types_sup
  rw [if_neg (by omega)]
  rfl

/-- The result of the filtering loop for a supported set that holds
`HASH_RXQ_ETH`, on an output array of two entries. -/
theorem make_ind_table_fold_eq (s : Nat) (hs : 64 &&& s = 64) (a b : ind_table_init_t) :
    (List.range IND_TABLE_INIT_N).foldl (make_ind_table_step s)
        { table := [a, b], j := 0, table_n := 0 } =
      if count_hash_types (63 &&& s) ≠ 0 then
        { table := [⟨2 ^ 32 - 1, 63 &&& s, count_hash_types (63 &&& s)⟩, ⟨1, 64, 1⟩]
          j := 2, table_n := 2 }
      else
        { table := [⟨1, 64, 1⟩, { b with hash_types_n := 1 }], j := 1, table_n := 1 } := by
  have h64 : count_hash_types 64 = 1 := by decide
  have hr : List.range IND_TABLE_INIT_N = [0, 1] := by decide
  rw [hr]
  simp only [List.foldl_cons, List.foldl_nil]
  by_cases hc : count_hash_types (63 &&& s) ≠ 0
  · rw [if_pos hc]
    simp [make_ind_table_step, ind_table_init, hash_rxq_type.toNat, hc, hs, h64]
  · rw [if_neg hc]
    simp [make_ind_table_step, ind_table_init, hash_rxq_type.toNat, hc, hs, h64]

theorem ind_table_init_eq : ind_table_init = [⟨2 ^ 32 - 1, 63, 6⟩, ⟨1, 64, 1⟩] := by
  decide

theorem count_hash_types_ne_zero (s : Nat) : count_hash_types (63 &&& s) ≠ 0 ↔ 63 &&& s ≠ 0 := by
  rw [count_hash_types_eq_popcount _ (and_63_lt s)]
  exact not_congr (popcount_eq_zero _ (and_63_lt s))

/-- The table the spec requires, for a supported set that holds
`HASH_RXQ_ETH`. -/
theorem filtered_templates_eq (s : Nat) (hs : 64 &&& s = 64) :
    filtered_templates s =
      if 63 &&& s ≠ 0 then [⟨2 ^ 32 - 1, 63 &&& s, popcount (63 &&& s)⟩, ⟨1, 64, 1⟩]
      else [⟨1, 64, 1⟩] := by
  have h64 : popcount 64 = 1 := by decide
  by_cases hc : 63 &&& s ≠ 0
  · simp [filtered_templates, ind_table_init_eq, filtered_template, hs, hc, h64]
  · simp [filtered_templates, ind_table_init_eq, filtered_template, hs, hc, h64]

/-- The value and the output of `priv_make_ind_table_init` on an array of
two entries. -/
theorem priv_make_ind_table_init_eq (A : Abi) (rss_hf rxqs_n : Nat) (a b : ind_table_init_t) :
    priv_make_ind_table_init A rss_hf rxqs_n [a, b] =
      if 63 &&& hash_types_sup A rss_hf rxqs_n ≠ 0 then
        (2, [⟨2 ^ 32 - 1, 63 &&& hash_types_sup A rss_hf rxqs_n,
              popcount (63 &&& hash_types_sup A rss_hf rxqs_n)⟩, ⟨1, 64, 1⟩])
      else (1, [⟨1, 64, 1⟩, { b with hash_types_n := 1 }]) := by
  unfold priv_make_ind_table_init
  simp only [make_ind_table_fold_eq _ (and_hash_types_sup A rss_hf rxqs_n)]
  by_cases hc : 63 &&& hash_types_sup A rss_hf rxqs_n ≠ 0
  · rw [if_pos hc, if_pos ((count_hash_types_ne_zero _).2 hc),
      count_hash_types_eq_popcount _ (and_63_lt _)]
  · rw [if_neg hc, if_neg (fun h => hc ((count_hash_types_ne_zero _).1 h))]

theorem length_eq_two {α : Type} (l : List α) (h : l.length = 2) : ∃ a b, l = [a, b] := by
  match l, h with
  | [a, b], _ => exact ⟨a, b, rfl⟩

/-- C4: for every RSS policy mask `rss_hf` and every queue count `rxqs_n`,
`priv_make_ind_table_init` returns at least 1 and the entries it retains
contain the catch-all template, whose `hash_types` is exactly
`1 << HASH_RXQ_ETH`; with `rxqs_n <= 1` it returns exactly 1 and the
catch-all template is the only retained entry, whatever `rss_hf` is. -/
theorem priv_make_ind_table_init_catch_all (A : Abi) (rss_hf rxqs_n : Nat)
    (table : List ind_table_init_t) (ht : table.length = IND_TABLE_INIT_N) :
    1 ≤ (priv_make_ind_table_init A rss_hf rxqs_n table).1 ∧
    (⟨1, 1 <<< HASH_RXQ_ETH.toNat, 1⟩ : ind_table_init_t) ∈
      (priv_make_ind_table_init A rss_hf rxqs_n table).2.take
        (priv_make_ind_table_init A rss_hf rxqs_n table).1 ∧
    (rxqs_n ≤ 1 →
      (priv_make_ind_table_init A rss_hf rxqs_n table).1 = 1 ∧
      (priv_make_ind_table_init A rss_hf rxqs_n table).2.take 1 =
        [⟨1, 1 <<< HASH_RXQ_ETH.toNat, 1⟩]) := by
  obtain ⟨a, b, rfl⟩ := length_eq_two table ht
  have e : (1 <<< HASH_RXQ_ETH.toNat : Nat) = 64 := by decide
  rw [e, priv_make_ind_table_init_eq]
  refine ⟨?_, ?_, ?_⟩
  · split <;> simp
  · split <;> simp
  · intro h
    rw [hash_types_sup_single A rss_hf rxqs_n h]
    have h0 : (63 &&& 64 : Nat) = 0 := by decide
    simp [h0]

/-- Witness of C4: one queue and a policy that asks for every protocol. -/
theorem priv_make_ind_table_init_catch_all_witness :
    ([default, default] : List ind_table_init_t).length = IND_TABLE_INIT_N ∧
    (1 : Nat) ≤ 1 ∧
    (priv_make_ind_table_init Abi.sample 0xf3c 1 [default, default]).1 = 1 ∧
    (priv_make_ind_table_init Abi.sample 0xf3c 1 [default, default]).2.take 1 =
      [⟨1, 1 <<< HASH_RXQ_ETH.toNat, 1⟩] :=
  ⟨rfl, le_refl 1,
    (priv_make_ind_table_init_catch_all Abi.sample 0xf3c 1 [default, default] rfl).2.2
      (le_refl 1)⟩

/-- C5: for every `rss_hf` and `rxqs_n`, the value `n` returned by
`priv_make_ind_table_init` is the number of static templates whose mask
meets the supported set; the output entries `0..n-1` are those templates in
their original order; every one of them has `hash_types` the static mask
restricted to the supported set, not zero, and `hash_types_n` the number of
bits set in it, also when the first static template is dropped and the
catch-all is compacted into slot 0.  The supported set holds
`HASH_RXQ_ETH` and, with more than one queue, the types whose RSS flags meet
`rss_hf`. -/
theorem priv_make_ind_table_init_filtered (A : Abi) (rss_hf rxqs_n : Nat)
    (table : List ind_table_init_t) (ht : table.length = IND_TABLE_INIT_N) :
    (priv_make_ind_table_init A rss_hf rxqs_n table).1 =
      (ind_table_init.filter
        (fun t => t.hash_types &&& hash_types_sup A rss_hf rxqs_n ≠ 0)).length ∧
    (priv_make_ind_table_init A rss_hf rxqs_n table).2.take
        (priv_make_ind_table_init A rss_hf rxqs_n table).1 =
      (ind_table_init.filter
        (fun t => t.hash_types &&& hash_types_sup A rss_hf rxqs_n ≠ 0)).map
        (fun t =>
          { max_size := t.max_size
            hash_types := t.hash_types &&& hash_types_sup A rss_hf rxqs_n
            hash_types_n := popcount (t.hash_types &&& hash_types_sup A rss_hf rxqs_n) }) ∧
    (∀ e ∈ (priv_make_ind_table_init A rss_hf rxqs_n table).2.take
        (priv_make_ind_table_init A rss_hf rxqs_n table).1,
      e.hash_types ≠ 0 ∧ e.hash_types_n = popcount e.hash_types) ∧
    (∀ i, (hash_types_sup A rss_hf rxqs_n).testBit i = true ↔
      i = HASH_RXQ_ETH.toNat ∨
      (1 < rxqs_n ∧ ∃ T : hash_rxq_type, T.toNat = i ∧
        rss_hf &&& (hash_rxq_init A T).dpdk_rss_hf ≠ 0)) := by
  obtain ⟨a, b, rfl⟩ := length_eq_two table ht
  have hs := and_hash_types_sup A rss_hf rxqs_n
  have h64 : popcount 64 = 1 := by decide
  have hf : (ind_table_init.filter
        (fun t => t.hash_types &&& hash_types_sup A rss_hf rxqs_n ≠ 0)).map
        (fun t =>
          ({ max_size := t.max_size
             hash_types := t.hash_types &&& hash_types_sup A rss_hf rxqs_n
             hash_types_n := popcount (t.hash_types &&& hash_types_sup A rss_hf rxqs_n) } :
            ind_table_init_t)) =
      if 63 &&& hash_types_sup A rss_hf rxqs_n ≠ 0 then
        [⟨2 ^ 32 - 1, 63 &&& hash_types_sup A rss_hf rxqs_n,
          popcount (63 &&& hash_types_sup A rss_hf rxqs_n)⟩, ⟨1, 64, 1⟩]
      else [⟨1, 64, 1⟩] := filtered_templates_eq _ hs
  rw [priv_make_ind_table_init_eq, hf]
  refine ⟨?_, ?_, ?_, hash_types_sup_testBit A rss_hf rxqs_n⟩
  · by_cases hc : 63 &&& hash_types_sup A rss_hf rxqs_n ≠ 0
    · simp [ind_table_init_eq, hs, hc]
    · simp [ind_table_init_eq, hs, hc]
  · by_cases hc : 63 &&& hash_types_sup A rss_hf rxqs_n ≠ 0
    · simp [hc]
    · simp [hc]
  · by_cases hc : 63 &&& hash_types_sup A rss_hf rxqs_n ≠ 0
    · simp [hc, h64]
    · simp [hc, h64]

/-- Witness of C5: four queues and a policy of TCP/IPv4 and UDP/IPv4. -/
theorem priv_make_ind_table_init_filtered_witness :
    ([default, default] : List ind_table_init_t).length = IND_TABLE_INIT_N ∧
    (priv_make_ind_table_init Abi.sample 0x30 4 [default, default]).1 =
      (ind_table_init.filter
        (fun t => t.hash_types &&& hash_types_sup Abi.sample 0x30 4 ≠ 0)).length :=
  ⟨rfl, (priv_make_ind_table_init_filtered Abi.sample 0x30 4 [default, default] rfl).1⟩

/-! ## Properties of `log2above` -/

theorem log2above_from_spec (v : Nat) :
    ∀ (fuel l : Nat), (∀ l', l' < l → ¬ v ≤ 2 ^ l') → v ≤ 2 ^ (l + fuel) →
      v ≤ 2 ^ log2above_from v fuel l ∧ ∀ l', v ≤ 2 ^ l' → log2above_from v fuel l ≤ l' := by
  intro fuel
  induction fuel with
  | zero =>
    intro l hlow hup
    refine ⟨by simpa [log2above_from] using hup, ?_⟩
    intro l' hl'
    simp only [log2above_from]
    by_contra hc
    exact hlow l' (by omega) hl'
  | succ fuel ih =>
    intro l hlow hup
    simp only [log2above_from]
    by_cases h : v ≤ 2 ^ l
    · rw [if_pos h]
      refine ⟨h, ?_⟩
      intro l' hl'
      by_contra hc
      exact hlow l' (by omega) hl'
    · rw [if_neg h]
      apply ih (l + 1)
      · intro l' hl'
        by_cases e : l' = l
        · subst e; exact h
        · exact hlow l' (by omega)
      · have : l + 1 + fuel = l + (fuel + 1) := by omega
        rw [this]; exact hup

/-- The helper `log2above` is the ceiling base-2 logarithm. -/
theorem log2above_spec (v : Nat) :
    v ≤ 2 ^ log2above v ∧ ∀ l, v ≤ 2 ^ l → log2above v ≤ l := by
  apply log2above_from_spec v v 0
  · intro l' hl'; omega
  · rw [Nat.zero_add]; exact le_of_lt (Nat.lt_two_pow v)

theorem log2above_pow (l : Nat) : log2above (2 ^ l) = l := by
  have h := log2above_spec (2 ^ l)
  apply le_antisymm (h.2 l (le_refl _))
  exact (Nat.pow_le_pow_iff_right (by norm_num)).1 h.1

/-! ## Properties of `priv_create_hash_rxqs` -/

theorem hash_rxq_type_from_pos_loop_eq :
    ∀ m < 128, ∀ k < 7, k < popcount m →
      hash_rxq_type_from_pos_loop m 32 0 k = (set_bits m)[k]? ∧
      ((set_bits m)[k]?.bind hash_rxq_type.ofValue).isSome = true := by
  decide

theorem set_append_cons {α : Type} (pre : List α) (x a : α) (post : List α) :
    (pre ++ x :: post).set pre.length a = (pre ++ [a]) ++ post := by
  induction pre with
  | nil => simp
  | cons y pre ih => simp [ih]

theorem Hw.eta (hw : Hw) :
    ({ hw with next_handle := hw.next_handle + 0, ind_tables := hw.ind_tables ++ [] } : Hw) = hw := by
  cases hw; simp

theorem errno_ne_zero (errno : Nat) : (if errno ≠ 0 then errno else EINVAL) ≠ 0 := by
  by_cases h : errno ≠ 0
  · rw [if_pos h]; exact h
  · rw [if_neg h]; decide

/-- The loop that creates the indirection tables: it creates the tables of
`c` consecutive templates, stores their addresses in order, and stops without
an error exactly when no creation fails. -/
theorem create_ind_tables_loop_spec (F : Faults) (reta_idx_n : Nat) (wqs : List Nat)
    (table : List ind_table_init_t) :
    ∀ (n : Nat) (pre post : List (Option Nat)) (hw : Hw), n ≤ post.length →
      ∃ c err, c ≤ n ∧
        create_ind_tables_loop F reta_idx_n wqs table n pre.length (pre ++ post) hw =
          (err, pre ++ (List.range' hw.next_handle c).map some ++ post.drop c,
            { hw with
              next_handle := hw.next_handle + c
              ind_tables := hw.ind_tables ++
                expected_ind_tables reta_idx_n wqs table c hw.next_handle pre.length }) ∧
        (err = none → c = n) ∧
        (∀ e, err = some e → e ≠ 0) ∧
        (err = none ↔ ∀ t, t < n → F.ind_table_create (pre.length + t) = none) := by
  intro n
  induction n with
  | zero =>
    intro pre post hw _
    refine ⟨0, none, le_refl 0, ?_, fun _ => rfl, fun e h => by simp at h, ?_⟩
    · simp [create_ind_tables_loop, expected_ind_tables, Hw.eta]
    · simp
  | succ n ih =>
    intro pre post hw hlen
    match post, hlen with
    | x :: post, hlen =>
      simp only [List.length_cons, Nat.add_le_add_iff_right] at hlen
      simp only [create_ind_tables_loop, ibv_create_rwq_ind_table]
      cases hF : F.ind_table_create pre.length with
      | some e =>
        refine ⟨0, some (if e ≠ 0 then e else EINVAL), Nat.zero_le _, ?_, fun h => by simp at h,
          fun e' h => ?_, ?_⟩
        · simp [expected_ind_tables, Hw.eta]
        · simp only [Option.some.injEq] at h
          rw [← h]; exact errno_ne_zero e
        · constructor
          · intro h; simp at h
          · intro h
            have := h 0 (Nat.succ_pos n)
            rw [Nat.add_zero, hF] at this
            simp at this
      | none =>
        simp only
        rw [set_append_cons]
        have hl : pre.length + 1 = (pre ++ [some hw.next_handle]).length := by simp
        rw [hl]
        obtain ⟨c, err, hc, heq, h1, h2, h3⟩ := ih (pre ++ [some hw.next_handle]) post
          { hw with
            next_handle := hw.next_handle + 1
            ind_tables := hw.ind_tables ++
              [⟨hw.next_handle,
                log2above (if reta_idx_n < (table.getD pre.length default).max_size
                  then reta_idx_n else (table.getD pre.length default).max_size), wqs⟩] } hlen
        refine ⟨c + 1, err, Nat.succ_le_succ hc, ?_, fun h => by rw [h1 h], h2, ?_⟩
        · rw [heq]
          simp only [List.range'_succ, List.map_cons, List.append_assoc, List.singleton_append,
            List.drop_succ_cons, expected_ind_tables, expected_ind_table, List.length_append,
            List.length_singleton, Prod.mk.injEq, true_and, List.cons_append, List.nil_append]
          rw [Nat.add_assoc, Nat.add_comm 1 c]
        · rw [h3]
          constructor
          · intro h t ht
            cases t with
            | zero => simpa using hF
            | succ t =>
              have := h t (by omega)
              simp only [List.length_append, List.length_singleton] at this
              rw [← this]; congr 1; omega
          · intro h t ht
            have := h (t + 1) (by omega)
            simp only [List.length_append, List.length_singleton]
            rw [← this]; congr 1; omega

theorem hash_rxq_plan_from_end (table : List ind_table_init_t) (n j : Nat) (h : n ≤ j) :
    hash_rxq_plan_from table n j = [] := by
  have : n - j = 0 := by omega
  simp [hash_rxq_plan_from, this]

theorem hash_rxq_plan_from_cons (table : List ind_table_init_t) (n j : Nat) (h : j < n) :
    hash_rxq_plan_from table n j = template_types table j ++ hash_rxq_plan_from table n (j + 1) := by
  have : n - j = (n - (j + 1)) + 1 := by omega
  simp [hash_rxq_plan_from, this, List.range'_succ]

theorem create_hash_rxqs_loop_end (F : Faults) (table : List ind_table_init_t)
    (ind_tables : List (Option Nat)) (N n i k : Nat) (arr : List hash_rxq) (hw : Hw) :
    create_hash_rxqs_loop F table ind_tables N n i N k arr hw = some (none, arr, hw) := by
  cases n <;> simp [create_hash_rxqs_loop]

theorem popcount_le : ∀ m < 128, popcount m ≤ 7 := by
  decide

/-- The loop that creates the hash RX queues follows the plan: it creates
one queue pair per element of the plan, in order. -/
theorem create_hash_rxqs_loop_eq (F : Faults) (table : List ind_table_init_t)
    (ind_tables : List (Option Nat)) (N : Nat)
    (htable : ∀ j, j < N →
      (table.getD j default).hash_types < 128 ∧
      (table.getD j default).hash_types_n = popcount (table.getD j default).hash_types ∧
      (table.getD j default).hash_types_n ≠ 0) :
    ∀ (n i j k : Nat) (arr : List hash_rxq) (hw : Hw), j < N →
      k < (table.getD j default).hash_types_n →
      create_hash_rxqs_loop F table ind_tables N n i j k arr hw =
        some (run_plan F ind_tables
          (((template_types table j).drop k ++ hash_rxq_plan_from table N (j + 1)).take n)
          i arr hw) := by
  intro n
  induction n with
  | zero => intro i j k arr hw _ _; simp [create_hash_rxqs_loop, run_plan]
  | succ n ih =>
    intro i j k arr hw hj hk
    obtain ⟨hm, hn, hn0⟩ := htable j hj
    have hkp : k < popcount (table.getD j default).hash_types := by rw [← hn]; exact hk
    have hk7 : k < 7 := lt_of_lt_of_le hkp (popcount_le _ hm)
    obtain ⟨hpos, hval⟩ := hash_rxq_type_from_pos_loop_eq _ hm k hk7 hkp
    have hlen : k < (set_bits (table.getD j default).hash_types).length := hkp
    have hget : (set_bits (table.getD j default).hash_types)[k]? =
        some ((set_bits (table.getD j default).hash_types)[k]) := List.getElem?_eq_getElem hlen
    rw [hget] at hpos hval
    have hdrop : (template_types table j).drop k =
        (j, (set_bits (table.getD j default).hash_types)[k]) ::
          (template_types table j).drop (k + 1) := by
      have hl : k < (template_types table j).length := by simpa [template_types] using hlen
      rw [List.drop_eq_getElem_cons hl]
      simp [template_types]
    obtain ⟨T, hT⟩ := Option.isSome_iff_exists.1 hval
    simp only [Option.some_bind] at hT
    have hjN : ¬ j = N := by omega
    simp only [create_hash_rxqs_loop, hjN, if_false, hash_rxq_type_from_pos, hpos, hT, hdrop,
      List.cons_append, List.take_succ_cons, run_plan, ibv_create_qp_ex]
    cases hF : F.qp_create i with
    | some e => rfl
    | none =>
      simp only
      by_cases hk1 : k + 1 < (table.getD j default).hash_types_n
      · rw [if_pos hk1]
        exact ih _ _ _ _ _ hj hk1
      · rw [if_neg hk1]
        have hnil : (template_types table j).drop (k + 1) = [] := by
          apply List.drop_eq_nil_of_le
          simp only [template_types, List.length_map]
          show popcount _ ≤ _
          omega
        rw [hnil, List.nil_append]
        by_cases hj1 : j + 1 < N
        · rw [ih _ _ _ _ _ hj1 (Nat.pos_of_ne_zero (htable _ hj1).2.2)]
          rw [List.drop_zero, ← hash_rxq_plan_from_cons table N (j + 1) hj1]
        · have hjN1 : j + 1 = N := by omega
          rw [hjN1, create_hash_rxqs_loop_end, hash_rxq_plan_from_end table N N (le_refl N)]
          simp [run_plan]

theorem Hw.eta_qps (hw : Hw) :
    ({ hw with next_handle := hw.next_handle + 0, qps := hw.qps ++ [] } : Hw) = hw := by
  cases hw; simp

/-- The creation of the queue pairs of a plan: the first `c` ones are
created and stored in order, and there is no error exactly when no
creation fails. -/
theorem run_plan_spec (F : Faults) (ind_tables : List (Option Nat)) :
    ∀ (plan : List (Nat × Nat)) (pre post : List hash_rxq) (hw : Hw),
      plan.length ≤ post.length →
      ∃ c err tail, c ≤ plan.length ∧
        run_plan F ind_tables plan pre.length (pre ++ post) hw =
          (err, pre ++ expected_hash_rxqs hw.next_handle (plan.take c) ++ tail,
            { hw with
              next_handle := hw.next_handle + c
              qps := hw.qps ++ expected_qps ind_tables hw.next_handle (plan.take c) }) ∧
        (err = none → c = plan.length ∧ tail = post.drop c) ∧
        (∀ e, err = some e → e ≠ 0) ∧
        (err = none ↔ ∀ t, t < plan.length → F.qp_create (pre.length + t) = none) ∧
        ((∀ x ∈ post, x.qp = none) → ∀ x ∈ tail, x.qp = none) ∧
        tail.length + c = post.length := by
  intro plan
  induction plan with
  | nil =>
    intro pre post hw _
    refine ⟨0, none, post, le_refl 0, ?_, fun _ => ⟨rfl, rfl⟩, fun e h => by simp at h, ?_,
      fun h => h, rfl⟩
    · simp [run_plan, expected_hash_rxqs, expected_qps, Hw.eta_qps]
    · simp
  | cons jt plan ih =>
    intro pre post hw hlen
    obtain ⟨j, type⟩ := jt
    match post, hlen with
    | x :: post, hlen =>
      simp only [List.length_cons, Nat.add_le_add_iff_right] at hlen
      simp only [run_plan, ibv_create_qp_ex]
      cases hF : F.qp_create pre.length with
      | some e =>
        refine ⟨0, some (if e ≠ 0 then e else EINVAL), ⟨none, type⟩ :: post, Nat.zero_le _, ?_,
          fun h => by simp at h, fun e' h => ?_, ?_, ?_, by simp⟩
        · simp [expected_hash_rxqs, expected_qps, Hw.eta_qps, set_append_cons]
        · simp only [Option.some.injEq] at h
          rw [← h]; exact errno_ne_zero e
        · constructor
          · intro h; simp at h
          · intro h
            have := h 0 (by simp)
            rw [Nat.add_zero, hF] at this
            simp at this
        · intro h y hy
          rcases List.mem_cons.1 hy with rfl | hy
          · rfl
          · exact h y (List.mem_cons_of_mem _ hy)
      | none =>
        simp only
        rw [set_append_cons]
        have hl : pre.length + 1 =
            (pre ++ [({ qp := some hw.next_handle, type := type } : hash_rxq)]).length := by simp
        rw [hl]
        obtain ⟨c, err, tail, hc, heq, h1, h2, h3, h4, h5⟩ :=
          ih (pre ++ [⟨some hw.next_handle, type⟩]) post
            { hw with
              next_handle := hw.next_handle + 1
              qps := hw.qps ++ [⟨hw.next_handle, ind_tables.getD j none⟩] } hlen
        refine ⟨c + 1, err, tail, Nat.succ_le_succ hc, ?_, fun h => ?_, h2, ?_, ?_, ?_⟩
        · rw [heq]
          simp only [List.take_succ_cons, expected_hash_rxqs, expected_qps, List.append_assoc,
            List.singleton_append, List.cons_append, List.nil_append]
          rw [Nat.add_assoc, Nat.add_comm 1 c]
        · obtain ⟨ha, hb⟩ := h1 h
          exact ⟨by simp [ha], by simp [hb]⟩
        · rw [h3]
          constructor
          · intro h t ht
            cases t with
            | zero => simpa using hF
            | succ t =>
              have := h t (by simpa using ht)
              simp only [List.length_append, List.length_singleton] at this
              rw [← this]; congr 1; omega
          · intro h t ht
            have := h (t + 1) (by simpa using ht)
            simp only [List.length_append, List.length_singleton]
            rw [← this]; congr 1; omega
        · intro h
          exact h4 (fun y hy => h y (List.mem_cons_of_mem _ hy))
        · simp only [List.length_cons]; omega

theorem getD_append_length {α : Type} (pre : List α) (x : α) (post : List α) (d : α) :
    (pre ++ x :: post).getD pre.length d = x := by
  induction pre with
  | nil => rfl
  | cons y pre ih => simpa using ih

theorem foldl_range'_getD {α β : Type} (f : β → α → β) (d : α) :
    ∀ (arr pre : List α) (init : β),
      (List.range' pre.length arr.length).foldl (fun acc i => f acc ((pre ++ arr).getD i d)) init =
        arr.foldl f init := by
  intro arr
  induction arr with
  | nil => intro pre init; simp
  | cons x arr ih =>
    intro pre init
    simp only [List.length_cons, List.range'_succ, List.foldl_cons]
    have hx : (pre ++ x :: arr).getD pre.length d = x := getD_append_length pre x arr d
    rw [hx]
    have := ih (pre ++ [x]) (f init x)
    simp only [List.length_append, List.length_singleton, List.append_assoc,
      List.singleton_append] at this
    exact this

/-- A loop over the indices of an array is a fold over the array. -/
theorem foldl_range_getD {α β : Type} (f : β → α → β) (d : α) (arr : List α) (init : β) :
    (List.range arr.length).foldl (fun acc i => f acc (arr.getD i d)) init = arr.foldl f init := by
  have := foldl_range'_getD f d arr [] init
  simpa [List.range_eq_range'] using this

/-- Destroying the queue pairs of an array that are not `NULL` removes them
from the live queue pairs and logs them in order. -/
theorem destroy_qps_fold (arr : List hash_rxq) :
    ∀ hw : Hw,
      arr.foldl destroy_qp_if_set hw =
        { hw with
          qps := hw.qps.filter (fun q => q.handle ∉ arr.filterMap (fun x => x.qp))
          destroyed := hw.destroyed ++ (arr.filterMap (fun x => x.qp)).map hw_object.qp } := by
  induction arr with
  | nil => intro hw; cases hw; simp
  | cons x arr ih =>
    intro hw
    rw [List.foldl_cons, ih]
    cases hx : x.qp with
    | none => simp [hx, destroy_qp_if_set]
    | some qp =>
      simp only [destroy_qp_if_set, ibv_destroy_qp, List.filter_filter, List.filterMap_cons, hx, List.map_cons,
        List.append_assoc, List.singleton_append, List.mem_cons, not_or]
      congr 1
      apply List.filter_congr
      intro q _
      simp [Bool.and_comm]

/-- Destroying the indirection tables of an array that are not `NULL`
removes them from the live tables and logs them in order. -/
theorem destroy_ind_tables_fold (arr : List (Option Nat)) :
    ∀ hw : Hw,
      arr.foldl destroy_ind_table_if_set hw =
        { hw with
          ind_tables := hw.ind_tables.filter (fun t => t.handle ∉ arr.filterMap id)
          destroyed := hw.destroyed ++ (arr.filterMap id).map hw_object.ind_table } := by
  induction arr with
  | nil => intro hw; cases hw; simp
  | cons x arr ih =>
    intro hw
    rw [List.foldl_cons, ih]
    cases x with
    | none => simp [destroy_ind_table_if_set]
    | some t =>
      simp only [destroy_ind_table_if_set, ibv_destroy_rwq_ind_table, List.filter_filter, List.filterMap_cons, id,
        List.map_cons, List.append_assoc, List.singleton_append, List.mem_cons, not_or]
      congr 1
      apply List.filter_congr
      intro q _
      simp [Bool.and_comm]

theorem expected_hash_rxqs_length :
    ∀ (plan : List (Nat × Nat)) (h : Nat), (expected_hash_rxqs h plan).length = plan.length := by
  intro plan
  induction plan with
  | nil => intro h; rfl
  | cons jt plan ih =>
    intro h
    obtain ⟨j, t⟩ := jt
    simp [expected_hash_rxqs, ih]

theorem expected_hash_rxqs_qps :
    ∀ (plan : List (Nat × Nat)) (h : Nat),
      (expected_hash_rxqs h plan).filterMap (fun x => x.qp) = List.range' h plan.length := by
  intro plan
  induction plan with
  | nil => intro h; simp [expected_hash_rxqs]
  | cons jt plan ih =>
    intro h
    obtain ⟨j, t⟩ := jt
    simp [expected_hash_rxqs, ih, List.range'_succ]

theorem expected_qps_handles (ind_tables : List (Option Nat)) :
    ∀ (plan : List (Nat × Nat)) (h : Nat),
      (expected_qps ind_tables h plan).map (fun q => q.handle) = List.range' h plan.length := by
  intro plan
  induction plan with
  | nil => intro h; simp [expected_qps]
  | cons jt plan ih =>
    intro h
    obtain ⟨j, t⟩ := jt
    simp [expected_qps, ih, List.range'_succ]

theorem expected_ind_tables_handles (reta_idx_n : Nat) (wqs : List Nat)
    (table : List ind_table_init_t) :
    ∀ (c h i : Nat),
      (expected_ind_tables reta_idx_n wqs table c h i).map (fun t => t.handle) =
        List.range' h c := by
  intro c
  induction c with
  | zero => intro h i; simp [expected_ind_tables]
  | succ c ih =>
    intro h i
    simp [expected_ind_tables, expected_ind_table, ih, List.range'_succ]

theorem filterMap_none_tail (tail : List hash_rxq) (h : ∀ x ∈ tail, x.qp = none) :
    tail.filterMap (fun x => x.qp) = [] := by
  induction tail with
  | nil => rfl
  | cons x tail ih =>
    have hx := h x (List.mem_cons_self _ _)
    simp [hx, ih (fun y hy => h y (List.mem_cons_of_mem _ hy))]

/-- Removing the objects with the addresses `hs` from old objects, none of
which has such an address, followed by new objects, all of which have one,
leaves the old objects. -/
theorem filter_old_new {α : Type} (handle : α → Nat) (old new : List α) (hs : List Nat)
    (hold : ∀ q ∈ old, handle q ∉ hs) (hnew : ∀ q ∈ new, handle q ∈ hs) :
    (old ++ new).filter (fun q => handle q ∉ hs) = old := by
  rw [List.filter_append]
  have h1 : old.filter (fun q => handle q ∉ hs) = old := by
    apply List.filter_eq_self.2
    intro q hq
    simpa using hold q hq
  have h2 : new.filter (fun q => handle q ∉ hs) = [] := by
    apply List.filter_eq_nil_iff.2
    intro q hq
    simpa using hnew q hq
  rw [h1, h2, List.append_nil]

/-- What `priv_create_hash_rxqs` relies on in the table it gets back from
`priv_make_ind_table_init`. -/
theorem made_facts (A : Abi) (rss_hf rxqs_n : Nat) (junk : ind_table_init_t) :
    (priv_make_ind_table_init A rss_hf rxqs_n (List.replicate IND_TABLE_INIT_N junk)).1 ≠ 0 ∧
    (∀ j, j < (priv_make_ind_table_init A rss_hf rxqs_n
        (List.replicate IND_TABLE_INIT_N junk)).1 →
      ((priv_make_ind_table_init A rss_hf rxqs_n
        (List.replicate IND_TABLE_INIT_N junk)).2.getD j default).hash_types < 128 ∧
      ((priv_make_ind_table_init A rss_hf rxqs_n
        (List.replicate IND_TABLE_INIT_N junk)).2.getD j default).hash_types_n =
        popcount ((priv_make_ind_table_init A rss_hf rxqs_n
          (List.replicate IND_TABLE_INIT_N junk)).2.getD j default).hash_types ∧
      ((priv_make_ind_table_init A rss_hf rxqs_n
        (List.replicate IND_TABLE_INIT_N junk)).2.getD j default).hash_types_n ≠ 0) := by
  have hr : List.replicate IND_TABLE_INIT_N junk = [junk, junk] := rfl
  have h64 : popcount 64 = 1 := by decide
  rw [hr, priv_make_ind_table_init_eq]
  by_cases hc : 63 &&& hash_types_sup A rss_hf rxqs_n ≠ 0
  · rw [if_pos hc]
    refine ⟨by simp, ?_⟩
    intro j hj
    have hp : popcount (63 &&& hash_types_sup A rss_hf rxqs_n) ≠ 0 :=
      fun h => hc ((popcount_eq_zero _ (and_63_lt _)).1 h)
    have hj2 : j = 0 ∨ j = 1 := by simp only at hj; omega
    rcases hj2 with rfl | rfl
    · exact ⟨and_63_lt _, rfl, hp⟩
    · exact ⟨by simp, by simp [h64], by simp⟩
  · rw [if_neg hc]
    refine ⟨by simp, ?_⟩
    intro j hj
    have hj2 : j = 0 := by simp only at hj; omega
    subst hj2
    exact ⟨by simp, by simp [h64], by simp⟩

/-- The number of hash RX queues `priv_create_hash_rxqs` computes is the
length of the plan. -/
theorem hash_rxqs_n_eq (table : List ind_table_init_t) :
    ∀ (N : Nat), (∀ j, j < N →
        (table.getD j default).hash_types_n = popcount (table.getD j default).hash_types) →
      (List.range N).foldl (fun n i => n + (table.getD i default).hash_types_n) 0 =
        (hash_rxq_plan table N).length := by
  intro N
  induction N with
  | zero => intro _; simp [hash_rxq_plan, hash_rxq_plan_from]
  | succ N ih =>
    intro h
    rw [List.range_succ, List.foldl_append, ih (fun j hj => h j (Nat.lt_succ_of_lt hj))]
    simp only [List.foldl_cons, List.foldl_nil, hash_rxq_plan, hash_rxq_plan_from, Nat.sub_zero]
    rw [← List.range_eq_range', ← List.range_eq_range', List.range_succ, List.flatMap_append]
    have hN := h N (Nat.lt_succ_self N)
    simp only [popcount, List.getD_eq_getElem?_getD] at hN
    simp [template_types, hN]

/-- The device after the code at the label `error` has run on `c1` created
indirection tables and `c2` created queue pairs. -/
theorem create_hash_rxqs_error_eq (hw : Hw) (hwf : hw.wf) (reta_idx_n : Nat) (wqs : List Nat)
    (table : List ind_table_init_t) (N M c1 c2 : Nat) (hc1 : c1 ≤ N)
    (plan : List (Nat × Nat)) (hplan : plan.length = c2) (its : List (Option Nat))
    (tail : List hash_rxq) (htail : ∀ x ∈ tail, x.qp = none)
    (hash_rxqs : Option (List hash_rxq))
    (hrx : hash_rxqs = none ∧ c2 = 0 ∨
      hash_rxqs = some (expected_hash_rxqs (hw.next_handle + c1) plan ++ tail) ∧
        tail.length + c2 = M) :
    create_hash_rxqs_error hash_rxqs M
        (some ((List.range' hw.next_handle c1).map some ++ (List.replicate N none).drop c1)) N
        { next_handle := hw.next_handle + c1 + c2
          ind_tables := hw.ind_tables ++
            expected_ind_tables reta_idx_n wqs table c1 hw.next_handle 0
          qps := hw.qps ++ expected_qps its (hw.next_handle + c1) plan
          destroyed := hw.destroyed } =
      { next_handle := hw.next_handle + c1 + c2
        ind_tables := hw.ind_tables
        qps := hw.qps
        destroyed := hw.destroyed ++ (List.range' (hw.next_handle + c1) c2).map hw_object.qp ++
          (List.range' hw.next_handle c1).map hw_object.ind_table } := by
  have hlen1 : ((List.range' hw.next_handle c1).map some ++
      (List.replicate N (none : Option Nat)).drop c1).length = N := by
    simp; omega
  have hfm1 : ((List.range' hw.next_handle c1).map some ++
      (List.replicate N (none : Option Nat)).drop c1).filterMap id =
      List.range' hw.next_handle c1 := by
    rw [List.filterMap_append]
    have h2 : ((List.replicate N (none : Option Nat)).drop c1).filterMap id = [] := by
      simp [List.filterMap_replicate_of_none]
    rw [h2, List.append_nil, List.filterMap_map]
    simp
  have hqps : (hw.qps ++ expected_qps its (hw.next_handle + c1) plan).filter
      (fun q => q.handle ∉ List.range' (hw.next_handle + c1) c2) = hw.qps := by
    apply filter_old_new
    · intro q hq
      have := hwf.2 q hq
      simp only [List.mem_range'_1, not_and, not_lt]
      intro h; omega
    · intro q hq
      have := List.mem_map_of_mem (fun q => q.handle) hq
      rw [expected_qps_handles, hplan] at this
      exact this
  have hits : (hw.ind_tables ++ expected_ind_tables reta_idx_n wqs table c1 hw.next_handle 0).filter
      (fun t => t.handle ∉ List.range' hw.next_handle c1) = hw.ind_tables := by
    apply filter_old_new
    · intro q hq
      have := hwf.1 q hq
      simp only [List.mem_range'_1, not_and, not_lt]
      intro h; omega
    · intro q hq
      have := List.mem_map_of_mem (fun t => t.handle) hq
      rw [expected_ind_tables_handles] at this
      exact this
  unfold create_hash_rxqs_error
  simp only
  generalize (List.range' hw.next_handle c1).map some ++
    (List.replicate N (none : Option Nat)).drop c1 = arr1 at hlen1 hfm1 ⊢
  subst hlen1
  rw [foldl_range_getD destroy_ind_table_if_set, destroy_ind_tables_fold, hfm1]
  rcases hrx with ⟨rfl, rfl⟩ | ⟨rfl, hM⟩
  · simp only [hits]
    have : plan = [] := List.length_eq_zero.1 hplan
    subst this
    simp [expected_qps]
  · simp only
    have hlen2 : (expected_hash_rxqs (hw.next_handle + c1) plan ++ tail).length = M := by
      simp only [List.length_append, expected_hash_rxqs_length]; omega
    have hfm2 : (expected_hash_rxqs (hw.next_handle + c1) plan ++ tail).filterMap
        (fun x => x.qp) = List.range' (hw.next_handle + c1) c2 := by
      simp only [List.filterMap_append, expected_hash_rxqs_qps, filterMap_none_tail tail htail,
        List.append_nil, hplan]
    generalize expected_hash_rxqs (hw.next_handle + c1) plan ++ tail = arr2 at hlen2 hfm2 ⊢
    subst hlen2
    rw [foldl_range_getD destroy_qp_if_set, destroy_qps_fold, hfm2]
    simp only [hqps, hits]

/-- The two outcomes of `priv_create_hash_rxqs` on a device that is not
isolated and has a queue: either no call fails and everything is created, or
some call fails and everything created so far is destroyed. -/
theorem priv_create_hash_rxqs_outcome (A : Abi) (F : Faults) (junk : ind_table_init_t)
    (p : priv) (hw : Hw) (N : Nat) (table : List ind_table_init_t)
    (hmade : priv_make_ind_table_init A p.rss_hf p.rxqs_n
      (List.replicate IND_TABLE_INIT_N junk) = (N, table))
    (hiso : p.isolated = false) (hq : p.rxqs_n ≠ 0)
    (hwf : (F.ind_tables_alloc = true ∨ (∃ i, i < N ∧ F.ind_table_create i ≠ none) ∨
        F.hash_rxqs_alloc = true ∨
        ∃ i, i < (hash_rxq_plan table N).length ∧ F.qp_create i ≠ none) → hw.wf) :
    (F.ind_tables_alloc = false ∧ (∀ i, i < N → F.ind_table_create i = none) ∧
      F.hash_rxqs_alloc = false ∧
      (∀ i, i < (hash_rxq_plan table N).length → F.qp_create i = none) ∧
      priv_create_hash_rxqs A F junk p hw =
        some (0,
          { p with
            ind_tables := some ((List.range' hw.next_handle N).map some)
            ind_tables_n := N
            hash_rxqs := some (expected_hash_rxqs (hw.next_handle + N) (hash_rxq_plan table N))
            hash_rxqs_n := (hash_rxq_plan table N).length },
          { next_handle := hw.next_handle + N + (hash_rxq_plan table N).length
            ind_tables := hw.ind_tables ++
              expected_ind_tables p.reta_idx_n (hash_rxqs_wqs p) table N hw.next_handle 0
            qps := hw.qps ++
              expected_qps ((List.range' hw.next_handle N).map some) (hw.next_handle + N)
                (hash_rxq_plan table N)
            destroyed := hw.destroyed })) ∨
    (∃ c1 c2 ret,
      (F.ind_tables_alloc = true ∨ (∃ i, i < N ∧ F.ind_table_create i ≠ none) ∨
        F.hash_rxqs_alloc = true ∨
        ∃ i, i < (hash_rxq_plan table N).length ∧ F.qp_create i ≠ none) ∧
      ret ≠ 0 ∧ c1 ≤ N ∧ c2 ≤ (hash_rxq_plan table N).length ∧
      priv_create_hash_rxqs A F junk p hw =
        some (ret, p,
          { next_handle := hw.next_handle + c1 + c2
            ind_tables := hw.ind_tables
            qps := hw.qps
            destroyed := hw.destroyed ++
              (List.range' (hw.next_handle + c1) c2).map hw_object.qp ++
              (List.range' hw.next_handle c1).map hw_object.ind_table })) := by
  have hfacts := made_facts A p.rss_hf p.rxqs_n junk
  rw [hmade] at hfacts
  obtain ⟨hN0, htable⟩ := hfacts
  simp only at hN0 htable
  have hM := hash_rxqs_n_eq table N (fun j hj => (htable j hj).2.1)
  unfold priv_create_hash_rxqs
  simp only [hmade, hiso, hq, hN0, hM, Bool.false_eq_true, if_false]
  by_cases hF1 : F.ind_tables_alloc = true
  · -- the container of the indirection tables cannot be allocated
    right
    refine ⟨0, 0, ENOMEM, Or.inl hF1, by decide, Nat.zero_le _, Nat.zero_le _, ?_⟩
    simp [hF1, create_hash_rxqs_error]
  · have hF1' : F.ind_tables_alloc = false := by simpa using hF1
    simp only [hF1', Bool.false_eq_true, if_false]
    obtain ⟨c1, err1, hc1, heq1, h11, h12, h13⟩ :=
      create_ind_tables_loop_spec F p.reta_idx_n (hash_rxqs_wqs p) table N []
        (List.replicate N none) hw (by simp)
    simp only [List.length_nil, List.nil_append, Nat.zero_add] at heq1 h13
    rw [heq1]
    cases err1 with
    | some e =>
      -- the creation of an indirection table fails
      right
      have hfail : ∃ i, i < N ∧ F.ind_table_create i ≠ none := by
        by_contra hcon
        have : (none : Option Nat) = some e := by
          rw [eq_comm, h13]
          intro t ht
          by_contra hne
          exact hcon ⟨t, ht, hne⟩
        simp at this
      refine ⟨c1, 0, e, Or.inr (Or.inl hfail), h12 e rfl, hc1, Nat.zero_le _, ?_⟩
      simp only [Option.some.injEq, Prod.mk.injEq, true_and]
      have := create_hash_rxqs_error_eq hw (hwf (Or.inr (Or.inl hfail))) p.reta_idx_n
        (hash_rxqs_wqs p) table N (hash_rxq_plan table N).length c1 0 hc1 [] rfl [] []
        (by simp) none (Or.inl ⟨rfl, rfl⟩)
      simp only [expected_qps, List.append_nil, Nat.add_zero] at this ⊢
      rw [this]
    | none =>
      have hc1N := h11 rfl
      subst hc1N
      have hF2 : ∀ i, i < c1 → F.ind_table_create i = none := h13.1 rfl
      simp only [List.drop_replicate, Nat.sub_self, List.replicate_zero, List.append_nil]
      by_cases hF3 : F.hash_rxqs_alloc = true
      · -- the array of hash RX queues cannot be allocated
        right
        refine ⟨c1, 0, ENOMEM, Or.inr (Or.inr (Or.inl hF3)), by decide, le_refl _,
          Nat.zero_le _, ?_⟩
        simp only [hF3, if_true, Option.some.injEq, Prod.mk.injEq, true_and]
        have := create_hash_rxqs_error_eq hw (hwf (Or.inr (Or.inr (Or.inl hF3)))) p.reta_idx_n
          (hash_rxqs_wqs p) table c1 (hash_rxq_plan table c1).length c1 0 (le_refl _) [] rfl []
          [] (by simp) none (Or.inl ⟨rfl, rfl⟩)
        simp only [List.drop_replicate, Nat.sub_self, List.replicate_zero, List.append_nil,
          expected_qps, Nat.add_zero] at this ⊢
        rw [this]
      · have hF3' : F.hash_rxqs_alloc = false := by simpa using hF3
        simp only [hF3', Bool.false_eq_true, if_false]
        have hpos : 0 < c1 := Nat.pos_of_ne_zero hN0
        rw [create_hash_rxqs_loop_eq F table _ c1 htable _ 0 0 0 _ _ hpos
          (Nat.pos_of_ne_zero (htable 0 hpos).2.2)]
        rw [List.drop_zero, ← hash_rxq_plan_from_cons table c1 0 hpos]
        have hplan : hash_rxq_plan_from table c1 0 = hash_rxq_plan table c1 := rfl
        rw [hplan, List.take_length]
        obtain ⟨c2, err2, tail, hc2, heq2, h21, h22, h23, h24, h25⟩ :=
          run_plan_spec F ((List.range' hw.next_handle c1).map some) (hash_rxq_plan table c1) []
            (List.replicate (hash_rxq_plan table c1).length ⟨none, 0⟩)
            { next_handle := hw.next_handle + c1
              ind_tables := hw.ind_tables ++
                expected_ind_tables p.reta_idx_n (hash_rxqs_wqs p) table c1 hw.next_handle 0
              qps := hw.qps
              destroyed := hw.destroyed } (by simp)
        simp only [List.length_nil, List.nil_append, Nat.zero_add] at heq2 h23
        rw [heq2]
        cases err2 with
        | some e =>
          -- the creation of a queue pair fails
          right
          have hfail : ∃ i, i < (hash_rxq_plan table c1).length ∧ F.qp_create i ≠ none := by
            by_contra hcon
            have : (none : Option Nat) = some e := by
              rw [eq_comm, h23]
              intro t ht
              by_contra hne
              exact hcon ⟨t, ht, hne⟩
            simp at this
          refine ⟨c1, c2, e, Or.inr (Or.inr (Or.inr hfail)), h22 e rfl, le_refl _, hc2, ?_⟩
          simp only [Option.some.injEq, Prod.mk.injEq, true_and]
          have hl : ((hash_rxq_plan table c1).take c2).length = c2 := by
            rw [List.length_take]; omega
          have := create_hash_rxqs_error_eq hw (hwf (Or.inr (Or.inr (Or.inr hfail))))
            p.reta_idx_n (hash_rxqs_wqs p) table c1 (hash_rxq_plan table c1).length c1 c2
            (le_refl _) ((hash_rxq_plan table c1).take c2) hl
            ((List.range' hw.next_handle c1).map some) tail
            (h24 (by intro x hx; rw [List.eq_of_mem_replicate hx]))
            (some (expected_hash_rxqs (hw.next_handle + c1) ((hash_rxq_plan table c1).take c2) ++
              tail))
            (Or.inr ⟨rfl, by simpa using h25⟩)
          simp only [List.drop_replicate, Nat.sub_self, List.replicate_zero,
            List.append_nil] at this
          rw [this]
        | none =>
          left
          obtain ⟨hc2M, htail⟩ := h21 rfl
          subst hc2M
          have hF4 := h23.1 rfl
          refine ⟨trivial, hF2, trivial, hF4, ?_⟩
          simp [htail, List.take_length]

theorem expected_hash_rxqs_getElem? :
    ∀ (plan : List (Nat × Nat)) (h i : Nat),
      (expected_hash_rxqs h plan)[i]? =
        plan[i]?.map (fun jt => ({ qp := some (h + i), type := jt.2 } : hash_rxq)) := by
  intro plan
  induction plan with
  | nil => intro h i; simp [expected_hash_rxqs]
  | cons jt plan ih =>
    intro h i
    obtain ⟨j, t⟩ := jt
    cases i with
    | zero => simp [expected_hash_rxqs]
    | succ i =>
      simp only [expected_hash_rxqs, List.getElem?_cons_succ, ih]
      have : h + 1 + i = h + (i + 1) := by omega
      rw [this]

theorem expected_qps_getElem? (ind_tables : List (Option Nat)) :
    ∀ (plan : List (Nat × Nat)) (h i : Nat),
      (expected_qps ind_tables h plan)[i]? =
        plan[i]?.map (fun jt =>
          ({ handle := h + i, rwq_ind_tbl := ind_tables.getD jt.1 none } : ibv_qp)) := by
  intro plan
  induction plan with
  | nil => intro h i; simp [expected_qps]
  | cons jt plan ih =>
    intro h i
    obtain ⟨j, t⟩ := jt
    cases i with
    | zero => simp [expected_qps]
    | succ i =>
      simp only [expected_qps, List.getElem?_cons_succ, ih]
      have : h + 1 + i = h + (i + 1) := by omega
      rw [this]

theorem expected_ind_tables_getElem? (reta_idx_n : Nat) (wqs : List Nat)
    (table : List ind_table_init_t) :
    ∀ (c h i j : Nat), j < c →
      (expected_ind_tables reta_idx_n wqs table c h i)[j]? =
        some (expected_ind_table reta_idx_n wqs (h + j) (table.getD (i + j) default)) := by
  intro c
  induction c with
  | zero => intro h i j hj; omega
  | succ c ih =>
    intro h i j hj
    cases j with
    | zero => simp [expected_ind_tables]
    | succ j =>
      simp only [expected_ind_tables, List.getElem?_cons_succ]
      rw [ih (h + 1) (i + 1) j (by omega)]
      have e1 : h + 1 + j = h + (j + 1) := by omega
      have e2 : i + 1 + j = i + (j + 1) := by omega
      rw [e1, e2]

theorem getD_map_some_range' (h N j : Nat) (hj : j < N) :
    ((List.range' h N).map some).getD j none = some (h + j) := by
  simp [List.getD_eq_getElem?_getD, List.getElem?_range' _ _ hj]

theorem mem_set_bits (m t : Nat) : t ∈ set_bits m ↔ t < 32 ∧ m.testBit t = true := by
  simp [set_bits]

theorem set_bits_nodup (m : Nat) : (set_bits m).Nodup :=
  (List.nodup_range 32).filter _

/-- The plan holds every pair of a template and of a type of its mask, once. -/
theorem hash_rxq_plan_spec (table : List ind_table_init_t) (N : Nat) :
    (hash_rxq_plan table N).Nodup ∧
    ∀ j type, (j, type) ∈ hash_rxq_plan table N ↔
      j < N ∧ type < 32 ∧ ((table.getD j default).hash_types).testBit type = true := by
  constructor
  · simp only [hash_rxq_plan, hash_rxq_plan_from, Nat.sub_zero]
    rw [List.nodup_flatMap]
    constructor
    · intro j _
      apply (set_bits_nodup _).map
      intro a b h
      simpa using h
    · apply List.Pairwise.imp _ (List.nodup_range' 0 N)
      intro a b hab
      simp only [Function.onFun, List.Disjoint, template_types, List.mem_map]
      rintro ⟨j, t⟩ ⟨t1, _, h1⟩ ⟨t2, _, h2⟩
      simp only [Prod.mk.injEq] at h1 h2
      exact hab (h1.1.trans h2.1.symm)
  · intro j type
    simp only [hash_rxq_plan, hash_rxq_plan_from, Nat.sub_zero, List.mem_flatMap,
      List.mem_range'_1, template_types, List.mem_map, Prod.mk.injEq, mem_set_bits]
    constructor
    · rintro ⟨a, ⟨_, ha⟩, t, ht, rfl, rfl⟩
      exact ⟨by omega, ht⟩
    · rintro ⟨hj, ht⟩
      exact ⟨j, ⟨Nat.zero_le _, by omega⟩, type, ht, rfl, rfl⟩

theorem foldl_add_eq_sum (f : Nat → Nat) (N : Nat) :
    (List.range N).foldl (fun n i => n + f i) 0 = ((List.range N).map f).sum := by
  induction N with
  | zero => rfl
  | succ N ih => simp [List.range_succ, List.foldl_append, ih]

theorem getElem?_append_length_add {α : Type} (l₁ l₂ : List α) (i : Nat) :
    (l₁ ++ l₂)[l₁.length + i]? = l₂[i]? := by
  rw [List.getElem?_append_right (Nat.le_add_right _ _)]
  simp

theorem set_bits_sorted (m : Nat) : (set_bits m).Pairwise (fun a b => a < b) :=
  List.Pairwise.filter _ (List.pairwise_lt_range 32)

/-- C6: on a device that is not isolated and has at least one queue, when no
creation call fails, `priv_create_hash_rxqs` returns 0, creates one
indirection table per retained template and as many hash RX queues as the sum
of the `hash_types_n` of the retained templates.  The hash RX queues are
enumerated template by template and inside a template by increasing type,
`hash_rxq_type_from_pos(table, k)` being the `k`-th lowest bit set in
`table.hash_types`; the `i`-th one has the type of the `i`-th element of this
enumeration and a queue pair bound to the indirection table of its template,
so that every pair of a retained template and of a type of its mask gets
exactly one hash RX queue. -/
theorem priv_create_hash_rxqs_success (A : Abi) (F : Faults) (junk : ind_table_init_t)
    (p : priv) (hw : Hw) (N : Nat) (table : List ind_table_init_t)
    (hmade : priv_make_ind_table_init A p.rss_hf p.rxqs_n
      (List.replicate IND_TABLE_INIT_N junk) = (N, table))
    (hiso : p.isolated = false) (hq : 1 ≤ p.rxqs_n)
    (hF1 : F.ind_tables_alloc = false) (hF2 : ∀ i, F.ind_table_create i = none)
    (hF3 : F.hash_rxqs_alloc = false) (hF4 : ∀ i, F.qp_create i = none) :
    ∃ ind_tables hash_rxqs hw',
      priv_create_hash_rxqs A F junk p hw =
        some (0,
          { p with
            ind_tables := some ind_tables
            ind_tables_n := N
            hash_rxqs := some hash_rxqs
            hash_rxqs_n := ((List.range N).map (fun j => (table.getD j default).hash_types_n)).sum },
          hw') ∧
      ind_tables.length = N ∧
      hash_rxqs.length = ((List.range N).map (fun j => (table.getD j default).hash_types_n)).sum ∧
      hw'.ind_tables.length = hw.ind_tables.length + N ∧
      hw'.qps.length = hw.qps.length +
        ((List.range N).map (fun j => (table.getD j default).hash_types_n)).sum ∧
      hw'.destroyed = hw.destroyed ∧
      (∀ j, j < N →
        ind_tables[j]? = some (some (hw.next_handle + j)) ∧
        ∃ t, hw'.ind_tables[hw.ind_tables.length + j]? = some t ∧
          t.handle = hw.next_handle + j) ∧
      hash_rxq_plan table N =
        (List.range N).flatMap (fun j =>
          (set_bits (table.getD j default).hash_types).map (fun type => (j, type))) ∧
      (∀ m, (set_bits m).Pairwise (fun a b => a < b)) ∧
      (∀ i j type, (hash_rxq_plan table N)[i]? = some (j, type) →
        hash_rxqs[i]? = some ⟨some (hw.next_handle + N + i), type⟩ ∧
        hw'.qps[hw.qps.length + i]? =
          some ⟨hw.next_handle + N + i, some (hw.next_handle + j)⟩) ∧
      (hash_rxq_plan table N).length =
        ((List.range N).map (fun j => (table.getD j default).hash_types_n)).sum ∧
      (hash_rxq_plan table N).Nodup ∧
      (∀ j type, (j, type) ∈ hash_rxq_plan table N ↔
        j < N ∧ type < 32 ∧ ((table.getD j default).hash_types).testBit type = true) ∧
      (∀ j, j < N → ∀ k, k < (table.getD j default).hash_types_n →
        hash_rxq_type_from_pos (table.getD j default) k =
          (set_bits (table.getD j default).hash_types)[k]?) := by
  have hfacts := made_facts A p.rss_hf p.rxqs_n junk
  rw [hmade] at hfacts
  obtain ⟨hN0, htable⟩ := hfacts
  simp only at hN0 htable
  have hM : ((List.range N).map (fun j => (table.getD j default).hash_types_n)).sum =
      (hash_rxq_plan table N).length := by
    rw [← foldl_add_eq_sum]
    exact hash_rxqs_n_eq table N (fun j hj => (htable j hj).2.1)
  have hout := priv_create_hash_rxqs_outcome A F junk p hw N table hmade hiso (by omega)
    (by
      rintro (h | ⟨i, _, h⟩ | h | ⟨i, _, h⟩)
      · rw [hF1] at h; simp at h
      · exact absurd (hF2 i) h
      · rw [hF3] at h; simp at h
      · exact absurd (hF4 i) h)
  rcases hout with ⟨_, _, _, _, heq⟩ | ⟨c1, c2, ret, hfail, _⟩
  · refine ⟨(List.range' hw.next_handle N).map some,
      expected_hash_rxqs (hw.next_handle + N) (hash_rxq_plan table N),
      { next_handle := hw.next_handle + N + (hash_rxq_plan table N).length
        ind_tables := hw.ind_tables ++
          expected_ind_tables p.reta_idx_n (hash_rxqs_wqs p) table N hw.next_handle 0
        qps := hw.qps ++
          expected_qps ((List.range' hw.next_handle N).map some) (hw.next_handle + N)
            (hash_rxq_plan table N)
        destroyed := hw.destroyed },
      ?_, ?_, ?_, ?_, ?_, rfl, ?_, ?_, set_bits_sorted, ?_, hM.symm,
      (hash_rxq_plan_spec table N).1, (hash_rxq_plan_spec table N).2, ?_⟩
    · rw [heq, hM]
    · simp
    · rw [expected_hash_rxqs_length, hM]
    · simp only [List.length_append]
      have := congrArg List.length
        (expected_ind_tables_handles p.reta_idx_n (hash_rxqs_wqs p) table N hw.next_handle 0)
      simp only [List.length_map, List.length_range'] at this
      rw [this]
    · simp only [List.length_append]
      have := congrArg List.length
        (expected_qps_handles ((List.range' hw.next_handle N).map some)
          (hash_rxq_plan table N) (hw.next_handle + N))
      simp only [List.length_map, List.length_range'] at this
      rw [this, hM]
    · intro j hj
      refine ⟨by simp [List.getElem?_range' _ _ hj],
        expected_ind_table p.reta_idx_n (hash_rxqs_wqs p) (hw.next_handle + j)
          (table.getD (0 + j) default), ?_, ?_⟩
      · simp only
        rw [getElem?_append_length_add, expected_ind_tables_getElem? _ _ _ _ _ _ _ hj]
      · simp [expected_ind_table]
    · simp only [hash_rxq_plan, hash_rxq_plan_from, Nat.sub_zero, template_types,
        List.range_eq_range']
      rfl
    · intro i j type hi
      constructor
      · rw [expected_hash_rxqs_getElem?, hi]; rfl
      · simp only
        rw [getElem?_append_length_add, expected_qps_getElem?, hi]
        have hj : j < N :=
          ((hash_rxq_plan_spec table N).2 j type).1 (List.getElem?_mem hi) |>.1
        simp only [Option.map_some']
        rw [getD_map_some_range' _ _ _ hj]
    · intro j hj k hk
      obtain ⟨hm, hn, _⟩ := htable j hj
      have hkp : k < popcount (table.getD j default).hash_types := by rw [← hn]; exact hk
      exact (hash_rxq_type_from_pos_loop_eq _ hm k
        (lt_of_lt_of_le hkp (popcount_le _ hm)) hkp).1
  · exfalso
    rcases hfail with h | ⟨i, _, h⟩ | h | ⟨i, _, h⟩
    · rw [hF1] at h; simp at h
    · exact absurd (hF2 i) h
    · rw [hF3] at h; simp at h
    · exact absurd (hF4 i) h

/-- Witness of C6: an RSS policy of TCP/IPv4 and UDP/IPv4 with four queues
yields 2 indirection tables and 3 hash RX queues, of types `HASH_RXQ_TCPV4`,
`HASH_RXQ_UDPV4` and `HASH_RXQ_ETH`, the first two bound to the first
table. -/
theorem priv_create_hash_rxqs_success_witness :
    priv_make_ind_table_init Abi.sample priv.sample.rss_hf priv.sample.rxqs_n
        (List.replicate IND_TABLE_INIT_N default) = (2, [⟨2 ^ 32 - 1, 3, 2⟩, ⟨1, 64, 1⟩]) ∧
    priv.sample.isolated = false ∧ 1 ≤ priv.sample.rxqs_n ∧
    (∃ ind_tables hash_rxqs hw',
      priv_create_hash_rxqs Abi.sample Faults.never default priv.sample Hw.empty =
        some (0,
          { priv.sample with
            ind_tables := some ind_tables
            ind_tables_n := 2
            hash_rxqs := some hash_rxqs
            hash_rxqs_n := 3 }, hw') ∧
      ind_tables.length = 2 ∧ hash_rxqs.length = 3) ∧
    priv_create_hash_rxqs Abi.sample Faults.never default priv.sample Hw.empty =
      some (0,
        { priv.sample with
          ind_tables := some [some 1, some 2]
          ind_tables_n := 2
          hash_rxqs := some [⟨some 3, HASH_RXQ_TCPV4.toNat⟩, ⟨some 4, HASH_RXQ_UDPV4.toNat⟩,
            ⟨some 5, HASH_RXQ_ETH.toNat⟩]
          hash_rxqs_n := 3 },
        { next_handle := 6
          ind_tables := [⟨1, 2, [100, 101, 102, 103]⟩, ⟨2, 0, [100, 101, 102, 103]⟩]
          qps := [⟨3, some 1⟩, ⟨4, some 1⟩, ⟨5, some 2⟩]
          destroyed := [] }) := by
  refine ⟨by decide, rfl, by decide, ?_, by decide⟩
  obtain ⟨a, b, c, h1, h2, h3, _⟩ :=
    priv_create_hash_rxqs_success Abi.sample Faults.never default priv.sample Hw.empty 2
      [⟨2 ^ 32 - 1, 3, 2⟩, ⟨1, 64, 1⟩] (by decide) rfl (by decide) rfl (fun _ => rfl) rfl
      (fun _ => rfl)
  exact ⟨a, b, c, h1, h2, h3⟩

/-- C7: `priv_create_hash_rxqs` is all-or-nothing.  On a device that is not
isolated and has a queue, when the allocation of the container of the
indirection tables fails, or the creation of an indirection table, or the
allocation of the array of hash RX queues, or the creation of a hash RX
queue, the call returns an error code that is not zero, leaves the private
structure as it was, and leaves the live indirection tables and queue pairs
of the device as they were: the `c1` tables and `c2` queue pairs it had
created, which are all the objects it had taken an address for, have each
been destroyed once, the queue pairs first. -/
theorem priv_create_hash_rxqs_all_or_nothing (A : Abi) (F : Faults) (junk : ind_table_init_t)
    (p : priv) (hw : Hw) (N : Nat) (table : List ind_table_init_t)
    (hmade : priv_make_ind_table_init A p.rss_hf p.rxqs_n
      (List.replicate IND_TABLE_INIT_N junk) = (N, table))
    (hiso : p.isolated = false) (hq : 1 ≤ p.rxqs_n) (hwf : hw.wf)
    (hfail : F.ind_tables_alloc = true ∨ (∃ i, i < N ∧ F.ind_table_create i ≠ none) ∨
      F.hash_rxqs_alloc = true ∨
      ∃ i, i < (hash_rxq_plan table N).length ∧ F.qp_create i ≠ none) :
    ∃ ret c1 c2 hw',
      priv_create_hash_rxqs A F junk p hw = some (ret, p, hw') ∧
      ret ≠ 0 ∧
      c1 ≤ N ∧ c2 ≤ (hash_rxq_plan table N).length ∧
      hw'.next_handle = hw.next_handle + c1 + c2 ∧
      hw'.ind_tables = hw.ind_tables ∧
      hw'.qps = hw.qps ∧
      hw'.destroyed = hw.destroyed ++
        (List.range' (hw.next_handle + c1) c2).map hw_object.qp ++
        (List.range' hw.next_handle c1).map hw_object.ind_table ∧
      ((List.range' (hw.next_handle + c1) c2).map hw_object.qp ++
        (List.range' hw.next_handle c1).map hw_object.ind_table).Nodup := by
  have hout := priv_create_hash_rxqs_outcome A F junk p hw N table hmade hiso (by omega)
    (fun _ => hwf)
  rcases hout with ⟨h1, h2, h3, h4, _⟩ | ⟨c1, c2, ret, _, hret, hc1, hc2, heq⟩
  · exfalso
    rcases hfail with h | ⟨i, hi, h⟩ | h | ⟨i, hi, h⟩
    · rw [h1] at h; simp at h
    · exact h (h2 i hi)
    · rw [h3] at h; simp at h
    · exact h (h4 i hi)
  · refine ⟨ret, c1, c2, _, heq, hret, hc1, hc2, rfl, rfl, rfl, rfl, ?_⟩
    rw [List.nodup_append]
    refine ⟨?_, ?_, ?_⟩
    · apply (List.nodup_range' _ _).map
      intro a b h
      simpa using h
    · apply (List.nodup_range' _ _).map
      intro a b h
      simpa using h
    · intro x hx hy
      simp only [List.mem_map] at hx hy
      obtain ⟨a, _, rfl⟩ := hx
      obtain ⟨b, _, hb⟩ := hy
      simp at hb

/-- Witness of C7: the creation of the third queue pair fails with `errno`
5; the two tables and the two queue pairs created before are destroyed. -/
theorem priv_create_hash_rxqs_all_or_nothing_witness :
    priv_make_ind_table_init Abi.sample priv.sample.rss_hf priv.sample.rxqs_n
        (List.replicate IND_TABLE_INIT_N default) = (2, [⟨2 ^ 32 - 1, 3, 2⟩, ⟨1, 64, 1⟩]) ∧
    priv.sample.isolated = false ∧ 1 ≤ priv.sample.rxqs_n ∧ Hw.empty.wf ∧
    (∃ ret c1 c2 hw',
      priv_create_hash_rxqs Abi.sample
          { Faults.never with qp_create := fun i => if i = 2 then some 5 else none }
          default priv.sample Hw.empty = some (ret, priv.sample, hw') ∧
      ret ≠ 0 ∧ hw'.ind_tables = Hw.empty.ind_tables ∧ hw'.qps = Hw.empty.qps ∧
      hw'.next_handle = Hw.empty.next_handle + c1 + c2) ∧
    priv_create_hash_rxqs Abi.sample
        { Faults.never with qp_create := fun i => if i = 2 then some 5 else none }
        default priv.sample Hw.empty =
      some (5, priv.sample,
        { next_handle := 5
          ind_tables := []
          qps := []
          destroyed := [hw_object.qp 3, hw_object.qp 4, hw_object.ind_table 1,
            hw_object.ind_table 2] }) := by
  have hwf : Hw.empty.wf := ⟨by simp [Hw.empty], by simp [Hw.empty]⟩
  refine ⟨by decide, rfl, by decide, hwf, ?_, by decide⟩
  obtain ⟨ret, c1, c2, hw', h1, h2, _, _, h5, h6, h7, _⟩ :=
    priv_create_hash_rxqs_all_or_nothing Abi.sample
      { Faults.never with qp_create := fun i => if i = 2 then some 5 else none }
      default priv.sample Hw.empty 2 [⟨2 ^ 32 - 1, 3, 2⟩, ⟨1, 64, 1⟩] (by decide) rfl (by decide)
      hwf (Or.inr (Or.inr (Or.inr ⟨2, by decide, by simp⟩)))
  exact ⟨ret, c1, c2, hw', h1, h2, h6, h7, h5⟩

/-! ## Properties of `priv_destroy_hash_rxqs` -/

theorem foldlM_range'_get? {α β : Type} (f : β → Option α → Option β) :
    ∀ (arr pre : List α) (init : β),
      (List.range' pre.length arr.length).foldlM (fun acc i => f acc ((pre ++ arr).get? i)) init =
        arr.foldlM (fun acc x => f acc (some x)) init := by
  intro arr
  induction arr with
  | nil => intro pre init; simp
  | cons x arr ih =>
    intro pre init
    simp only [List.length_cons, List.range'_succ, List.foldlM_cons]
    have hx : (pre ++ x :: arr).get? pre.length = some x := by
      clear ih
      induction pre with
      | nil => rfl
      | cons y pre ih => simpa using ih
    rw [hx]
    congr 1
    funext b
    have := ih (pre ++ [x]) b
    simp only [List.length_append, List.length_singleton, List.append_assoc,
      List.singleton_append] at this
    exact this

/-- A loop over the indices of an array that may stop is a fold over the
array. -/
theorem foldlM_range_get? {α β : Type} (f : β → Option α → Option β) (arr : List α)
    (init : β) :
    (List.range arr.length).foldlM (fun acc i => f acc (arr.get? i)) init =
      arr.foldlM (fun acc x => f acc (some x)) init := by
  have := foldlM_range'_get? f arr [] init
  simpa [List.range_eq_range'] using this

theorem destroy_hash_rxqs_foldlM (arr : List hash_rxq) (h : ∀ x ∈ arr, x.qp ≠ none) :
    ∀ hw : Hw,
      arr.foldlM (fun hw x => destroy_hash_rxq hw (some x)) hw =
        some (arr.foldl destroy_qp_if_set hw) := by
  induction arr with
  | nil => intro hw; rfl
  | cons x arr ih =>
    intro hw
    have hx := h x (List.mem_cons_self _ _)
    obtain ⟨qp, type⟩ := x
    cases qp with
    | none => exact absurd rfl hx
    | some qp =>
      simp only [List.foldlM_cons, destroy_hash_rxq, List.foldl_cons, destroy_qp_if_set]
      exact ih (fun y hy => h y (List.mem_cons_of_mem _ hy)) _

theorem destroy_ind_tables_foldlM (arr : List (Option Nat)) (h : ∀ x ∈ arr, x ≠ none) :
    ∀ hw : Hw,
      arr.foldlM (fun hw x => destroy_ind_table hw (some x)) hw =
        some (arr.foldl destroy_ind_table_if_set hw) := by
  induction arr with
  | nil => intro hw; rfl
  | cons x arr ih =>
    intro hw
    have hx := h x (List.mem_cons_self _ _)
    cases x with
    | none => exact absurd rfl hx
    | some t =>
      simp only [List.foldlM_cons, destroy_ind_table, List.foldl_cons, destroy_ind_table_if_set]
      exact ih (fun y hy => h y (List.mem_cons_of_mem _ hy)) _

/-- On arrays without a `NULL` entry `priv_destroy_hash_rxqs` destroys what
the code after the label `error` of `priv_create_hash_rxqs` destroys. -/
theorem priv_destroy_hash_rxqs_eq (p : priv) (hw : Hw) (rx : List hash_rxq)
    (its : List (Option Nat)) (hrx : p.hash_rxqs = some rx) (hits : p.ind_tables = some its)
    (hM : p.hash_rxqs_n = rx.length) (hN : p.ind_tables_n = its.length) (h0 : rx.length ≠ 0)
    (hrx1 : ∀ x ∈ rx, x.qp ≠ none) (hits1 : ∀ x ∈ its, x ≠ none) :
    priv_destroy_hash_rxqs p hw =
      some
        ({ p with hash_rxqs_n := 0, hash_rxqs := none, ind_tables_n := 0, ind_tables := none },
          create_hash_rxqs_error (some rx) rx.length (some its) its.length hw) := by
  unfold priv_destroy_hash_rxqs create_hash_rxqs_error
  rw [hM, hN, hrx, hits, if_neg h0]
  simp only [Option.some_bind]
  rw [foldlM_range_get? destroy_hash_rxq, destroy_hash_rxqs_foldlM rx hrx1]
  simp only
  rw [foldlM_range_get? destroy_ind_table, destroy_ind_tables_foldlM its hits1]
  simp only
  rw [foldl_range_getD destroy_qp_if_set, foldl_range_getD destroy_ind_table_if_set]

theorem expected_hash_rxqs_qp_ne_none :
    ∀ (plan : List (Nat × Nat)) (h : Nat), ∀ x ∈ expected_hash_rxqs h plan, x.qp ≠ none := by
  intro plan
  induction plan with
  | nil => intro h x hx; simp [expected_hash_rxqs] at hx
  | cons jt plan ih =>
    intro h x hx
    obtain ⟨j, t⟩ := jt
    simp only [expected_hash_rxqs, List.mem_cons] at hx
    rcases hx with rfl | hx
    · simp
    · exact ih _ x hx

theorem priv_destroy_hash_rxqs_empty (p : priv) (hw : Hw) (h : p.hash_rxqs_n = 0) :
    priv_destroy_hash_rxqs p hw = some (p, hw) := by
  unfold priv_destroy_hash_rxqs
  rw [if_pos h]

theorem priv_destroy_hash_rxqs_counts (p : priv) (hw : Hw) (p1 : priv) (hw1 : Hw)
    (h : priv_destroy_hash_rxqs p hw = some (p1, hw1)) : p1.hash_rxqs_n = 0 := by
  unfold priv_destroy_hash_rxqs at h
  by_cases h0 : p.hash_rxqs_n = 0
  · rw [if_pos h0] at h
    simp only [Option.some.injEq, Prod.mk.injEq] at h
    rw [← h.1]; exact h0
  · rw [if_neg h0] at h
    split at h
    · simp at h
    · split at h
      · simp at h
      · simp only [Option.some.injEq, Prod.mk.injEq] at h
        rw [← h.1]

/-- C9: `priv_destroy_hash_rxqs` returns the set to Empty and is a no-op from
Empty.  Called on what a successful `priv_create_hash_rxqs` built, it
destroys every hash RX queue and then every indirection table, once each,
leaves the device with the live objects it had before the creation, and
leaves `hash_rxqs_n = ind_tables_n = 0` and both arrays `NULL`.  Called with
`hash_rxqs_n == 0` it destroys nothing and leaves the state unchanged, so a
second call after a first one changes nothing. -/
theorem priv_destroy_hash_rxqs_spec (A : Abi) (F : Faults) (junk : ind_table_init_t)
    (p : priv) (hw : Hw) (N : Nat) (table : List ind_table_init_t)
    (hmade : priv_make_ind_table_init A p.rss_hf p.rxqs_n
      (List.replicate IND_TABLE_INIT_N junk) = (N, table))
    (hiso : p.isolated = false) (hq : 1 ≤ p.rxqs_n) (hwf : hw.wf)
    (hF1 : F.ind_tables_alloc = false) (hF2 : ∀ i, F.ind_table_create i = none)
    (hF3 : F.hash_rxqs_alloc = false) (hF4 : ∀ i, F.qp_create i = none) :
    (∃ p' hw',
      priv_create_hash_rxqs A F junk p hw = some (0, p', hw') ∧
      hw'.ind_tables.map (fun t => t.handle) =
        hw.ind_tables.map (fun t => t.handle) ++ List.range' hw.next_handle N ∧
      hw'.qps.map (fun q => q.handle) =
        hw.qps.map (fun q => q.handle) ++
          List.range' (hw.next_handle + N) (hash_rxq_plan table N).length ∧
      hw'.destroyed = hw.destroyed ∧
      priv_destroy_hash_rxqs p' hw' =
        some
          ({ p with hash_rxqs_n := 0, hash_rxqs := none, ind_tables_n := 0, ind_tables := none },
            { next_handle := hw'.next_handle
              ind_tables := hw.ind_tables
              qps := hw.qps
              destroyed := hw.destroyed ++
                (List.range' (hw.next_handle + N) (hash_rxq_plan table N).length).map
                  hw_object.qp ++
                (List.range' hw.next_handle N).map hw_object.ind_table })) ∧
    (∀ (q : priv) (hwq : Hw), q.hash_rxqs_n = 0 → priv_destroy_hash_rxqs q hwq = some (q, hwq)) ∧
    (∀ (q : priv) (hwq : Hw) (q1 : priv) (hw1 : Hw),
      priv_destroy_hash_rxqs q hwq = some (q1, hw1) →
      priv_destroy_hash_rxqs q1 hw1 = some (q1, hw1)) := by
  refine ⟨?_, priv_destroy_hash_rxqs_empty, ?_⟩
  · have hfacts := made_facts A p.rss_hf p.rxqs_n junk
    rw [hmade] at hfacts
    obtain ⟨hN0, htable⟩ := hfacts
    simp only at hN0 htable
    have hpos : 0 < N := Nat.pos_of_ne_zero hN0
    have hplan0 : (hash_rxq_plan table N).length ≠ 0 := by
      have h1 : hash_rxq_plan table N =
          template_types table 0 ++ hash_rxq_plan_from table N 1 :=
        hash_rxq_plan_from_cons table N 0 hpos
      have h2 : (template_types table 0).length = (table.getD 0 default).hash_types_n := by
        rw [(htable 0 hpos).2.1]
        simp [template_types, popcount]
      have h3 := (htable 0 hpos).2.2
      rw [h1, List.length_append, h2]
      omega
    have hout := priv_create_hash_rxqs_outcome A F junk p hw N table hmade hiso (by omega)
      (fun _ => hwf)
    rcases hout with ⟨_, _, _, _, heq⟩ | ⟨c1, c2, ret, hfail, _⟩
    · refine ⟨_, _, heq, ?_, ?_, rfl, ?_⟩
      · simp only [List.map_append, expected_ind_tables_handles]
      · simp only [List.map_append, expected_qps_handles]
      · rw [priv_destroy_hash_rxqs_eq _ _
          (expected_hash_rxqs (hw.next_handle + N) (hash_rxq_plan table N))
          ((List.range' hw.next_handle N).map some) rfl rfl
          (by simp [expected_hash_rxqs_length]) (by simp)
          (by rw [expected_hash_rxqs_length]; exact hplan0)]
        · have herr := create_hash_rxqs_error_eq hw hwf p.reta_idx_n (hash_rxqs_wqs p) table N
            (hash_rxq_plan table N).length N (hash_rxq_plan table N).length (le_refl N)
            (hash_rxq_plan table N) rfl ((List.range' hw.next_handle N).map some) []
            (by simp)
            (some (expected_hash_rxqs (hw.next_handle + N) (hash_rxq_plan table N) ++ []))
            (Or.inr ⟨rfl, by simp⟩)
          simp only [List.drop_replicate, Nat.sub_self, List.replicate_zero,
            List.append_nil] at herr
          simp only [expected_hash_rxqs_length, List.length_map, List.length_range']
          rw [herr]
        · exact expected_hash_rxqs_qp_ne_none _ _
        · intro x hx
          simp only [List.mem_map] at hx
          obtain ⟨a, _, rfl⟩ := hx
          simp
    · exfalso
      rcases hfail with h | ⟨i, _, h⟩ | h | ⟨i, _, h⟩
      · rw [hF1] at h; simp at h
      · exact absurd (hF2 i) h
      · rw [hF3] at h; simp at h
      · exact absurd (hF4 i) h
  · intro q hwq q1 hw1 h
    exact priv_destroy_hash_rxqs_empty q1 hw1 (priv_destroy_hash_rxqs_counts q hwq q1 hw1 h)

/-- Witness of C9: the set built on the sample device is destroyed, the
queue pairs first, and the private structure is back to what it was. -/
theorem priv_destroy_hash_rxqs_spec_witness :
    priv_make_ind_table_init Abi.sample priv.sample.rss_hf priv.sample.rxqs_n
        (List.replicate IND_TABLE_INIT_N default) = (2, [⟨2 ^ 32 - 1, 3, 2⟩, ⟨1, 64, 1⟩]) ∧
    priv.sample.isolated = false ∧ 1 ≤ priv.sample.rxqs_n ∧ Hw.empty.wf ∧
    (∃ p' hw',
      priv_create_hash_rxqs Abi.sample Faults.never default priv.sample Hw.empty =
        some (0, p', hw') ∧
      priv_destroy_hash_rxqs p' hw' =
        some (priv.sample,
          { next_handle := hw'.next_handle
            ind_tables := []
            qps := []
            destroyed := [hw_object.qp 3, hw_object.qp 4, hw_object.qp 5, hw_object.ind_table 1,
              hw_object.ind_table 2] })) := by
  have hwf : Hw.empty.wf := ⟨by simp [Hw.empty], by simp [Hw.empty]⟩
  refine ⟨by decide, rfl, by decide, hwf, ?_⟩
  obtain ⟨p', hw', h1, _, _, _, h5⟩ :=
    (priv_destroy_hash_rxqs_spec Abi.sample Faults.never default priv.sample Hw.empty 2
      [⟨2 ^ 32 - 1, 3, 2⟩, ⟨1, 64, 1⟩] (by decide) rfl (by decide) hwf rfl (fun _ => rfl) rfl
      (fun _ => rfl)).1
  refine ⟨p', hw', h1, ?_⟩
  rw [h5]
  rfl

/-! ## The size of the indirection tables -/

open hash_rxq_flow_type

/-! ## Properties of `priv_allow_flow_type` -/

/-- C20: a flow type is allowed, that is `priv_allow_flow_type` returns
nonzero, exactly in these cases: when promiscuous mode is requested, for
`HASH_RXQ_FLOW_TYPE_PROMISC` only; otherwise never for
`HASH_RXQ_FLOW_TYPE_PROMISC`, for `HASH_RXQ_FLOW_TYPE_ALLMULTI` when
all-multicast is requested, for `HASH_RXQ_FLOW_TYPE_BROADCAST` and
`HASH_RXQ_FLOW_TYPE_IPV6MULTI` when it is not, always for
`HASH_RXQ_FLOW_TYPE_MAC`, and for no other flow type. -/
theorem priv_allow_flow_type_spec (promisc_req allmulti_req : Nat) (type : hash_rxq_flow_type) :
    (priv_allow_flow_type promisc_req allmulti_req type ≠ 0 ↔
      if promisc_req ≠ 0 then type = HASH_RXQ_FLOW_TYPE_PROMISC
      else
        (type = HASH_RXQ_FLOW_TYPE_ALLMULTI ∧ allmulti_req ≠ 0) ∨
        ((type = HASH_RXQ_FLOW_TYPE_BROADCAST ∨ type = HASH_RXQ_FLOW_TYPE_IPV6MULTI) ∧
          allmulti_req = 0) ∨
        type = HASH_RXQ_FLOW_TYPE_MAC) ∧
    priv_allow_flow_type promisc_req allmulti_req type ≤ 1 := by
  unfold priv_allow_flow_type
  by_cases hp : promisc_req ≠ 0
  · rw [if_pos hp, if_pos hp]
    by_cases ht : type = HASH_RXQ_FLOW_TYPE_PROMISC <;> simp [ht]
  · rw [if_neg hp, if_neg hp]
    by_cases ha : allmulti_req ≠ 0 <;> cases type <;> simp [ha, hp] <;> simp_all

theorem priv_allow_flow_type_spec_witness :
    (priv_allow_flow_type 0 1 HASH_RXQ_FLOW_TYPE_BROADCAST ≠ 0 ↔
      if (0 : Nat) ≠ 0 then HASH_RXQ_FLOW_TYPE_BROADCAST = HASH_RXQ_FLOW_TYPE_PROMISC
      else
        (HASH_RXQ_FLOW_TYPE_BROADCAST = HASH_RXQ_FLOW_TYPE_ALLMULTI ∧ (1 : Nat) ≠ 0) ∨
        ((HASH_RXQ_FLOW_TYPE_BROADCAST = HASH_RXQ_FLOW_TYPE_BROADCAST ∨
            HASH_RXQ_FLOW_TYPE_BROADCAST = HASH_RXQ_FLOW_TYPE_IPV6MULTI) ∧
          (1 : Nat) = 0) ∨
        HASH_RXQ_FLOW_TYPE_BROADCAST = HASH_RXQ_FLOW_TYPE_MAC) ∧
    priv_allow_flow_type 0 1 HASH_RXQ_FLOW_TYPE_BROADCAST ≤ 1 :=
  priv_allow_flow_type_spec 0 1 HASH_RXQ_FLOW_TYPE_BROADCAST
/-! ## Properties of `priv_rx_intr_vec_enable` -/

theorem get?_append_length {α : Type} (pre : List α) (x : α) (post : List α) :
    (pre ++ x :: post).get? pre.length = some x := by
  induction pre with
  | nil => rfl
  | cons y pre ih => simpa using ih

theorem rx_intr_vec_loop_ok (I : IntrDecls) (F : IntrFaults) :
    ∀ (rs pre post : List rxq_channel) (c : Nat) (h : rte_intr_handle) (a : intr_vec_area)
      (done rest : List Nat),
      h.intr_vec = some a → h.efds = done ++ rest → done.length = c →
      rs.length ≤ rest.length → c + rs.length ≤ I.RTE_MAX_RXTX_INTR_VEC_ID →
      (∀ fd ∈ eligible_fds rs, F.fcntl_fails fd = false) →
      rx_intr_vec_loop I F (pre ++ rs ++ post) rs.length pre.length c h =
        some (none, c + (eligible_fds rs).length,
          { h with
            intr_vec := some { a with stores := a.stores ++ reference_intr_vec I rs pre.length c }
            efds := done ++ eligible_fds rs ++ rest.drop (eligible_fds rs).length }) := by
  intro rs
  induction rs with
  | nil =>
    intro pre post c h a done rest ha he _ _ _ _
    cases h
    simp only at ha he
    simp [rx_intr_vec_loop, eligible_fds, reference_intr_vec, ha, he]
  | cons r rs ih =>
    intro pre post c h a done rest ha he hd hl hc hf
    have hget : (pre ++ r :: rs ++ post).get? pre.length = some r := by
      rw [List.append_assoc, List.cons_append]; exact get?_append_length pre r (rs ++ post)
    have hlist : pre ++ r :: rs ++ post = (pre ++ [r]) ++ rs ++ post := by simp
    have hlen : (pre ++ [r]).length = pre.length + 1 := by simp
    simp only [List.length_cons] at hl hc ⊢
    rcases r with _ | _ | fd
    · -- the entry of the queue is `NULL`
      have hf' : ∀ fd ∈ eligible_fds rs, F.fcntl_fails fd = false := by
        intro fd hfd; apply hf; simpa [eligible_fds] using hfd
      have := ih (pre ++ [none]) post c
        { h with intr_vec := some { a with stores := a.stores ++
            [(pre.length, I.RTE_INTR_VEC_RXTX_OFFSET + I.RTE_MAX_RXTX_INTR_VEC_ID)] } }
        { a with stores := a.stores ++
            [(pre.length, I.RTE_INTR_VEC_RXTX_OFFSET + I.RTE_MAX_RXTX_INTR_VEC_ID)] }
        done rest rfl he hd (by omega) (by omega) hf'
      rw [hlen, ← hlist] at this
      simp only [rx_intr_vec_loop, hget, intr_vec_store, ha]
      rw [this]
      simp [eligible_fds, reference_intr_vec]
    · -- the queue has no event channel
      have hf' : ∀ fd ∈ eligible_fds rs, F.fcntl_fails fd = false := by
        intro fd hfd; apply hf; simpa [eligible_fds] using hfd
      have := ih (pre ++ [some none]) post c
        { h with intr_vec := some { a with stores := a.stores ++
            [(pre.length, I.RTE_INTR_VEC_RXTX_OFFSET + I.RTE_MAX_RXTX_INTR_VEC_ID)] } }
        { a with stores := a.stores ++
            [(pre.length, I.RTE_INTR_VEC_RXTX_OFFSET + I.RTE_MAX_RXTX_INTR_VEC_ID)] }
        done rest rfl he hd (by omega) (by omega) hf'
      rw [hlen, ← hlist] at this
      simp only [rx_intr_vec_loop, hget, intr_vec_store, ha]
      rw [this]
      simp [eligible_fds, reference_intr_vec]
    · -- the queue has an event channel
      have hf' : ∀ fd ∈ eligible_fds rs, F.fcntl_fails fd = false := by
        intro fd' hfd; apply hf; simp only [eligible_fds, List.filterMap_cons]
        simp only [Option.bind, id]; exact List.mem_cons_of_mem _ hfd
      have hfd : F.fcntl_fails fd = false := by
        apply hf; simp [eligible_fds]
      obtain ⟨x, rest', rfl⟩ : ∃ x rest', rest = x :: rest' := by
        cases rest with
        | nil => simp at hl
        | cons x rest' => exact ⟨x, rest', rfl⟩
      have hset : h.efds.set c fd = (done ++ [fd]) ++ rest' := by
        rw [he, ← hd]; exact set_append_cons done x fd rest'
      have hclt : c < h.efds.length := by
        rw [he]; simp; omega
      have := ih (pre ++ [some (some fd)]) post (c + 1)
        { h with
          intr_vec := some { a with stores := a.stores ++
            [(pre.length, I.RTE_INTR_VEC_RXTX_OFFSET + c)] }
          efds := h.efds.set c fd }
        { a with stores := a.stores ++ [(pre.length, I.RTE_INTR_VEC_RXTX_OFFSET + c)] }
        (done ++ [fd]) rest' rfl hset (by simp [hd]) (by simpa using hl) (by omega) hf'
      rw [hlen, ← hlist] at this
      have hnc : ¬ c ≥ I.RTE_MAX_RXTX_INTR_VEC_ID := by omega
      simp only [rx_intr_vec_loop, hget, intr_vec_store, ha, if_neg hnc, hfd, Bool.false_eq_true,
        if_false, if_pos hclt]
      rw [this]
      simp [eligible_fds, reference_intr_vec, Nat.add_assoc, Nat.add_comm 1]

theorem reference_intr_vec_get? (I : IntrDecls) :
    ∀ (rs : List rxq_channel) (i c k : Nat), k < rs.length →
      (reference_intr_vec I rs i c)[k]? =
        some (i + k,
          if ((rs.getD k none).bind id).isSome then
            I.RTE_INTR_VEC_RXTX_OFFSET + (c + (eligible_fds (rs.take k)).length)
          else I.RTE_INTR_VEC_RXTX_OFFSET + I.RTE_MAX_RXTX_INTR_VEC_ID) := by
  intro rs
  induction rs with
  | nil => intro i c k hk; simp at hk
  | cons r rs ih =>
    intro i c k hk
    cases k with
    | zero => rcases r with _ | _ | fd <;> simp [reference_intr_vec, eligible_fds]
    | succ k =>
      have hk' : k < rs.length := by simpa using hk
      rcases r with _ | _ | fd
      · simp [reference_intr_vec, eligible_fds, ih _ _ k hk']; omega
      · simp [reference_intr_vec, eligible_fds, ih _ _ k hk']; omega
      · simp [reference_intr_vec, eligible_fds, ih _ _ k hk']
        refine ⟨by omega, ?_⟩
        rw [Nat.add_assoc c 1, Nat.add_comm 1]
/-- The values `priv_rx_intr_vec_enable` stores, on a vector which records
every store whatever the size of its area: when Rx interrupts are
configured, `malloc` succeeds and every `fcntl` call succeeds, the
statements of the function return 0 and, over the
first `n = min(rxqs_n, RTE_MAX_RXTX_INTR_VEC_ID)` queues, `efds` starts with
the descriptors of the usable queues in queue order; if there is none the
vector is freed and `nb_efd` is 0, else `nb_efd` is their number and the
stores recorded are those of the reference table: at index `i` the disabled value
`RTE_INTR_VEC_RXTX_OFFSET + RTE_MAX_RXTX_INTR_VEC_ID` when the queue is
missing or has no event channel, else `RTE_INTR_VEC_RXTX_OFFSET` plus the
number of usable queues before it. -/
theorem priv_rx_intr_vec_enable_reference (I : IntrDecls) (F : IntrFaults) (rxqs_n : Nat)
    (rxqs : List rxq_channel) (h : rte_intr_handle)
    (hmax : I.RTE_MAX_RXTX_INTR_VEC_ID < 2 ^ 32)
    (hrxqs : rxqs_n ≤ rxqs.length)
    (hefds : h.efds.length = I.RTE_MAX_RXTX_INTR_VEC_ID)
    (hmalloc : F.malloc_fails = false)
    (hfcntl : ∀ fd ∈ eligible_fds (rxqs.take (min rxqs_n I.RTE_MAX_RXTX_INTR_VEC_ID)),
      F.fcntl_fails fd = false) :
    ∃ h', priv_rx_intr_vec_enable I F true rxqs_n rxqs h = some (0, h') ∧
      h'.type = I.RTE_INTR_HANDLE_EXT ∧
      h'.efds = eligible_fds (rxqs.take (min rxqs_n I.RTE_MAX_RXTX_INTR_VEC_ID)) ++
        h.efds.drop (eligible_fds (rxqs.take (min rxqs_n I.RTE_MAX_RXTX_INTR_VEC_ID))).length ∧
      (eligible_fds (rxqs.take (min rxqs_n I.RTE_MAX_RXTX_INTR_VEC_ID)) = [] →
        h'.intr_vec = none ∧ h'.nb_efd = 0) ∧
      (eligible_fds (rxqs.take (min rxqs_n I.RTE_MAX_RXTX_INTR_VEC_ID)) ≠ [] →
        h'.nb_efd = (eligible_fds (rxqs.take (min rxqs_n I.RTE_MAX_RXTX_INTR_VEC_ID))).length ∧
        ∃ a, h'.intr_vec = some a ∧
          a.stores.length = min rxqs_n I.RTE_MAX_RXTX_INTR_VEC_ID ∧
          ∀ i, i < min rxqs_n I.RTE_MAX_RXTX_INTR_VEC_ID →
            a.stores[i]? =
              some (i,
                if ((rxqs.getD i none).bind id).isSome then
                  I.RTE_INTR_VEC_RXTX_OFFSET + (eligible_fds (rxqs.take i)).length
                else I.RTE_INTR_VEC_RXTX_OFFSET + I.RTE_MAX_RXTX_INTR_VEC_ID)) := by
  generalize hn : min rxqs_n I.RTE_MAX_RXTX_INTR_VEC_ID = n at hfcntl ⊢
  have hnl : n ≤ rxqs.length := by omega
  have hnm : n ≤ I.RTE_MAX_RXTX_INTR_VEC_ID := by omega
  have hlen : (rxqs.take n).length = n := by simp [hnl]
  have hloop := rx_intr_vec_loop_ok I F (rxqs.take n) [] (rxqs.drop n) 0
    { type := I.RTE_INTR_HANDLE_EXT
      intr_vec := some { alloc_size := I.sizeof_int, stores := [] }
      nb_efd := 0
      efds := h.efds }
    { alloc_size := I.sizeof_int, stores := [] } [] h.efds rfl rfl rfl
    (by rw [hlen, hefds]; exact hnm) (by rw [hlen]; omega) hfcntl
  rw [hlen] at hloop
  simp only [List.nil_append, List.take_append_drop, List.length_nil, Nat.zero_add] at hloop
  have hstores : ∀ i, i < n →
      (reference_intr_vec I (rxqs.take n) 0 0)[i]? =
        some (i,
          if ((rxqs.getD i none).bind id).isSome then
            I.RTE_INTR_VEC_RXTX_OFFSET + (eligible_fds (rxqs.take i)).length
          else I.RTE_INTR_VEC_RXTX_OFFSET + I.RTE_MAX_RXTX_INTR_VEC_ID) := by
    intro i hi
    rw [reference_intr_vec_get? I (rxqs.take n) 0 0 i (by omega)]
    have h1 : (rxqs.take n).getD i none = rxqs.getD i none := by
      simp [List.getD, List.getElem?_take, hi]
    have h2 : (rxqs.take n).take i = rxqs.take i := by
      rw [List.take_take, Nat.min_eq_left (le_of_lt hi)]
    rw [h1, h2, Nat.zero_add, Nat.zero_add]
  have hreflen : ∀ (rs : List rxq_channel) (i c : Nat),
      (reference_intr_vec I rs i c).length = rs.length := by
    intro rs
    induction rs with
    | nil => intro i c; rfl
    | cons r rs ih => intro i c; rcases r with _ | _ | fd <;> simp [reference_intr_vec, ih]
  have hm : min rxqs_n (I.RTE_MAX_RXTX_INTR_VEC_ID % 2 ^ 32) = n := by
    rw [Nat.mod_eq_of_lt hmax]; exact hn
  by_cases he : eligible_fds (rxqs.take n) = []
  · refine ⟨{ type := I.RTE_INTR_HANDLE_EXT, intr_vec := none, nb_efd := 0, efds := h.efds }, ?_,
      rfl, by simp [he], fun _ => ⟨rfl, rfl⟩, fun hne => absurd he hne⟩
    simp only [priv_rx_intr_vec_enable, hm, hmalloc, priv_rx_intr_vec_disable, Bool.not_true,
      Bool.false_eq_true, if_false, hloop, he, List.length_nil, List.nil_append, List.drop_zero,
      if_true]
  · have hpos : (eligible_fds (rxqs.take n)).length ≠ 0 := by
      intro h0; exact he (List.length_eq_zero.1 h0)
    refine ⟨{ type := I.RTE_INTR_HANDLE_EXT
              intr_vec := some { alloc_size := I.sizeof_int
                                 stores := reference_intr_vec I (rxqs.take n) 0 0 }
              nb_efd := (eligible_fds (rxqs.take n)).length
              efds := eligible_fds (rxqs.take n) ++
                h.efds.drop (eligible_fds (rxqs.take n)).length }, ?_,
      rfl, rfl, fun hnil => absurd hnil he, fun _ => ⟨rfl, _, rfl, ?_, hstores⟩⟩
    · simp only [priv_rx_intr_vec_enable, hm, hmalloc, priv_rx_intr_vec_disable, Bool.not_true,
        Bool.false_eq_true, if_false, hloop, if_neg hpos, List.nil_append]
    · rw [hreflen, hlen]

theorem priv_rx_intr_vec_enable_reference_witness :
    ∃ h', priv_rx_intr_vec_enable IntrDecls.sample IntrFaults.never true 3
        [some (some 7), none, some (some 9)] rte_intr_handle.sample = some (0, h') ∧
      h'.type = 5 ∧ h'.efds = [7, 9] ++ List.replicate 30 0 ∧
      h'.nb_efd = 2 ∧
      h'.intr_vec = some { alloc_size := 4, stores := [(0, 1), (1, 33), (2, 2)] } := by
  obtain ⟨h', h1, h2, h3, _, h5⟩ :=
    priv_rx_intr_vec_enable_reference IntrDecls.sample IntrFaults.never 3
      [some (some 7), none, some (some 9)] rte_intr_handle.sample (by decide) (by decide)
      (by decide) rfl (fun _ _ => rfl)
  refine ⟨h', h1, h2, h3, (h5 (by decide)).1, ?_⟩
  have h6 : (priv_rx_intr_vec_enable IntrDecls.sample IntrFaults.never true 3
      [some (some 7), none, some (some 9)] rte_intr_handle.sample).map (fun r => r.2.intr_vec) =
      some (some { alloc_size := 4, stores := [(0, 1), (1, 33), (2, 2)] }) := by decide
  rw [h1] at h6
  simpa using h6

/-- C17: with a capacity of 32 vectors and 33 queues which all have an
event channel, more usable queues than the capacity,
`priv_rx_intr_vec_enable` returns 0 and leaves the vector enabled: the
vector is set and `nb_efd` is 32. The loop stops at index
`min(rxqs_n, RTE_MAX_RXTX_INTR_VEC_ID)`, so that the count never reaches
`RTE_MAX_RXTX_INTR_VEC_ID` where the function compares them. -/
theorem priv_rx_intr_vec_enable_too_many :
    (priv_rx_intr_vec_enable IntrDecls.sample IntrFaults.never true 33
      ((List.range 33).map (fun i => some (some (100 + i)))) rte_intr_handle.sample).map
        (fun r => (r.1, r.2.nb_efd, r.2.intr_vec.isSome, r.2.efds)) =
      some (0, 32, true, (List.range 32).map (fun i => 100 + i)) := by
  decide

/-! ## Properties of `rxq_ctrl_setup` and `mlx5_rx_queue_setup` -/

/-- C11: when the scatter computation of `rxq_ctrl_setup` yields `sges_n`
and `desc` is not a multiple of `2 ^ sges_n`, `rxq_ctrl_setup` returns
`EINVAL` whatever the outcomes of the external calls would be, with the
resources as they were: no memory region, completion channel, completion
queue, work queue, array or buffer has been created, and the structure of
the caller is as it was. -/
theorem rxq_ctrl_setup_desc_not_multiple (D : RxDecls) (F : RxFaults) (conf : RxConf)
    (rxq_ctrl : rxq_ctrl_ref) (desc socket : Nat) (mp : rte_mempool) (w : RxWorld)
    (sges_n : Nat)
    (hs : rxq_ctrl_setup_sges_n D.toRxqDecls conf.max_rx_pkt_len mp.data_room_size
      conf.enable_scatter = .ok sges_n)
    (hd : desc % 2 ^ sges_n ≠ 0) :
    rxq_ctrl_setup D F conf rxq_ctrl desc socket mp w = some ((EINVAL : Int), rxq_ctrl, w) := by
  have hd' : desc % (1 <<< sges_n) ≠ 0 := by rwa [Nat.one_shiftLeft]
  simp only [rxq_ctrl_setup, hs, if_pos hd']

theorem rxq_ctrl_setup_desc_not_multiple_witness :
    rxq_ctrl_setup_sges_n RxDecls.sample.toRxqDecls 9000 2176 true = .ok 3 ∧
    12 % 2 ^ 3 ≠ 0 ∧
    rxq_ctrl_setup RxDecls.sample (RxFaults.never RxDecls.sample 16)
      { RxConf.sample with max_rx_pkt_len := 9000, enable_scatter := true }
      { mem := 1, room := 12, ctrl := mlx5_rxq_ctrl.zero } 12 0 rte_mempool.sample
      { next_handle := 2, live := [rx_object.mem 1], released := [] } =
      some ((EINVAL : Int), { mem := 1, room := 12, ctrl := mlx5_rxq_ctrl.zero },
        { next_handle := 2, live := [rx_object.mem 1], released := [] }) :=
  ⟨rfl, by decide,
    rxq_ctrl_setup_desc_not_multiple RxDecls.sample (RxFaults.never RxDecls.sample 16)
      { RxConf.sample with max_rx_pkt_len := 9000, enable_scatter := true }
      { mem := 1, room := 12, ctrl := mlx5_rxq_ctrl.zero } 12 0 rte_mempool.sample
      { next_handle := 2, live := [rx_object.mem 1], released := [] } 3 rfl (by decide)⟩

/-- C12: for the 16-bit `desc` 40000, which is not a power of two,
`mlx5_rx_queue_setup` goes on with `desc` 0 and not with 65536, the least
power of two at or above 40000: `1 << log2above(40000)` is `2 ^ 16` and the
`uint16_t` keeps 0. With every call succeeding the function returns 0 and
the queue it installs has `elts_n` 0, `rq_ci` 0 and no buffer. -/
theorem mlx5_rx_queue_setup_desc_wraps :
    rte_is_power_of_2 40000 = false ∧ log2above 40000 = 16 ∧
    mlx5_rx_queue_setup_desc 40000 = 0 ∧
    (mlx5_rx_queue_setup RxDecls.sample (RxFaults.never RxDecls.sample 1) RxConf.sample false
      [none, none] 0 40000 0 rte_mempool.sample RxWorld.empty).map
      (fun r => (r.1, r.2.1.map (fun q => q.map (fun c =>
        (c.ctrl.rxq.elts_n, c.ctrl.rxq.rq_ci, c.ctrl.rxq.elts.map (fun a => a.slots)))))) =
      some (0, [some (0, 0, some []), none]) :=
  ⟨by decide, by decide, by decide, rfl⟩

/-- C13: when `mlx5dv_init_obj` fails in `rxq_setup` and every other call
succeeds, `rxq_ctrl_setup` returns `-EINVAL`, a negative value, and
`mlx5_rx_queue_setup` returns `EINVAL`, which is 22, a positive value, with
no queue installed at `(*priv->rxqs)[idx]`. -/
theorem mlx5_rx_queue_setup_positive_return :
    (rxq_ctrl_setup RxDecls.sample { RxFaults.never RxDecls.sample 4 with dv_init_obj := -1 }
      RxConf.sample { mem := 1, room := 4, ctrl := mlx5_rxq_ctrl.zero } 4 0 rte_mempool.sample
      { next_handle := 2, live := [rx_object.mem 1], released := [] }).map (fun r => r.1) =
      some (-22) ∧
    (mlx5_rx_queue_setup RxDecls.sample
      { RxFaults.never RxDecls.sample 4 with dv_init_obj := -1 } RxConf.sample false
      [none, none] 0 4 0 rte_mempool.sample RxWorld.empty).map (fun r => (r.1, r.2.1)) =
      some (22, [none, none]) := by
  decide

/-- C19: when `rxq_setup` fails on the size of the completion entries
(`cqe_size` 128 for cache lines of 64 bytes) and every other call succeeds,
`rxq_ctrl_setup` returns `EINVAL` and has given back the work queue, the
completion queue, the channel and the memory region, but not the array
`rxq_setup` allocated for the elements, which still exists: `rxq_setup`
returns before it stores the address of the array in the template. The
same holds when `mlx5dv_init_obj` fails. -/
theorem rxq_ctrl_setup_leaks_elts :
    rxq_ctrl_setup RxDecls.sample { RxFaults.never RxDecls.sample 4 with cqe_size := 128 }
      RxConf.sample { mem := 1, room := 4, ctrl := mlx5_rxq_ctrl.zero } 4 0 rte_mempool.sample
      { next_handle := 2, live := [rx_object.mem 1], released := [] } =
      some ((EINVAL : Int), { mem := 1, room := 4, ctrl := mlx5_rxq_ctrl.zero },
        { next_handle := 7
          live := [rx_object.mem 1, rx_object.mem 6]
          released := [rx_object.wq 5, rx_object.cq 4, rx_object.channel 3, rx_object.mr 2] }) ∧
    (rxq_ctrl_setup RxDecls.sample { RxFaults.never RxDecls.sample 4 with dv_init_obj := -1 }
      RxConf.sample { mem := 1, room := 4, ctrl := mlx5_rxq_ctrl.zero } 4 0 rte_mempool.sample
      { next_handle := 2, live := [rx_object.mem 1], released := [] }).map
        (fun r => r.2.2.live) = some [rx_object.mem 1, rx_object.mem 6] := by
  decide
theorem mlx5_rx_queue_setup_desc_spec (desc : Nat) (h : desc ≤ 2 ^ 15) :
    mlx5_rx_queue_setup_desc desc = 2 ^ log2above desc ∧ desc ≤ 2 ^ log2above desc ∧
    ∀ l, desc ≤ 2 ^ l → 2 ^ log2above desc ≤ 2 ^ l := by
  have hspec := log2above_spec desc
  have hl : log2above desc ≤ 15 := hspec.2 15 h
  have hlt : 2 ^ log2above desc < 2 ^ 16 :=
    Nat.pow_lt_pow_right (by norm_num) (by omega)
  refine ⟨?_, hspec.1, fun l hl' => Nat.pow_le_pow_right (by norm_num) (hspec.2 l hl')⟩
  unfold mlx5_rx_queue_setup_desc rte_is_power_of_2
  by_cases hp : desc = 2 ^ log2above desc
  · simp only [← hp, decide_True, if_true]
  · simp only [hp, decide_False, Bool.false_eq_true, if_false, Nat.one_shiftLeft]
    exact Nat.mod_eq_of_lt hlt

theorem rxq_ctrl_setup_rollback_samples :
    rxq_ctrl_setup RxDecls.sample { RxFaults.never RxDecls.sample 4 with mp2mr_fails := true }
      RxConf.sample { mem := 1, room := 4, ctrl := mlx5_rxq_ctrl.zero } 4 0 rte_mempool.sample
      { next_handle := 2, live := [rx_object.mem 1], released := [] } =
      some ((EINVAL : Int), { mem := 1, room := 4, ctrl := mlx5_rxq_ctrl.zero },
        { next_handle := 2, live := [rx_object.mem 1], released := [] }) ∧
    rxq_ctrl_setup RxDecls.sample { RxFaults.never RxDecls.sample 4 with channel_fails := true }
      RxConf.sample { mem := 1, room := 4, ctrl := mlx5_rxq_ctrl.zero } 4 0 rte_mempool.sample
      { next_handle := 2, live := [rx_object.mem 1], released := [] } =
      some ((ENOMEM : Int), { mem := 1, room := 4, ctrl := mlx5_rxq_ctrl.zero },
        { next_handle := 3, live := [rx_object.mem 1], released := [rx_object.mr 2] }) ∧
    rxq_ctrl_setup RxDecls.sample { RxFaults.never RxDecls.sample 4 with cq_fails := true }
      RxConf.sample { mem := 1, room := 4, ctrl := mlx5_rxq_ctrl.zero } 4 0 rte_mempool.sample
      { next_handle := 2, live := [rx_object.mem 1], released := [] } =
      some ((ENOMEM : Int), { mem := 1, room := 4, ctrl := mlx5_rxq_ctrl.zero },
        { next_handle := 4, live := [rx_object.mem 1],
          released := [rx_object.channel 3, rx_object.mr 2] }) ∧
    rxq_ctrl_setup RxDecls.sample
      { RxFaults.never RxDecls.sample 4 with wq_fails := true, wq_errno := 12 }
      RxConf.sample { mem := 1, room := 4, ctrl := mlx5_rxq_ctrl.zero } 4 0 rte_mempool.sample
      { next_handle := 2, live := [rx_object.mem 1], released := [] } =
      some (12, { mem := 1, room := 4, ctrl := mlx5_rxq_ctrl.zero },
        { next_handle := 5, live := [rx_object.mem 1],
          released := [rx_object.cq 4, rx_object.channel 3, rx_object.mr 2] }) ∧
    rxq_ctrl_setup RxDecls.sample
      { RxFaults.never RxDecls.sample 4 with wq_granted := fun _ max_sge => (2, max_sge) }
      RxConf.sample { mem := 1, room := 4, ctrl := mlx5_rxq_ctrl.zero } 4 0 rte_mempool.sample
      { next_handle := 2, live := [rx_object.mem 1], released := [] } =
      some ((EINVAL : Int), { mem := 1, room := 4, ctrl := mlx5_rxq_ctrl.zero },
        { next_handle := 6, live := [rx_object.mem 1],
          released := [rx_object.wq 5, rx_object.cq 4, rx_object.channel 3, rx_object.mr 2] }) ∧
    rxq_ctrl_setup RxDecls.sample { RxFaults.never RxDecls.sample 4 with modify_wq := 5 }
      RxConf.sample { mem := 1, room := 4, ctrl := mlx5_rxq_ctrl.zero } 4 0 rte_mempool.sample
      { next_handle := 2, live := [rx_object.mem 1], released := [] } =
      some (5, { mem := 1, room := 4, ctrl := mlx5_rxq_ctrl.zero },
        { next_handle := 6, live := [rx_object.mem 1],
          released := [rx_object.wq 5, rx_object.cq 4, rx_object.channel 3, rx_object.mr 2] }) ∧
    rxq_ctrl_setup RxDecls.sample
      { RxFaults.never RxDecls.sample 4 with elts_alloc_fails := true }
      RxConf.sample { mem := 1, room := 4, ctrl := mlx5_rxq_ctrl.zero } 4 0 rte_mempool.sample
      { next_handle := 2, live := [rx_object.mem 1], released := [] } =
      some ((ENOMEM : Int), { mem := 1, room := 4, ctrl := mlx5_rxq_ctrl.zero },
        { next_handle := 6, live := [rx_object.mem 1],
          released := [rx_object.wq 5, rx_object.cq 4, rx_object.channel 3, rx_object.mr 2] }) ∧
    rxq_ctrl_setup RxDecls.sample
      { RxFaults.never RxDecls.sample 4 with mbuf_alloc_fails := fun i => decide (i = 2) }
      RxConf.sample { mem := 1, room := 4, ctrl := mlx5_rxq_ctrl.zero } 4 0 rte_mempool.sample
      { next_handle := 2, live := [rx_object.mem 1], released := [] } =
      some ((ENOMEM : Int), { mem := 1, room := 4, ctrl := mlx5_rxq_ctrl.zero },
        { next_handle := 9, live := [rx_object.mem 1],
          released := [rx_object.mbuf 7, rx_object.mbuf 8, rx_object.wq 5, rx_object.cq 4,
            rx_object.channel 3, rx_object.mr 2, rx_object.mem 6] }) := by
  refine ⟨rfl, rfl, rfl, rfl, rfl, rfl, rfl, rfl⟩

theorem mlx5_rx_queue_setup_negative_samples :
    (mlx5_rx_queue_setup RxDecls.sample
      { RxFaults.never RxDecls.sample 4 with is_secondary := true } RxConf.sample false
      [none, none] 0 4 0 rte_mempool.sample RxWorld.empty).map (fun r => r.1) = some (-1001) ∧
    (mlx5_rx_queue_setup RxDecls.sample (RxFaults.never RxDecls.sample 4) RxConf.sample false
      [none, none] 2 4 0 rte_mempool.sample RxWorld.empty).map (fun r => r.1) = some (-75) ∧
    (mlx5_rx_queue_setup RxDecls.sample
      { RxFaults.never RxDecls.sample 4 with ctrl_alloc_fails := true } RxConf.sample false
      [none, none] 0 4 0 rte_mempool.sample RxWorld.empty).map (fun r => r.1) = some (-12) ∧
    (mlx5_rx_queue_setup RxDecls.sample
      { RxFaults.never RxDecls.sample 4 with cq_fails := true } RxConf.sample false
      [none, none] 0 4 0 rte_mempool.sample RxWorld.empty).map (fun r => (r.1, r.2.1)) =
      some (-12, [none, none]) ∧
    (mlx5_rx_queue_setup RxDecls.sample
      { RxFaults.never RxDecls.sample 4 with cqe_size := 128 } RxConf.sample false
      [none, none] 0 4 0 rte_mempool.sample RxWorld.empty).map (fun r => (r.1, r.2.1)) =
      some (-22, [none, none]) ∧
    (mlx5_rx_queue_setup RxDecls.sample
      { RxFaults.never RxDecls.sample 4 with mbuf_alloc_fails := fun i => decide (i = 2) }
      RxConf.sample false [none, none] 0 4 0 rte_mempool.sample RxWorld.empty).map
      (fun r => (r.1, r.2.1)) = some (-12, [none, none]) ∧
    (mlx5_rx_queue_setup RxDecls.sample (RxFaults.never RxDecls.sample 4) RxConf.sample false
      [none, none] 0 4 0 rte_mempool.sample RxWorld.empty).map
      (fun r => (r.1, (r.2.1.getD 0 none).isSome)) = some (0, true) := by
  refine ⟨rfl, rfl, rfl, rfl, rfl, rfl, rfl⟩

/-! ## Properties of `rxq_alloc_elts` and `rxq_free_elts` -/

theorem release_all_spec (os : List rx_object) :
    ∀ w : RxWorld, w.release_all os =
      { next_handle := w.next_handle
        live := w.live.filter (fun x => decide (x ∉ os))
        released := w.released ++ os } := by
  induction os with
  | nil => intro w; cases w; simp [RxWorld.release_all]
  | cons o os ih =>
    intro w
    have h := ih (w.release o)
    simp only [RxWorld.release_all, List.foldl_cons] at h ⊢
    rw [h]
    simp only [RxWorld.release, List.filter_filter, List.append_assoc, List.singleton_append,
      RxWorld.mk.injEq, true_and, and_true]
    apply List.filter_congr
    intro x _
    simp only [List.mem_cons, not_or]
    by_cases h1 : x = o <;> by_cases h2 : x ∈ os <;> simp [h1, h2]

theorem release_all_append (w : RxWorld) (os os' : List rx_object) :
    w.release_all (os ++ os') = (w.release_all os).release_all os' := by
  simp [RxWorld.release_all, List.foldl_append]

theorem rxq_alloc_elts_loop_run (F : RxFaults) :
    ∀ (m r : Nat) (pre post : List (Option mbuf_ptr)) (w : RxWorld), m ≤ post.length →
      (∀ j, j < m → F.mbuf_alloc_fails (pre.length + j) = false) →
      rxq_alloc_elts_loop F (m + r) pre.length (pre ++ post) w =
        rxq_alloc_elts_loop F r (pre.length + m)
          (pre ++ fresh_slots w.next_handle m ++ post.drop m)
          { next_handle := w.next_handle + m
            live := w.live ++ fresh_mbufs w.next_handle m
            released := w.released } := by
  intro m
  induction m with
  | zero =>
    intro r pre post w _ _
    cases w
    simp [fresh_slots, fresh_mbufs]
  | succ m ih =>
    intro r pre post w hm hf
    obtain ⟨x, post', rfl⟩ : ∃ x post', post = x :: post' := by
      cases post with
      | nil => simp at hm
      | cons x post' => exact ⟨x, post', rfl⟩
    have h0 : F.mbuf_alloc_fails pre.length = false := by simpa using hf 0 (by omega)
    have hlt : pre.length < (pre ++ x :: post').length := by simp
    have hset : (pre ++ x :: post').set pre.length (some (mbuf_ptr.pool w.next_handle)) =
        (pre ++ [some (mbuf_ptr.pool w.next_handle)]) ++ post' := set_append_cons _ _ _ _
    have hstep := ih r (pre ++ [some (mbuf_ptr.pool w.next_handle)]) post'
      (w.create rx_object.mbuf).2 (by simpa using hm)
      (by
        intro j hj
        have := hf (j + 1) (by omega)
        simpa [Nat.add_assoc, Nat.add_comm 1] using this)
    rw [Nat.add_right_comm m 1 r]
    simp only [rxq_alloc_elts_loop, h0, Bool.false_eq_true, if_false, if_pos hlt]
    have hlen : (pre ++ [some (mbuf_ptr.pool w.next_handle)]).length = pre.length + 1 := by simp
    simp only [RxWorld.create] at hstep ⊢
    rw [hlen] at hstep
    rw [hset, hstep]
    simp [fresh_slots, fresh_mbufs, List.range'_succ, Nat.add_assoc, Nat.add_comm 1]

theorem rxq_free_elt_fold :
    ∀ (mid pre post : List (Option mbuf_ptr)) (w : RxWorld),
      (∀ x ∈ mid, x ≠ some mbuf_ptr.fake_mbuf) →
      (List.range' pre.length mid.length).foldlM rxq_free_elt (pre ++ mid ++ post, w) =
        some (pre ++ List.replicate mid.length none ++ post,
          w.release_all (mid.filterMap mbuf_object)) := by
  intro mid
  induction mid with
  | nil => intro pre post w _; simp [RxWorld.release_all]
  | cons x mid ih =>
    intro pre post w hx
    have hget : (pre ++ x :: mid ++ post).get? pre.length = some x := by
      rw [List.append_assoc, List.cons_append]; exact get?_append_length pre x (mid ++ post)
    have hset : (pre ++ x :: mid ++ post).set pre.length none = (pre ++ [none]) ++ mid ++ post := by
      rw [List.append_assoc, List.cons_append, set_append_cons]; simp
    have hmid : ∀ y ∈ mid, y ≠ some mbuf_ptr.fake_mbuf := fun y hy =>
      hx y (List.mem_cons_of_mem _ hy)
    have hlen : (pre ++ [(none : Option mbuf_ptr)]).length = pre.length + 1 := by simp
    simp only [List.length_cons, List.range'_succ, List.foldlM_cons]
    rcases x with _ | _ | _
    · have := ih (pre ++ [none]) post w hmid
      rw [hlen] at this
      simp only [rxq_free_elt, hget, hset, Option.bind_eq_bind, Option.some_bind, this]
      simp [mbuf_object, List.replicate_succ]
    · rename_i b
      have := ih (pre ++ [none]) post (w.release (rx_object.mbuf b)) hmid
      rw [hlen] at this
      simp only [rxq_free_elt, hget, hset, Option.bind_eq_bind, Option.some_bind, this]
      simp [mbuf_object, List.replicate_succ, RxWorld.release_all]
    · exact absurd rfl (hx _ (List.mem_cons_self _ _))
theorem fresh_slots_length (h n : Nat) : (fresh_slots h n).length = n := by
  simp [fresh_slots]

theorem fresh_slots_objects (h n : Nat) :
    (fresh_slots h n).filterMap mbuf_object = fresh_mbufs h n := by
  simp only [fresh_slots, fresh_mbufs, List.filterMap_map]
  rw [← List.filterMap_eq_map]
  rfl

theorem fresh_slots_ne_fake (h n : Nat) :
    ∀ x ∈ fresh_slots h n, x ≠ some mbuf_ptr.fake_mbuf := by
  intro x hx
  simp only [fresh_slots, List.mem_map] at hx
  obtain ⟨b, _, rfl⟩ := hx
  simp

theorem fresh_mbufs_nodup (h n : Nat) : (fresh_mbufs h n).Nodup := by
  simp only [fresh_mbufs]
  apply List.Nodup.map
  · intro a b hab; injection hab
  · exact List.nodup_range' h n

theorem set_slots_elts (c : mlx5_rxq_ctrl) (a : rxq_elts) (h : c.rxq.elts = some a)
    (slots : List (Option mbuf_ptr)) :
    (c.set_slots slots).rxq.elts = some { a with slots := slots } := by
  simp [mlx5_rxq_ctrl.set_slots, h]

theorem foldl_set_pad (elts_n : Nat) (v : Option mbuf_ptr) :
    ∀ (l : List Nat) (s : List (Option mbuf_ptr)),
      ((l.foldl (fun s i => s.set (elts_n + i) v) s).take elts_n = s.take elts_n) ∧
      (l.foldl (fun s i => s.set (elts_n + i) v) s).length = s.length := by
  intro l
  induction l with
  | nil => intro s; simp
  | cons i l ih =>
    intro s
    have := ih (s.set (elts_n + i) v)
    simp only [List.foldl_cons]
    refine ⟨?_, by rw [this.2]; simp⟩
    rw [this.1]
    apply List.ext_getElem?
    intro k
    simp only [List.getElem?_take]
    by_cases hk : k < elts_n
    · simp only [hk, if_true]
      rw [List.getElem?_set_ne (by omega)]
    · simp [hk]

theorem mod_lt_two (x Q : Nat) (h : x < 2 * Q) :
    x % Q = if x < Q then x else x - Q := by
  by_cases hx : x < Q
  · rw [if_pos hx, Nat.mod_eq_of_lt hx]
  · rw [if_neg hx, Nat.mod_eq_sub_mod (by omega), Nat.mod_eq_of_lt (by omega)]

theorem cursor_mod (Q M ci pi : Nat) (hpi : pi < Q * M) :
    ci % Q = (pi % Q + (ci + Q * M - pi) % (Q * M) % Q) % Q := by
  have h2 : pi + (ci + Q * M - pi) = ci + Q * M := by omega
  have e1 : ci % Q = (pi + (ci + Q * M - pi)) % Q := by
    rw [h2, Nat.add_mul_mod_self_left]
  rw [e1, Nat.add_mod, Nat.mod_mul_right_mod]

theorem rxq_slot_cleared_iff (e ci pi i : Nat) (he : e ≤ 15) (hpi : pi < 2 ^ 16)
    (hd : (ci + 2 ^ 16 - pi) % 2 ^ 16 ≤ 2 ^ e) (hi : i < 2 ^ e) :
    (∃ j, j < rxq_free_elts_used e ci pi ∧
      (ci + j) &&& (((1 <<< e) % 2 ^ 16 + 2 ^ 16 - 1) % 2 ^ 16) = i) ↔
    rxq_slot_owned e ci pi i = false := by
  have hQ : 0 < 2 ^ e := Nat.pos_pow_of_pos e (by norm_num)
  have hQle : 2 ^ e ≤ 2 ^ 15 := Nat.pow_le_pow_right (by norm_num) he
  have hM : (2 : Nat) ^ 16 = 2 ^ e * 2 ^ (16 - e) := by
    rw [← Nat.pow_add]; congr 1; omega
  have hc := cursor_mod (2 ^ e) (2 ^ (16 - e)) ci pi (by rw [← hM]; exact hpi)
  rw [← hM] at hc
  simp only [rxq_free_elts_used, rxq_slot_owned, Nat.one_shiftLeft, decide_eq_false_iff_not]
  generalize hdd : (ci + 2 ^ 16 - pi) % 2 ^ 16 = d at hd hc ⊢
  have hmask : (2 ^ e % 2 ^ 16 + 2 ^ 16 - 1) % 2 ^ 16 = 2 ^ e - 1 := by
    rw [Nat.mod_eq_of_lt (show 2 ^ e < 2 ^ 16 by omega)]; omega
  have hused : (2 ^ e % 2 ^ 16 + 2 ^ 16 - d) % 2 ^ 16 = 2 ^ e - d := by
    rw [Nat.mod_eq_of_lt (show 2 ^ e < 2 ^ 16 by omega)]
    rw [Nat.mod_eq_sub_mod (by omega), Nat.mod_eq_of_lt (by omega)]; omega
  rw [hmask, hused]
  simp only [Nat.and_pow_two_sub_one_eq_mod]
  generalize 2 ^ e = Q at hQ hQle hd hi hc ⊢
  have hp : pi % Q < Q := Nat.mod_lt _ hQ
  have hcl : ci % Q < Q := Nat.mod_lt _ hQ
  generalize pi % Q = p at hp hc ⊢
  have hdQ : d % Q = if d < Q then d else d - Q := mod_lt_two d Q (by omega)
  rw [hdQ] at hc
  have hu := mod_lt_two (i + Q - p) Q (by omega)
  rw [hu]
  constructor
  · rintro ⟨j, hj, hij⟩
    rw [Nat.add_mod, Nat.mod_eq_of_lt (show j < Q by omega)] at hij
    rw [mod_lt_two (ci % Q + j) Q (by omega)] at hij
    generalize ci % Q = c at hcl hc hij
    by_cases h1 : d < Q
    · rw [if_pos h1, mod_lt_two (p + d) Q (by omega)] at hc
      split at hc <;> split at hij <;> split <;> omega
    · rw [if_neg h1, mod_lt_two (p + (d - Q)) Q (by omega)] at hc
      split at hc <;> split at hij <;> split <;> omega
  · intro hnot
    refine ⟨(i + Q - ci % Q) % Q, ?_, ?_⟩
    · rw [mod_lt_two (i + Q - ci % Q) Q (by omega)]
      generalize ci % Q = c at hcl hc
      by_cases h1 : d < Q
      · rw [if_pos h1, mod_lt_two (p + d) Q (by omega)] at hc
        split at hc <;> split at hnot <;> split <;> omega
      · rw [if_neg h1, mod_lt_two (p + (d - Q)) Q (by omega)] at hc
        split at hc <;> split at hnot <;> split <;> omega
    · rw [Nat.add_mod, Nat.mod_mod, mod_lt_two (i + Q - ci % Q) Q (by omega)]
      generalize ci % Q = c at hcl hc
      split
      · rw [mod_lt_two (c + (i + Q - c)) Q (by omega)]; split <;> omega
      · rw [mod_lt_two (c + (i + Q - c - Q)) Q (by omega)]; split <;> omega
theorem clear_foldlM (f : Nat → Nat) :
    ∀ (l : List Nat) (s : List (Option mbuf_ptr)), (∀ i ∈ l, f i < s.length) →
      l.foldlM (fun s i => if f i < s.length then some (s.set (f i) none) else none) s =
        some (l.foldl (fun s i => s.set (f i) none) s) := by
  intro l
  induction l with
  | nil => intro s _; rfl
  | cons i l ih =>
    intro s h
    have hi : f i < s.length := h i (List.mem_cons_self _ _)
    simp only [List.foldlM_cons, List.foldl_cons, if_pos hi, Option.bind_eq_bind,
      Option.some_bind]
    exact ih _ (by intro k hk; simpa using h k (List.mem_cons_of_mem _ hk))

theorem clear_foldl_length (f : Nat → Nat) :
    ∀ (l : List Nat) (s : List (Option mbuf_ptr)),
      (l.foldl (fun s i => s.set (f i) none) s).length = s.length := by
  intro l
  induction l with
  | nil => intro s; rfl
  | cons i l ih => intro s; simp only [List.foldl_cons]; rw [ih]; simp

theorem clear_foldl_getD (f : Nat → Nat) :
    ∀ (l : List Nat) (s : List (Option mbuf_ptr)) (k : Nat),
      (l.foldl (fun s i => s.set (f i) none) s).getD k none =
        if ∃ i ∈ l, f i = k then none else s.getD k none := by
  intro l
  induction l with
  | nil => intro s k; simp
  | cons i l ih =>
    intro s k
    simp only [List.foldl_cons]
    rw [ih]
    by_cases h1 : ∃ j ∈ l, f j = k
    · have h2 : ∃ j ∈ i :: l, f j = k := by
        obtain ⟨j, hj, hjk⟩ := h1; exact ⟨j, List.mem_cons_of_mem _ hj, hjk⟩
      rw [if_pos h1, if_pos h2]
    · rw [if_neg h1]
      by_cases h3 : f i = k
      · have h2 : ∃ j ∈ i :: l, f j = k := ⟨i, List.mem_cons_self _ _, h3⟩
        rw [if_pos h2]
        simp only [List.getD_eq_getElem?_getD, List.getElem?_set, h3, if_true]
        split <;> rfl
      · have h2 : ¬ ∃ j ∈ i :: l, f j = k := by
          rintro ⟨j, hj, hjk⟩
          rcases List.mem_cons.1 hj with rfl | hj
          · exact h3 hjk
          · exact h1 ⟨j, hj, hjk⟩
        rw [if_neg h2]
        simp only [List.getD_eq_getElem?_getD, List.getElem?_set_ne h3]

theorem take_eq_map_getD (s : List (Option mbuf_ptr)) (n : Nat) (h : n ≤ s.length) :
    s.take n = (List.range n).map (fun i => s.getD i none) := by
  apply List.ext_getElem?
  intro k
  by_cases hk : k < n
  · have hk' : k < s.length := by omega
    simp [List.getElem?_take, hk, List.getElem?_eq_getElem hk']
  · have h1 : (List.take n s)[k]? = none := by
      rw [List.getElem?_eq_none_iff]; simp; omega
    have h2 : (List.map (fun i => s.getD i none) (List.range n))[k]? = none := by
      rw [List.getElem?_eq_none_iff]; simp; omega
    rw [h1, h2]

theorem getElem?_eq_of_getD (l1 l2 : List (Option mbuf_ptr)) (m : Nat)
    (hlen : l1.length = l2.length) (h : l1.getD m none = l2.getD m none) :
    l1[m]? = l2[m]? := by
  by_cases hm : m < l1.length
  · have hm2 : m < l2.length := by omega
    simp only [List.getD_eq_getElem?_getD, List.getElem?_eq_getElem hm,
      List.getElem?_eq_getElem hm2, Option.getD_some] at h
    rw [List.getElem?_eq_getElem hm, List.getElem?_eq_getElem hm2, h]
  · rw [List.getElem?_eq_none_iff.2 (by omega), List.getElem?_eq_none_iff.2 (by omega)]

theorem free_all (s : List (Option mbuf_ptr)) (n : Nat) (w : RxWorld) (h : n ≤ s.length)
    (hfake : ∀ i, i < n → s.getD i none ≠ some mbuf_ptr.fake_mbuf) :
    (List.range n).foldlM rxq_free_elt (s, w) =
      some (List.replicate n none ++ s.drop n,
        w.release_all ((List.range n).filterMap (fun i => mbuf_object (s.getD i none)))) := by
  have h1 := rxq_free_elt_fold (s.take n) [] (s.drop n) w
    (by
      intro x hx
      rw [take_eq_map_getD s n h] at hx
      obtain ⟨i, hi, rfl⟩ := List.mem_map.1 hx
      exact hfake i (List.mem_range.1 hi))
  have hl : (s.take n).length = n := by simp [h]
  simp only [List.length_nil, List.nil_append, List.take_append_drop, hl,
    ← List.range_eq_range'] at h1
  rw [h1, take_eq_map_getD s n h, List.filterMap_map]
  rfl

theorem rxq_free_elts_eq (D : RxDecls) (conf : RxConf) (rxq_ctrl : mlx5_rxq_ctrl)
    (a : rxq_elts) (w : RxWorld)
    (helts : rxq_ctrl.rxq.elts = some a)
    (he : rxq_ctrl.rxq.elts_n ≤ 15)
    (hlen : 2 ^ rxq_ctrl.rxq.elts_n ≤ a.slots.length)
    (hfake : ∀ i, i < 2 ^ rxq_ctrl.rxq.elts_n →
      a.slots.getD i none ≠ some mbuf_ptr.fake_mbuf) :
    rxq_free_elts D conf rxq_ctrl w =
      some
        ({ rxq_ctrl with
            rxq :=
              { rxq_ctrl.rxq with
                rq_pi :=
                  if 0 < D.rxq_check_vec_support conf.priv_rx_vec_en rxq_ctrl.rxq then
                    rxq_ctrl.rxq.rq_ci
                  else rxq_ctrl.rxq.rq_pi
                elts :=
                  some
                    { a with
                      slots :=
                        List.replicate (2 ^ rxq_ctrl.rxq.elts_n) none ++
                          a.slots.drop (2 ^ rxq_ctrl.rxq.elts_n) } } },
          w.release_all
            ((List.range (2 ^ rxq_ctrl.rxq.elts_n)).filterMap (fun i =>
              if 0 < D.rxq_check_vec_support conf.priv_rx_vec_en rxq_ctrl.rxq ∧
                  ∃ j, j < rxq_free_elts_used rxq_ctrl.rxq.elts_n rxq_ctrl.rxq.rq_ci
                      rxq_ctrl.rxq.rq_pi ∧
                    (rxq_ctrl.rxq.rq_ci + j) &&&
                      (((1 <<< rxq_ctrl.rxq.elts_n) % 2 ^ 16 + 2 ^ 16 - 1) % 2 ^ 16) = i
              then none
              else mbuf_object (a.slots.getD i none)))) := by
  have hle : 2 ^ rxq_ctrl.rxq.elts_n ≤ 2 ^ 15 := Nat.pow_le_pow_right (by norm_num) he
  have hpos : 0 < 2 ^ rxq_ctrl.rxq.elts_n := Nat.pos_pow_of_pos _ (by norm_num)
  have hQ : ¬ 2 ^ 16 ≤ 2 ^ rxq_ctrl.rxq.elts_n := by omega
  unfold rxq_free_elts
  simp only [helts, Nat.one_shiftLeft, if_neg hQ]
  by_cases hv : 0 < D.rxq_check_vec_support conf.priv_rx_vec_en rxq_ctrl.rxq
  · have hmask : ∀ i, (rxq_ctrl.rxq.rq_ci + i) &&&
        ((2 ^ rxq_ctrl.rxq.elts_n % 2 ^ 16 + 2 ^ 16 - 1) % 2 ^ 16) <
          2 ^ rxq_ctrl.rxq.elts_n := by
      intro i
      have h1 : (2 ^ rxq_ctrl.rxq.elts_n % 2 ^ 16 + 2 ^ 16 - 1) % 2 ^ 16 =
          2 ^ rxq_ctrl.rxq.elts_n - 1 := by
        rw [Nat.mod_eq_of_lt (show 2 ^ rxq_ctrl.rxq.elts_n < 2 ^ 16 by omega)]; omega
      rw [h1, Nat.and_pow_two_sub_one_eq_mod]
      exact Nat.mod_lt _ (Nat.pos_pow_of_pos _ (by norm_num))
    have hclear := clear_foldlM
      (fun i => (rxq_ctrl.rxq.rq_ci + i) &&&
        ((2 ^ rxq_ctrl.rxq.elts_n % 2 ^ 16 + 2 ^ 16 - 1) % 2 ^ 16))
      (List.range (rxq_free_elts_used rxq_ctrl.rxq.elts_n rxq_ctrl.rxq.rq_ci
        rxq_ctrl.rxq.rq_pi)) a.slots
      (by intro i _; exact lt_of_lt_of_le (hmask i) hlen)
    have hgetD := clear_foldl_getD
      (fun i => (rxq_ctrl.rxq.rq_ci + i) &&&
        ((2 ^ rxq_ctrl.rxq.elts_n % 2 ^ 16 + 2 ^ 16 - 1) % 2 ^ 16))
      (List.range (rxq_free_elts_used rxq_ctrl.rxq.elts_n rxq_ctrl.rxq.rq_ci
        rxq_ctrl.rxq.rq_pi)) a.slots
    have hlength := clear_foldl_length
      (fun i => (rxq_ctrl.rxq.rq_ci + i) &&&
        ((2 ^ rxq_ctrl.rxq.elts_n % 2 ^ 16 + 2 ^ 16 - 1) % 2 ^ 16))
      (List.range (rxq_free_elts_used rxq_ctrl.rxq.elts_n rxq_ctrl.rxq.rq_ci
        rxq_ctrl.rxq.rq_pi)) a.slots
    simp only [rxq_free_elts_clear, Nat.one_shiftLeft, hv, decide_True, if_true, hclear]
    generalize List.foldl (fun s i => s.set ((rxq_ctrl.rxq.rq_ci + i) &&&
        ((2 ^ rxq_ctrl.rxq.elts_n % 2 ^ 16 + 2 ^ 16 - 1) % 2 ^ 16)) none) a.slots
        (List.range (rxq_free_elts_used rxq_ctrl.rxq.elts_n rxq_ctrl.rxq.rq_ci
          rxq_ctrl.rxq.rq_pi)) = cleared at hgetD hlength
    have hdrop : cleared.drop (2 ^ rxq_ctrl.rxq.elts_n) =
        a.slots.drop (2 ^ rxq_ctrl.rxq.elts_n) := by
      apply List.ext_getElem?
      intro k
      rw [List.getElem?_drop, List.getElem?_drop]
      apply getElem?_eq_of_getD _ _ _ hlength
      rw [hgetD, if_neg]
      rintro ⟨j, _, hj⟩
      have := hmask j
      omega
    have hnofake : ∀ i, i < 2 ^ rxq_ctrl.rxq.elts_n →
        cleared.getD i none ≠ some mbuf_ptr.fake_mbuf := by
      intro i hi
      rw [hgetD]
      split
      · simp
      · exact hfake i hi
    rw [free_all cleared _ w (by omega) hnofake, hdrop]
    simp only [Option.some.injEq, Prod.mk.injEq, true_and]
    congr 1
    apply List.filterMap_congr
    intro i _
    rw [hgetD]
    simp only [List.mem_range, true_and]
    by_cases hc : ∃ j, j < rxq_free_elts_used rxq_ctrl.rxq.elts_n rxq_ctrl.rxq.rq_ci
        rxq_ctrl.rxq.rq_pi ∧ (rxq_ctrl.rxq.rq_ci + j) &&&
          ((2 ^ rxq_ctrl.rxq.elts_n % 2 ^ 16 + 2 ^ 16 - 1) % 2 ^ 16) = i
    · rw [if_pos hc, if_pos hc]; rfl
    · rw [if_neg hc, if_neg hc]
  · simp only [hv, decide_False, Bool.false_eq_true, if_false, false_and]
    rw [free_all a.slots _ w hlen hfake]
theorem rxq_free_elts_released_eq (vec : Prop) [Decidable vec] (e ci pi : Nat)
    (slots : List (Option mbuf_ptr)) (he : e ≤ 15) (hpi : pi < 2 ^ 16)
    (hd : (ci + 2 ^ 16 - pi) % 2 ^ 16 ≤ 2 ^ e) :
    (List.range (2 ^ e)).filterMap (fun i =>
        if vec ∧ ∃ j, j < rxq_free_elts_used e ci pi ∧
            (ci + j) &&& (((1 <<< e) % 2 ^ 16 + 2 ^ 16 - 1) % 2 ^ 16) = i
        then none
        else mbuf_object (slots.getD i none)) =
      rxq_free_elts_released (decide vec) e ci pi slots := by
  unfold rxq_free_elts_released
  apply List.filterMap_congr
  intro i hi
  have hiff := rxq_slot_cleared_iff e ci pi i he hpi hd (List.mem_range.1 hi)
  by_cases hv : vec
  · by_cases ho : rxq_slot_owned e ci pi i = false
    · rw [if_pos ⟨hv, hiff.2 ho⟩]; simp [hv, ho]
    · rw [if_neg (fun h => ho (hiff.1 h.2))]; simp [ho]
  · rw [if_neg (fun h => hv h.1)]; simp [hv]

/-- C15: `rxq_free_elts` on a ring of `q_n = 2 ^ elts_n` slots whose
cursors of 16 bits have `rq_ci - rq_pi` at most `q_n`: the function ends,
every slot of the ring is `NULL` afterwards, and the buffers released are,
once each, the buffers of the pool in the slots of the ring, for the
vectorized Rx only those in the slots from `rq_pi` up to `rq_ci` modulo
`q_n`; the other slots are the `q_n - (rq_ci - rq_pi)` slots from `rq_ci`
on, they are cleared and their buffers are not released, and `rq_pi` is set
to `rq_ci`. A second call releases nothing. -/
theorem rxq_free_elts_spec (D : RxDecls) (conf : RxConf) (rxq_ctrl : mlx5_rxq_ctrl)
    (a : rxq_elts) (w : RxWorld)
    (helts : rxq_ctrl.rxq.elts = some a)
    (he : rxq_ctrl.rxq.elts_n ≤ 15)
    (hlen : 2 ^ rxq_ctrl.rxq.elts_n ≤ a.slots.length)
    (hfake : ∀ i, i < 2 ^ rxq_ctrl.rxq.elts_n →
      a.slots.getD i none ≠ some mbuf_ptr.fake_mbuf)
    (hpi : rxq_ctrl.rxq.rq_pi < 2 ^ 16)
    (hd : (rxq_ctrl.rxq.rq_ci + 2 ^ 16 - rxq_ctrl.rxq.rq_pi) % 2 ^ 16 ≤
      2 ^ rxq_ctrl.rxq.elts_n) :
    ∃ c' w' c'',
      rxq_free_elts D conf rxq_ctrl w = some (c', w') ∧
      c'.rxq.elts =
        some { a with slots := List.replicate (2 ^ rxq_ctrl.rxq.elts_n) none ++
          a.slots.drop (2 ^ rxq_ctrl.rxq.elts_n) } ∧
      c'.rxq.rq_pi =
        (if 0 < D.rxq_check_vec_support conf.priv_rx_vec_en rxq_ctrl.rxq then
          rxq_ctrl.rxq.rq_ci else rxq_ctrl.rxq.rq_pi) ∧
      w'.released = w.released ++
        rxq_free_elts_released
          (decide (0 < D.rxq_check_vec_support conf.priv_rx_vec_en rxq_ctrl.rxq))
          rxq_ctrl.rxq.elts_n rxq_ctrl.rxq.rq_ci rxq_ctrl.rxq.rq_pi a.slots ∧
      (∀ i, i < 2 ^ rxq_ctrl.rxq.elts_n →
        (rxq_slot_owned rxq_ctrl.rxq.elts_n rxq_ctrl.rxq.rq_ci rxq_ctrl.rxq.rq_pi i = false ↔
          ∃ j, j < 2 ^ rxq_ctrl.rxq.elts_n -
              (rxq_ctrl.rxq.rq_ci + 2 ^ 16 - rxq_ctrl.rxq.rq_pi) % 2 ^ 16 ∧
            (rxq_ctrl.rxq.rq_ci + j) % 2 ^ rxq_ctrl.rxq.elts_n = i)) ∧
      rxq_free_elts D conf c' w' = some (c'', w') ∧
      c''.rxq.elts = c'.rxq.elts := by
  have hle : 2 ^ rxq_ctrl.rxq.elts_n ≤ 2 ^ 15 := Nat.pow_le_pow_right (by norm_num) he
  have hpos : 0 < 2 ^ rxq_ctrl.rxq.elts_n := Nat.pos_pow_of_pos _ (by norm_num)
  have h1 := rxq_free_elts_eq D conf rxq_ctrl a w helts he hlen hfake
  rw [rxq_free_elts_released_eq _ _ _ _ _ he hpi hd, release_all_spec] at h1
  have h2 := rxq_free_elts_eq D conf
    { rxq_ctrl with
      rxq :=
        { rxq_ctrl.rxq with
          rq_pi :=
            if 0 < D.rxq_check_vec_support conf.priv_rx_vec_en rxq_ctrl.rxq then
              rxq_ctrl.rxq.rq_ci
            else rxq_ctrl.rxq.rq_pi
          elts :=
            some
              { a with
                slots :=
                  List.replicate (2 ^ rxq_ctrl.rxq.elts_n) none ++
                    a.slots.drop (2 ^ rxq_ctrl.rxq.elts_n) } } }
    { a with slots := List.replicate (2 ^ rxq_ctrl.rxq.elts_n) none ++
        a.slots.drop (2 ^ rxq_ctrl.rxq.elts_n) }
    { next_handle := w.next_handle
      live := w.live.filter (fun x => decide (x ∉ rxq_free_elts_released
        (decide (0 < D.rxq_check_vec_support conf.priv_rx_vec_en rxq_ctrl.rxq))
        rxq_ctrl.rxq.elts_n rxq_ctrl.rxq.rq_ci rxq_ctrl.rxq.rq_pi a.slots))
      released := w.released ++ rxq_free_elts_released
        (decide (0 < D.rxq_check_vec_support conf.priv_rx_vec_en rxq_ctrl.rxq))
        rxq_ctrl.rxq.elts_n rxq_ctrl.rxq.rq_ci rxq_ctrl.rxq.rq_pi a.slots }
    rfl he (by simp)
    (by
      intro i hi
      simp [List.getD_eq_getElem?_getD, List.getElem?_append_left, hi])
  have hnil : ∀ (P : Nat → Prop) [DecidablePred P],
      (List.range (2 ^ rxq_ctrl.rxq.elts_n)).filterMap (fun i =>
        if P i then none
        else mbuf_object ((List.replicate (2 ^ rxq_ctrl.rxq.elts_n) none ++
          a.slots.drop (2 ^ rxq_ctrl.rxq.elts_n)).getD i none)) = [] := by
    intro P _
    apply List.filterMap_eq_nil_iff.2
    intro i hi
    have hi' : i < 2 ^ rxq_ctrl.rxq.elts_n := List.mem_range.1 hi
    have : (List.replicate (2 ^ rxq_ctrl.rxq.elts_n) (none : Option mbuf_ptr) ++
        a.slots.drop (2 ^ rxq_ctrl.rxq.elts_n)).getD i none = none := by
      simp [List.getD_eq_getElem?_getD, List.getElem?_append_left, hi']
    rw [this]
    split <;> rfl
  simp only [hnil, RxWorld.release_all, List.foldl_nil] at h2
  refine ⟨_, _, _, h1, rfl, rfl, rfl, ?_, h2, ?_⟩
  · intro i hi
    rw [← rxq_slot_cleared_iff _ _ _ i he hpi hd hi]
    have hmask : ((1 <<< rxq_ctrl.rxq.elts_n) % 2 ^ 16 + 2 ^ 16 - 1) % 2 ^ 16 =
        2 ^ rxq_ctrl.rxq.elts_n - 1 := by
      rw [Nat.one_shiftLeft,
        Nat.mod_eq_of_lt (show 2 ^ rxq_ctrl.rxq.elts_n < 2 ^ 16 by omega)]
      omega
    have hused : rxq_free_elts_used rxq_ctrl.rxq.elts_n rxq_ctrl.rxq.rq_ci
        rxq_ctrl.rxq.rq_pi = 2 ^ rxq_ctrl.rxq.elts_n -
          (rxq_ctrl.rxq.rq_ci + 2 ^ 16 - rxq_ctrl.rxq.rq_pi) % 2 ^ 16 := by
      unfold rxq_free_elts_used
      rw [Nat.one_shiftLeft,
        Nat.mod_eq_of_lt (show 2 ^ rxq_ctrl.rxq.elts_n < 2 ^ 16 by omega)]
      omega
    rw [hmask, hused]
    simp only [Nat.and_pow_two_sub_one_eq_mod]
  · simp

theorem rxq_free_elts_spec_witness :
    ∃ c' w' c'',
      rxq_free_elts RxDecls.sample { RxConf.sample with priv_rx_vec_en := true }
        mlx5_rxq_ctrl.sample_vec
        { next_handle := 20
          live := [rx_object.mem 1, rx_object.mbuf 10, rx_object.mbuf 11, rx_object.mbuf 12,
            rx_object.mbuf 13]
          released := [] } = some (c', w') ∧
      c'.rxq.elts =
        some
          { mem := 1
            slots := [none, none, none, none, some mbuf_ptr.fake_mbuf, some mbuf_ptr.fake_mbuf,
              some mbuf_ptr.fake_mbuf, some mbuf_ptr.fake_mbuf] } ∧
      c'.rxq.rq_pi = 5 ∧
      w'.released = [rx_object.mbuf 10, rx_object.mbuf 13] ∧
      rxq_free_elts RxDecls.sample { RxConf.sample with priv_rx_vec_en := true } c' w' =
        some (c'', w') := by
  obtain ⟨c', w', c'', h1, h2, h3, h4, _, h6, _⟩ :=
    rxq_free_elts_spec RxDecls.sample { RxConf.sample with priv_rx_vec_en := true }
      mlx5_rxq_ctrl.sample_vec
      { mem := 1
        slots :=
          [some (mbuf_ptr.pool 10), some (mbuf_ptr.pool 11), some (mbuf_ptr.pool 12),
            some (mbuf_ptr.pool 13), some mbuf_ptr.fake_mbuf, some mbuf_ptr.fake_mbuf,
            some mbuf_ptr.fake_mbuf, some mbuf_ptr.fake_mbuf] }
      { next_handle := 20
        live := [rx_object.mem 1, rx_object.mbuf 10, rx_object.mbuf 11, rx_object.mbuf 12,
          rx_object.mbuf 13]
        released := [] }
      rfl (by decide) (by decide)
      (by
        intro i hi
        have hi' : i < 4 := hi
        interval_cases i <;> decide)
      (by decide) (by decide)
  exact ⟨c', w', c'', h1, h2.trans (by decide), h3.trans (by decide), h4.trans (by decide), h6⟩

/-! ## The round trip of `mlx5_rx_queue_setup` -/

theorem rxq_alloc_elts_slots_spec (D : RxDecls) (conf : RxConf) (rxq_ctrl : mlx5_rxq_ctrl)
    (slots : List (Option mbuf_ptr)) (elts_n h : Nat) (hroom : elts_n ≤ slots.length) :
    (rxq_alloc_elts_slots D conf rxq_ctrl slots elts_n h).take elts_n = fresh_slots h elts_n ∧
    (rxq_alloc_elts_slots D conf rxq_ctrl slots elts_n h).length = slots.length := by
  have hlen : (fresh_slots h elts_n ++ slots.drop elts_n).length = slots.length := by
    simp [fresh_slots_length]; omega
  have htake : (fresh_slots h elts_n ++ slots.drop elts_n).take elts_n =
      fresh_slots h elts_n := by
    rw [List.take_append_of_le_length (by rw [fresh_slots_length])]
    exact List.take_of_length_le (by rw [fresh_slots_length])
  have hfold := foldl_set_pad elts_n (some mbuf_ptr.fake_mbuf)
    (List.range D.MLX5_VPMD_DESCS_PER_LOOP) (fresh_slots h elts_n ++ slots.drop elts_n)
  unfold rxq_alloc_elts_slots
  split
  · exact ⟨by rw [hfold.1, htake], by rw [hfold.2, hlen]⟩
  · exact ⟨htake, hlen⟩

theorem rxq_alloc_elts_ok (D : RxDecls) (F : RxFaults) (conf : RxConf)
    (rxq_ctrl : mlx5_rxq_ctrl) (a : rxq_elts) (elts_n : Nat) (w : RxWorld)
    (helts : rxq_ctrl.rxq.elts = some a)
    (hroom : elts_n ≤ a.slots.length)
    (hpad : ∀ rxq, 0 < D.rxq_check_vec_support conf.priv_rx_vec_en rxq →
      elts_n + D.MLX5_VPMD_DESCS_PER_LOOP ≤ a.slots.length)
    (hok : ∀ j, j < elts_n → F.mbuf_alloc_fails j = false) :
    rxq_alloc_elts D F conf rxq_ctrl elts_n w =
      some (0,
        rxq_ctrl.set_slots (rxq_alloc_elts_slots D conf rxq_ctrl a.slots elts_n w.next_handle),
        { next_handle := w.next_handle + elts_n
          live := w.live ++ fresh_mbufs w.next_handle elts_n
          released := w.released }) := by
  have hrun := rxq_alloc_elts_loop_run F elts_n 0 [] a.slots w hroom
    (by intro j hj; simpa using hok j hj)
  have hstop : ∀ (i : Nat) (s : List (Option mbuf_ptr)) (w' : RxWorld),
      rxq_alloc_elts_loop F 0 i s w' = some (none, s, w') := by
    intro i s w'; rfl
  rw [hstop] at hrun
  simp only [List.length_nil, List.nil_append, Nat.zero_add, Nat.add_zero] at hrun
  have hlen : (fresh_slots w.next_handle elts_n ++ a.slots.drop elts_n).length =
      a.slots.length := by
    simp [fresh_slots_length]; omega
  unfold rxq_alloc_elts rxq_alloc_elts_slots
  simp only [helts]
  rw [hrun]
  by_cases hv : 0 < D.rxq_check_vec_support conf.priv_rx_vec_en
      (rxq_ctrl.set_slots (fresh_slots w.next_handle elts_n ++ a.slots.drop elts_n)).rxq
  · simp only [if_pos hv, hlen, if_pos (hpad _ hv)]
  · simp only [if_neg hv]

theorem mlx5_rxq_cleanup_zero (D : RxDecls) (conf : RxConf) (w : RxWorld) :
    mlx5_rxq_cleanup D conf mlx5_rxq_ctrl.zero w = some (mlx5_rxq_ctrl.zero, w) := by
  simp [mlx5_rxq_cleanup, rxq_free_elts, mlx5_rxq_ctrl.zero, RxWorld.release_if]

theorem rxq_ctrl_setup_verbs_ok (D : RxDecls) (F : RxFaults) (conf : RxConf)
    (tmpl : mlx5_rxq_ctrl) (desc : Nat) (w : RxWorld) (hF : F.ok D) :
    rxq_ctrl_setup_verbs F conf tmpl desc w =
      .ok
        ({ tmpl with
            mr := some w.next_handle
            channel := if conf.intr_conf_rxq then some (w.next_handle + 1) else tmpl.channel
            cq := some (w.next_handle + 1 + (if conf.intr_conf_rxq then 1 else 0))
            wq := some (w.next_handle + 2 + (if conf.intr_conf_rxq then 1 else 0))
            rxq :=
              { tmpl.rxq with
                vlan_strip := conf.priv_hw_vlan_strip && conf.hw_vlan_strip
                crc_present := !conf.hw_strip_crc && conf.priv_hw_fcs_strip
                port_id := conf.port_id } },
          { next_handle := w.next_handle + 3 + (if conf.intr_conf_rxq then 1 else 0)
            live := w.live ++ (rx_object.mr w.next_handle ::
              ((if conf.intr_conf_rxq then [rx_object.channel (w.next_handle + 1)] else []) ++
                [rx_object.cq (w.next_handle + 1 + (if conf.intr_conf_rxq then 1 else 0)),
                  rx_object.wq (w.next_handle + 2 + (if conf.intr_conf_rxq then 1 else 0))]))
            released := w.released }) := by
  obtain ⟨_, _, h3, h4, h5, h6, h7, h8, _, _, _, _⟩ := hF
  by_cases hi : conf.intr_conf_rxq = true
  · simp [rxq_ctrl_setup_verbs, h3, h4, h5, h6, h7, h8, hi, RxWorld.create]
  · simp [rxq_ctrl_setup_verbs, h3, h4, h5, h6, h7, h8, hi, RxWorld.create]
theorem filter_ne_not_mem (l : List rx_object) (o : rx_object) (h : o ∉ l) :
    l.filter (fun x => decide (x ≠ o)) = l := by
  apply List.filter_eq_self.2
  intro x hx
  simp only [ne_eq, decide_not, Bool.not_eq_true', decide_eq_false_iff_not]
  intro hxo; exact h (hxo ▸ hx)

theorem mem_not_mem_of_wf (w : RxWorld) (hwf : w.wf) (o : rx_object)
    (h : w.next_handle ≤ o.handle) : o ∉ w.live := by
  intro ho
  have := hwf o ho
  omega

theorem rxq_ctrl_setup_ok (D : RxDecls) (F : RxFaults) (conf : RxConf) (m room k socket : Nat)
    (mp : rte_mempool) (w : RxWorld) (s : Nat)
    (hD : D.ok conf) (hF : F.ok D) (hk : k ≤ 15)
    (hs : rxq_ctrl_setup_sges_n D.toRxqDecls conf.max_rx_pkt_len mp.data_room_size
      conf.enable_scatter = .ok s)
    (hdiv : 2 ^ k % 2 ^ s = 0)
    (hroom : 2 ^ k + (if conf.priv_rx_vec_en then 1 else 0) * D.MLX5_VPMD_DESCS_PER_LOOP ≤ room)
    (hwf : w.wf) :
    ∃ C slots W,
      rxq_ctrl_setup D F conf { mem := m, room := room, ctrl := mlx5_rxq_ctrl.zero } (2 ^ k)
        socket mp w = some (0, { mem := m, room := room, ctrl := C }, W) ∧
      C.rxq.elts = some { mem := m, slots := slots } ∧
      slots.take (2 ^ k) =
        fresh_slots (w.next_handle + 4 + (if conf.intr_conf_rxq then 1 else 0)) (2 ^ k) ∧
      2 ^ k ≤ slots.length ∧
      C.rxq.sges_n = s ∧ C.rxq.elts_n = k ∧ C.rxq.rq_ci = 2 ^ k >>> s ∧ C.rxq.rq_pi = 0 ∧
      C.mr = some w.next_handle ∧
      C.channel = (if conf.intr_conf_rxq then some (w.next_handle + 1) else none) ∧
      C.cq = some (w.next_handle + 1 + (if conf.intr_conf_rxq then 1 else 0)) ∧
      C.wq = some (w.next_handle + 2 + (if conf.intr_conf_rxq then 1 else 0)) ∧
      W =
        { next_handle := w.next_handle + 4 + (if conf.intr_conf_rxq then 1 else 0) + 2 ^ k
          live := w.live ++ (rx_object.mr w.next_handle ::
            ((if conf.intr_conf_rxq then [rx_object.channel (w.next_handle + 1)] else []) ++
              [rx_object.cq (w.next_handle + 1 + (if conf.intr_conf_rxq then 1 else 0)),
                rx_object.wq (w.next_handle + 2 + (if conf.intr_conf_rxq then 1 else 0))])) ++
            fresh_mbufs (w.next_handle + 4 + (if conf.intr_conf_rxq then 1 else 0)) (2 ^ k)
          released := w.released ++
            [rx_object.mem (w.next_handle + 3 + (if conf.intr_conf_rxq then 1 else 0))] } := by
  have hF' := hF
  obtain ⟨_, _, _, _, _, _, _, _, h9, h10, h11, h12⟩ := hF'
  obtain ⟨hbits, hP, hvec⟩ := hD
  have hle : 2 ^ k ≤ 2 ^ 15 := Nat.pow_le_pow_right (by norm_num) hk
  have hpos : 0 < 2 ^ k := Nat.pos_pow_of_pos _ (by norm_num)
  have hdiv' : ¬ 2 ^ k % (1 <<< s) ≠ 0 := by rw [Nat.one_shiftLeft]; exact not_not.2 hdiv
  have hlog : log2above (2 ^ k) % 2 ^ D.elts_n_bits = k := by
    rw [log2above_pow]
    apply Nat.mod_eq_of_lt
    calc k < 2 ^ 4 := by omega
      _ ≤ 2 ^ D.elts_n_bits := Nat.pow_le_pow_right (by norm_num) hbits
  generalize hc : (if conf.intr_conf_rxq then 1 else 0 : Nat) = c at *
  generalize hv : (if conf.priv_rx_vec_en then 1 else 0 : Nat) = v at *
  have hv1 : v ≤ 1 := by rw [← hv]; split <;> omega
  have hvP : v * D.MLX5_VPMD_DESCS_PER_LOOP ≤ D.MLX5_VPMD_DESCS_PER_LOOP := by
    calc v * D.MLX5_VPMD_DESCS_PER_LOOP ≤ 1 * D.MLX5_VPMD_DESCS_PER_LOOP :=
          Nat.mul_le_mul_right _ hv1
      _ = D.MLX5_VPMD_DESCS_PER_LOOP := Nat.one_mul _
  have hdn : (2 ^ k + v * D.MLX5_VPMD_DESCS_PER_LOOP) % 2 ^ 16 =
      2 ^ k + v * D.MLX5_VPMD_DESCS_PER_LOOP := Nat.mod_eq_of_lt (by omega)
  unfold rxq_ctrl_setup
  simp only [hs, if_neg hdiv', hv, hdn]
  rw [rxq_ctrl_setup_verbs_ok D F conf _ _ w hF]
  simp only [rxq_setup, h9, h10, h11, hv, hc, rxq_ctrl_setup_tmpl, hlog, Nat.one_shiftLeft, hdn,
    Bool.false_eq_true, if_false, ne_eq, not_true_eq_false, RxWorld.create]
  have hspec := fun T h => rxq_alloc_elts_slots_spec D conf T
    (List.replicate (2 ^ k + v * D.MLX5_VPMD_DESCS_PER_LOOP) none) (2 ^ k) h (by simp)
  rw [rxq_alloc_elts_ok D F conf _ _ (2 ^ k) _ rfl (by simp) ?_ (fun j _ => h12 j)]
  · simp only [mlx5_rxq_cleanup_zero, mlx5_rxq_ctrl.set_slots, Option.map_some', hspec,
      List.length_replicate, not_true_eq_false, if_false, le_refl, hroom, and_self, if_true,
      Nat.cast_ofNat, Nat.cast_zero]
    have e4 : w.next_handle + 3 + c + 1 = w.next_handle + 4 + c := by omega
    rw [e4]
    refine ⟨_, _, _, rfl, rfl, ?_, ?_, rfl, rfl, ?_, rfl, rfl, rfl, rfl, rfl, ?_⟩
    · rw [List.take_take, Nat.min_eq_left (by omega), (hspec _ _).1]
    · rw [List.length_take, (hspec _ _).2, List.length_replicate]
      omega
    · apply Nat.mod_eq_of_lt
      rw [Nat.shiftRight_eq_div_pow]
      exact lt_of_le_of_lt (Nat.div_le_self _ _) (by omega)
    · have hm : rx_object.mem (w.next_handle + 3 + c) ∉ w.live :=
        mem_not_mem_of_wf w hwf _ (by simp only [rx_object.handle]; omega)
      simp only [RxWorld.release, List.filter_append, filter_ne_not_mem w.live _ hm,
        RxWorld.mk.injEq, true_and, and_true]
      rw [filter_ne_not_mem (fresh_mbufs (w.next_handle + 4 + c) (2 ^ k)) _
        (by simp [fresh_mbufs])]
      by_cases hi : conf.intr_conf_rxq = true <;> simp [hi]
  · intro rxq hrxq
    have h1 := (hvec rxq hrxq).1
    rw [h1] at hv
    simp only [if_true] at hv
    subst hv
    simp
theorem mlx5_rxq_cleanup_fresh (D : RxDecls) (conf : RxConf) (C : mlx5_rxq_ctrl)
    (m : Nat) (slots : List (Option mbuf_ptr)) (k s b : Nat) (W : RxWorld)
    (hD : D.ok conf) (hk : k ≤ 15)
    (helts : C.rxq.elts = some { mem := m, slots := slots })
    (htake : slots.take (2 ^ k) = fresh_slots b (2 ^ k)) (hlen : 2 ^ k ≤ slots.length)
    (hs : C.rxq.sges_n = s) (he : C.rxq.elts_n = k) (hci : C.rxq.rq_ci = 2 ^ k >>> s)
    (hpi : C.rxq.rq_pi = 0) :
    mlx5_rxq_cleanup D conf C W =
      some (mlx5_rxq_ctrl.zero,
        ((((W.release_all (fresh_mbufs b (2 ^ k))).release_if rx_object.wq C.wq).release_if
          rx_object.cq C.cq).release_if rx_object.channel C.channel).release_if
            rx_object.mr C.mr) := by
  have hle : 2 ^ k ≤ 2 ^ 15 := Nat.pow_le_pow_right (by norm_num) hk
  have hpos : 0 < 2 ^ k := Nat.pos_pow_of_pos _ (by norm_num)
  have hfake : ∀ i, i < 2 ^ C.rxq.elts_n →
      ({ mem := m, slots := slots } : rxq_elts).slots.getD i none ≠
        some mbuf_ptr.fake_mbuf := by
    intro i hi
    rw [he] at hi
    apply fresh_slots_ne_fake b (2 ^ k)
    rw [← htake, take_eq_map_getD slots _ hlen]
    exact List.mem_map.2 ⟨i, List.mem_range.2 hi, rfl⟩
  have hfree := rxq_free_elts_eq D conf C { mem := m, slots := slots } W helts
    (by rw [he]; exact hk) (by rw [he]; exact hlen) hfake
  have hlist : (List.range (2 ^ C.rxq.elts_n)).filterMap (fun i =>
      if 0 < D.rxq_check_vec_support conf.priv_rx_vec_en C.rxq ∧
          ∃ j, j < rxq_free_elts_used C.rxq.elts_n C.rxq.rq_ci C.rxq.rq_pi ∧
            (C.rxq.rq_ci + j) &&& (((1 <<< C.rxq.elts_n) % 2 ^ 16 + 2 ^ 16 - 1) % 2 ^ 16) = i
      then none
      else mbuf_object (({ mem := m, slots := slots } : rxq_elts).slots.getD i none)) =
      fresh_mbufs b (2 ^ k) := by
    have hcond : ¬ (0 < D.rxq_check_vec_support conf.priv_rx_vec_en C.rxq ∧
        ∃ j, j < rxq_free_elts_used C.rxq.elts_n C.rxq.rq_ci C.rxq.rq_pi) := by
      rintro ⟨hv, j, hj⟩
      have hs0 := (hD.2.2 _ hv).2
      rw [hs] at hs0
      rw [he, hci, hpi, hs0] at hj
      simp only [rxq_free_elts_used, Nat.one_shiftLeft, Nat.shiftRight_zero] at hj
      omega
    have : ∀ i, (if 0 < D.rxq_check_vec_support conf.priv_rx_vec_en C.rxq ∧
          ∃ j, j < rxq_free_elts_used C.rxq.elts_n C.rxq.rq_ci C.rxq.rq_pi ∧
            (C.rxq.rq_ci + j) &&& (((1 <<< C.rxq.elts_n) % 2 ^ 16 + 2 ^ 16 - 1) % 2 ^ 16) = i
        then none
        else mbuf_object (({ mem := m, slots := slots } : rxq_elts).slots.getD i none)) =
        mbuf_object (slots.getD i none) := by
      intro i
      rw [if_neg]
      rintro ⟨hv, j, hj, _⟩
      exact hcond ⟨hv, j, hj⟩
    simp only [this]
    rw [he, ← fresh_slots_objects, ← htake, take_eq_map_getD slots _ hlen, List.filterMap_map]
    rfl
  rw [hlist] at hfree
  unfold mlx5_rxq_cleanup
  rw [hfree]
theorem release_if_eq (w : RxWorld) (kind : Nat → rx_object) (o : Option Nat) :
    w.release_if kind o = w.release_all (o.toList.map kind) := by
  cases o <;> rfl

theorem objects_fresh (C : mlx5_rxq_ctrl) (m : Nat) (slots : List (Option mbuf_ptr))
    (k b : Nat) (helts : C.rxq.elts = some { mem := m, slots := slots })
    (htake : slots.take (2 ^ k) = fresh_slots b (2 ^ k)) (he : C.rxq.elts_n = k) :
    C.objects = fresh_mbufs b (2 ^ k) ++
      (C.wq.toList.map rx_object.wq ++ (C.cq.toList.map rx_object.cq ++
        (C.channel.toList.map rx_object.channel ++ C.mr.toList.map rx_object.mr))) := by
  simp only [mlx5_rxq_ctrl.objects, helts, he, htake, fresh_slots_objects]

theorem mlx5_rxq_cleanup_objects (D : RxDecls) (conf : RxConf) (C : mlx5_rxq_ctrl)
    (m : Nat) (slots : List (Option mbuf_ptr)) (k s b : Nat) (W : RxWorld)
    (hD : D.ok conf) (hk : k ≤ 15)
    (helts : C.rxq.elts = some { mem := m, slots := slots })
    (htake : slots.take (2 ^ k) = fresh_slots b (2 ^ k)) (hlen : 2 ^ k ≤ slots.length)
    (hs : C.rxq.sges_n = s) (he : C.rxq.elts_n = k) (hci : C.rxq.rq_ci = 2 ^ k >>> s)
    (hpi : C.rxq.rq_pi = 0) :
    mlx5_rxq_cleanup D conf C W = some (mlx5_rxq_ctrl.zero, W.release_all C.objects) := by
  rw [mlx5_rxq_cleanup_fresh D conf C m slots k s b W hD hk helts htake hlen hs he hci hpi,
    objects_fresh C m slots k b helts htake he]
  simp only [release_if_eq, release_all_append]

theorem wf_release_all (w : RxWorld) (os : List rx_object) (h : w.wf) :
    (w.release_all os).wf := by
  rw [release_all_spec]
  intro o ho
  exact h o (List.mem_filter.1 ho).1

theorem wf_create (w : RxWorld) (kind : Nat → rx_object)
    (hk : ∀ h, (kind h).handle = h) (h : w.wf) : (w.create kind).2.wf := by
  intro o ho
  simp only [RxWorld.create, List.mem_append, List.mem_singleton] at ho ⊢
  rcases ho with ho | rfl
  · exact Nat.lt_succ_of_lt (h o ho)
  · rw [hk]; exact Nat.lt_succ_self _

theorem fresh_mbufs_handle (b n : Nat) :
    ∀ o ∈ fresh_mbufs b n, b ≤ o.handle ∧ o.handle < b + n := by
  intro o ho
  simp only [fresh_mbufs, List.mem_map, List.mem_range'_1] at ho
  obtain ⟨x, hx, rfl⟩ := ho
  simpa [rx_object.handle] using hx
theorem rxq_ctrl_setup_facts (D : RxDecls) (F : RxFaults) (conf : RxConf)
    (m room k socket : Nat) (mp : rte_mempool) (w : RxWorld) (s : Nat)
    (hD : D.ok conf) (hF : F.ok D) (hk : k ≤ 15)
    (hs : rxq_ctrl_setup_sges_n D.toRxqDecls conf.max_rx_pkt_len mp.data_room_size
      conf.enable_scatter = .ok s)
    (hdiv : 2 ^ k % 2 ^ s = 0)
    (hroom : 2 ^ k + (if conf.priv_rx_vec_en then 1 else 0) * D.MLX5_VPMD_DESCS_PER_LOOP ≤ room)
    (hwf : w.wf) :
    ∃ C W t,
      rxq_ctrl_setup D F conf { mem := m, room := room, ctrl := mlx5_rxq_ctrl.zero } (2 ^ k)
        socket mp w = some (0, { mem := m, room := room, ctrl := C }, W) ∧
      (C.rxq.sges_n = s ∧ C.rxq.elts_n = k ∧ C.rxq.rq_ci = 2 ^ k >>> s) ∧
      (∀ W' i, mlx5_rxq_cleanup D conf { C with rxq := { C.rxq with stats_idx := i } } W' =
        some (mlx5_rxq_ctrl.zero, W'.release_all C.objects)) ∧
      C.objects.length = 2 ^ k + 3 + (if conf.intr_conf_rxq then 1 else 0) ∧
      C.objects.Nodup ∧
      (∀ o ∈ C.objects, o ∈ W.live ∧ o.handle < W.next_handle ∧ ∀ h, o ≠ rx_object.mem h) ∧
      W.wf ∧
      W.released = w.released ++ [rx_object.mem t] ∧
      (∀ o ∈ W.live, o ∈ w.live ∨ w.next_handle ≤ o.handle) := by
  obtain ⟨C, slots, W, h1, h2, h3, h4, h5, h6, h7, h8, h9, h10, h11, h12, h13⟩ :=
    rxq_ctrl_setup_ok D F conf m room k socket mp w s hD hF hk hs hdiv hroom hwf
  have hpos : 0 < 2 ^ k := Nat.pos_pow_of_pos _ (by norm_num)
  have hobj := objects_fresh C m slots k _ h2 h3 h6
  rw [h9, h10, h11, h12] at hobj
  refine ⟨C, W, w.next_handle + 3 + (if conf.intr_conf_rxq then 1 else 0), h1, ⟨h5, h6, h7⟩,
    ?_, ?_, ?_, ?_, ?_, ?_, ?_⟩
  · intro W' i
    exact mlx5_rxq_cleanup_objects D conf { C with rxq := { C.rxq with stats_idx := i } } m
      slots k s _ W' hD hk h2 h3 h4 h5 h6 h7 h8
  · rw [hobj]
    by_cases hi : conf.intr_conf_rxq = true <;> simp [hi, fresh_mbufs]
  · rw [hobj]
    apply List.Nodup.append (fresh_mbufs_nodup _ _)
    · by_cases hi : conf.intr_conf_rxq = true <;> simp [hi]
    · intro o ho1 ho2
      obtain ⟨x, _, rfl⟩ := List.mem_map.1 ho1
      by_cases hi : conf.intr_conf_rxq = true <;> simp [hi] at ho2
  · intro o ho
    rw [hobj] at ho
    rw [h13]
    simp only [List.mem_append, List.mem_map, Option.mem_toList, Option.mem_def] at ho
    by_cases hi : conf.intr_conf_rxq = true
    · simp only [hi, if_true]
      simp only [hi, if_true, Option.some.injEq] at ho
      rcases ho with ho | ⟨h, rfl, rfl⟩ | ⟨h, rfl, rfl⟩ | ⟨h, rfl, rfl⟩ | ⟨h, rfl, rfl⟩
      · have := fresh_mbufs_handle _ _ o ho
        refine ⟨by simp [ho], by omega, ?_⟩
        intro h hh; subst hh; simp [fresh_mbufs] at ho
      · exact ⟨by simp, by simp [rx_object.handle]; omega, by simp⟩
      · exact ⟨by simp, by simp [rx_object.handle]; omega, by simp⟩
      · exact ⟨by simp, by simp [rx_object.handle]; omega, by simp⟩
      · exact ⟨by simp, by simp [rx_object.handle]; omega, by simp⟩
    · simp only [hi, if_false, Bool.false_eq_true]
      simp only [hi, if_false, Bool.false_eq_true, Option.some.injEq, exists_false,
        false_or, reduceCtorEq, false_and] at ho
      rcases ho with ho | ⟨h, rfl, rfl⟩ | ⟨h, rfl, rfl⟩ | ⟨h, rfl, rfl⟩
      · have := fresh_mbufs_handle _ _ o ho
        refine ⟨by simp [ho], by omega, ?_⟩
        intro h hh; subst hh; simp [fresh_mbufs] at ho
      · exact ⟨by simp, by simp [rx_object.handle]; omega, by simp⟩
      · exact ⟨by simp, by simp [rx_object.handle]; omega, by simp⟩
      · exact ⟨by simp, by simp [rx_object.handle]; omega, by simp⟩
  · rw [h13]
    intro o ho
    simp only [List.mem_append, List.mem_cons, List.mem_singleton, List.not_mem_nil,
      or_false] at ho
    rcases ho with (ho | rfl | ho | rfl | rfl) | ho
    · have := hwf o ho; simp only; omega
    · simp [rx_object.handle]; omega
    · by_cases hi : conf.intr_conf_rxq = true
      · simp only [hi, if_true, List.mem_singleton] at ho
        subst ho; simp [rx_object.handle]; omega
      · simp [hi] at ho
    · simp [rx_object.handle]; omega
    · simp [rx_object.handle]; omega
    · have := fresh_mbufs_handle _ _ o ho
      simp only; omega
  · rw [h13]
  · rw [h13]
    intro o ho
    simp only [List.mem_append, List.mem_cons, List.mem_singleton, List.not_mem_nil,
      or_false] at ho
    rcases ho with (ho | rfl | ho | rfl | rfl) | ho
    · exact Or.inl ho
    · right; simp [rx_object.handle]
    · right
      by_cases hi : conf.intr_conf_rxq = true
      · simp only [hi, if_true, List.mem_singleton] at ho
        subst ho; simp [rx_object.handle]
      · simp [hi] at ho
    · right; simp [rx_object.handle]; omega
    · right; simp [rx_object.handle]; omega
    · right
      have := fresh_mbufs_handle _ _ o ho
      omega
theorem getD_set_self (l : List (Option rxq_ctrl_ref)) (i : Nat) (x : Option rxq_ctrl_ref)
    (h : i < l.length) : (l.set i x).getD i none = x := by
  simp [List.getD_eq_getElem?_getD, List.getElem?_set, h]

theorem mlx5_rx_queue_setup_desc_pow (k : Nat) : mlx5_rx_queue_setup_desc (2 ^ k) = 2 ^ k := by
  simp [mlx5_rx_queue_setup_desc, rte_is_power_of_2, log2above_pow]

/-- The round trip of `mlx5_rx_queue_setup` for a count of descriptors
which is a power of two, `2 ^ k` with `k ≤ 15`. On a stopped device whose
configuration accepts the count, with every external call succeeding, the
setup of the queue `idx`, not set up before, and then a second setup with the
same count both return 0 and install a queue with the same `sges_n`, the same
`elts_n = k` and the same initial `rq_ci = 2 ^ k >> sges_n`. The first queue
held `2 ^ k` buffers, a work queue, a completion queue, a memory region and,
with Rx interrupts, a completion channel, all distinct; after the second
setup none of them exists any more and each has been released exactly
once. -/
theorem mlx5_rx_queue_setup_round_trip (D : RxDecls) (F1 F2 : RxFaults) (conf : RxConf)
    (rxqs : List (Option rxq_ctrl_ref)) (idx k socket : Nat) (mp : rte_mempool) (w : RxWorld)
    (s : Nat)
    (hD : D.ok conf) (hF1 : F1.ok D) (hF2 : F2.ok D) (hk : k ≤ 15)
    (hidx : idx < conf.rxqs_n) (hlen : rxqs.length = conf.rxqs_n)
    (hnone : rxqs.getD idx none = none)
    (hs : rxq_ctrl_setup_sges_n D.toRxqDecls conf.max_rx_pkt_len mp.data_room_size
      conf.enable_scatter = .ok s)
    (hdiv : 2 ^ k % 2 ^ s = 0)
    (hwf : w.wf) :
    ∃ rxqs1 w1 r1 rxqs2 w2 r2 L,
      mlx5_rx_queue_setup D F1 conf false rxqs idx (2 ^ k) socket mp w = some (0, rxqs1, w1) ∧
      rxqs1.getD idx none = some r1 ∧
      mlx5_rx_queue_setup D F2 conf false rxqs1 idx (2 ^ k) socket mp w1 =
        some (0, rxqs2, w2) ∧
      rxqs2.getD idx none = some r2 ∧
      (r1.ctrl.rxq.sges_n = s ∧ r1.ctrl.rxq.elts_n = k ∧ r1.ctrl.rxq.rq_ci = 2 ^ k >>> s) ∧
      (r2.ctrl.rxq.sges_n = s ∧ r2.ctrl.rxq.elts_n = k ∧ r2.ctrl.rxq.rq_ci = 2 ^ k >>> s) ∧
      r1.ctrl.objects.length = 2 ^ k + 3 + (if conf.intr_conf_rxq then 1 else 0) ∧
      r1.ctrl.objects.Nodup ∧
      w2.released = w.released ++ L ∧
      ∀ o ∈ r1.ctrl.objects, o ∈ w1.live ∧ o ∉ w2.live ∧ L.count o = 1 := by
  have hle : 2 ^ k ≤ 2 ^ 15 := Nat.pow_le_pow_right (by norm_num) hk
  obtain ⟨hbits, hP, hvec⟩ := id hD
  obtain ⟨hsec1, hal1, _⟩ := id hF1
  obtain ⟨hsec2, hal2, _⟩ := id hF2
  generalize hv : (if conf.priv_rx_vec_en then 1 else 0 : Nat) = v
  have hv1 : v ≤ 1 := by rw [← hv]; split <;> omega
  have hvP : v * D.MLX5_VPMD_DESCS_PER_LOOP ≤ D.MLX5_VPMD_DESCS_PER_LOOP := by
    calc v * D.MLX5_VPMD_DESCS_PER_LOOP ≤ 1 * D.MLX5_VPMD_DESCS_PER_LOOP :=
          Nat.mul_le_mul_right _ hv1
      _ = D.MLX5_VPMD_DESCS_PER_LOOP := Nat.one_mul _
  have hdn : (2 ^ k + v * D.MLX5_VPMD_DESCS_PER_LOOP) % 2 ^ 16 =
      2 ^ k + v * D.MLX5_VPMD_DESCS_PER_LOOP := Nat.mod_eq_of_lt (by omega)
  have hnidx : ¬ idx ≥ conf.rxqs_n := by omega
  obtain ⟨C1, W1, t1, hset1, hgeo1, hclean1, hlen1, hnd1, hobj1, hwf1, hrel1, _⟩ :=
    rxq_ctrl_setup_facts D F1 conf w.next_handle (2 ^ k + v * D.MLX5_VPMD_DESCS_PER_LOOP) k
      socket mp (w.create rx_object.mem).2 s hD hF1 hk hs hdiv (by rw [hv])
      (wf_create w _ (fun _ => rfl) hwf)
  obtain ⟨C2, W2, t2, hset2, hgeo2, _, _, _, _, _, hrel2, hlive2⟩ :=
    rxq_ctrl_setup_facts D F2 conf w.next_handle (2 ^ k + v * D.MLX5_VPMD_DESCS_PER_LOOP) k
      socket mp (W1.release_all C1.objects) s hD hF2 hk hs hdiv (by rw [hv])
      (wf_release_all _ _ hwf1)
  have hcall1 : mlx5_rx_queue_setup D F1 conf false rxqs idx (2 ^ k) socket mp w =
      some (0,
        rxqs.set idx (some ⟨w.next_handle, 2 ^ k + v * D.MLX5_VPMD_DESCS_PER_LOOP,
          { C1 with rxq := { C1.rxq with stats_idx := idx } }⟩),
        W1) := by
    unfold mlx5_rx_queue_setup
    simp only [hsec1, hal1, mlx5_rx_queue_setup_desc_pow, hnidx, hnone, hv, hdn,
      Bool.false_eq_true, if_false]
    simp only [RxWorld.create] at hset1 ⊢
    rw [hset1]
    simp
  have hget1 : (rxqs.set idx (some ⟨w.next_handle, 2 ^ k + v * D.MLX5_VPMD_DESCS_PER_LOOP,
          { C1 with rxq := { C1.rxq with stats_idx := idx } }⟩)).getD
      idx none = some ⟨w.next_handle, 2 ^ k + v * D.MLX5_VPMD_DESCS_PER_LOOP,
          { C1 with rxq := { C1.rxq with stats_idx := idx } }⟩ :=
    getD_set_self _ _ _ (by omega)
  have hcall2 : mlx5_rx_queue_setup D F2 conf false
      (rxqs.set idx (some ⟨w.next_handle, 2 ^ k + v * D.MLX5_VPMD_DESCS_PER_LOOP,
          { C1 with rxq := { C1.rxq with stats_idx := idx } }⟩))
      idx (2 ^ k) socket mp W1 =
      some (0,
        ((rxqs.set idx (some ⟨w.next_handle, 2 ^ k + v * D.MLX5_VPMD_DESCS_PER_LOOP,
          { C1 with rxq := { C1.rxq with stats_idx := idx } }⟩)).set
          idx none).set idx
            (some ⟨w.next_handle, 2 ^ k + v * D.MLX5_VPMD_DESCS_PER_LOOP,
          { C2 with rxq := { C2.rxq with stats_idx := idx } }⟩),
        W2) := by
    unfold mlx5_rx_queue_setup
    simp only [hsec2, hal2, mlx5_rx_queue_setup_desc_pow, hnidx, hget1, hv, hdn, hclean1,
      Bool.false_eq_true, if_false]
    split <;> (rw [hset2]; simp)
  have hrelall := release_all_spec C1.objects W1
  refine ⟨_, W1, _, _, W2, _, [rx_object.mem t1] ++ C1.objects ++ [rx_object.mem t2], hcall1,
    hget1, hcall2, getD_set_self _ _ _ (by simp; omega), hgeo1, hgeo2, hlen1, hnd1, ?_, ?_⟩
  · rw [hrel2, hrelall, hrel1]
    simp [RxWorld.create]
  · intro o ho
    have ho' : o ∈ C1.objects := ho
    obtain ⟨h1, h2, h3⟩ := hobj1 o ho'
    refine ⟨h1, ?_, ?_⟩
    · intro hin
      rcases hlive2 o hin with h4 | h4
      · rw [hrelall] at h4
        simp only [List.mem_filter, decide_eq_true_eq] at h4
        exact h4.2 ho'
      · rw [hrelall] at h4
        simp only at h4
        omega
    · rw [List.count_append, List.count_append, List.count_eq_one_of_mem hnd1 ho']
      have e1 : List.count o [rx_object.mem t1] = 0 :=
        List.count_eq_zero.2 (by simp; exact h3 t1)
      have e2 : List.count o [rx_object.mem t2] = 0 :=
        List.count_eq_zero.2 (by simp; exact h3 t2)
      rw [e1, e2]
theorem RxDecls.sample_ok : RxDecls.sample.ok RxConf.sample := by
  refine ⟨by decide, by decide, ?_⟩
  intro rxq h
  simp [RxDecls.sample, RxConf.sample] at h

theorem RxFaults.never_ok (D : RxDecls) (cqe_cnt : Nat) : (RxFaults.never D cqe_cnt).ok D :=
  ⟨rfl, rfl, rfl, rfl, rfl, rfl, fun _ _ => rfl, rfl, rfl, rfl, rfl, fun _ => rfl⟩

theorem mlx5_rx_queue_setup_round_trip_witness :
    ∃ rxqs1 w1 r1 rxqs2 w2 r2 L,
      mlx5_rx_queue_setup RxDecls.sample (RxFaults.never RxDecls.sample 4) RxConf.sample false
        [none, none] 0 (2 ^ 2) 0 rte_mempool.sample RxWorld.empty = some (0, rxqs1, w1) ∧
      rxqs1.getD 0 none = some r1 ∧
      mlx5_rx_queue_setup RxDecls.sample (RxFaults.never RxDecls.sample 4) RxConf.sample false
        rxqs1 0 (2 ^ 2) 0 rte_mempool.sample w1 = some (0, rxqs2, w2) ∧
      rxqs2.getD 0 none = some r2 ∧
      (r1.ctrl.rxq.sges_n = 0 ∧ r1.ctrl.rxq.elts_n = 2 ∧ r1.ctrl.rxq.rq_ci = 2 ^ 2 >>> 0) ∧
      (r2.ctrl.rxq.sges_n = 0 ∧ r2.ctrl.rxq.elts_n = 2 ∧ r2.ctrl.rxq.rq_ci = 2 ^ 2 >>> 0) ∧
      r1.ctrl.objects.length = 2 ^ 2 + 3 + (if RxConf.sample.intr_conf_rxq then 1 else 0) ∧
      r1.ctrl.objects.Nodup ∧
      w2.released = RxWorld.empty.released ++ L ∧
      ∀ o ∈ r1.ctrl.objects, o ∈ w1.live ∧ o ∉ w2.live ∧ L.count o = 1 :=
  mlx5_rx_queue_setup_round_trip RxDecls.sample (RxFaults.never RxDecls.sample 4)
    (RxFaults.never RxDecls.sample 4) RxConf.sample [none, none] 0 2 0 rte_mempool.sample
    RxWorld.empty 0 RxDecls.sample_ok (RxFaults.never_ok _ _) (RxFaults.never_ok _ _)
    (by decide) (by decide) rfl rfl rfl (by decide) (by intro o ho; simp [RxWorld.empty] at ho)

/-- C16: with every call succeeding, the setup of a queue not set up before
with the count 3 has no defined result, already at the first call:
`mlx5_rx_queue_setup` sizes the storage after the structure for the 3
pointers of the count of the caller, then rounds the count to 4, and
`rxq_ctrl_setup` copies the 4 pointers of the ring to that storage. The same
call of `rxq_ctrl_setup` on a storage with room for 4 pointers returns 0. -/
theorem mlx5_rx_queue_setup_storage_overflow :
    mlx5_rx_queue_setup_desc 3 = 4 ∧
    mlx5_rx_queue_setup RxDecls.sample (RxFaults.never RxDecls.sample 4) RxConf.sample false
      [none, none] 0 3 0 rte_mempool.sample RxWorld.empty = none ∧
    rxq_ctrl_setup RxDecls.sample (RxFaults.never RxDecls.sample 4) RxConf.sample
      { mem := 1, room := 3, ctrl := mlx5_rxq_ctrl.zero } 4 0 rte_mempool.sample
      { next_handle := 2, live := [rx_object.mem 1], released := [] } = none ∧
    (rxq_ctrl_setup RxDecls.sample (RxFaults.never RxDecls.sample 4) RxConf.sample
      { mem := 1, room := 4, ctrl := mlx5_rxq_ctrl.zero } 4 0 rte_mempool.sample
      { next_handle := 2, live := [rx_object.mem 1], released := [] }).map
      (fun r => (r.1, r.2.1.ctrl.rxq.elts_n, r.2.1.ctrl.rxq.rq_ci)) = some (0, 2, 4) :=
  ⟨by decide, rfl, rfl, rfl⟩

/-! ## Bounds of the stores of `priv_rx_intr_vec_enable` -/

theorem intr_vec_store_isSome (h : rte_intr_handle) (i v : Nat) (hv : h.intr_vec.isSome) :
    ∃ h', intr_vec_store h i v = some h' ∧ h'.intr_vec.isSome ∧ h'.efds = h.efds := by
  cases hi : h.intr_vec with
  | none => rw [hi] at hv; cases hv
  | some a =>
    exact ⟨{ h with intr_vec := some { a with stores := a.stores ++ [(i, v)] } },
      by simp only [intr_vec_store, hi], rfl, rfl⟩

theorem rx_intr_vec_loop_defined (I : IntrDecls) (F : IntrFaults) (rxqs : List rxq_channel) :
    ∀ (fuel i count : Nat) (h : rte_intr_handle), h.intr_vec.isSome → count ≤ i →
      i + fuel ≤ I.RTE_MAX_RXTX_INTR_VEC_ID → i + fuel ≤ rxqs.length →
      h.efds.length = I.RTE_MAX_RXTX_INTR_VEC_ID →
      (rx_intr_vec_loop I F rxqs fuel i count h).isSome := by
  intro fuel
  induction fuel with
  | zero => intro i count h _ _ _ _ _; rfl
  | succ fuel ih =>
    intro i count h hv hc hm hl he
    obtain ⟨r, hr⟩ : ∃ r, rxqs.get? i = some r := by
      cases hg : rxqs.get? i with
      | none =>
        rw [List.get?_eq_getElem?, List.getElem?_eq_none_iff] at hg
        omega
      | some r => exact ⟨r, rfl⟩
    rcases r with _ | _ | fd
    · obtain ⟨h', hs, hv', he'⟩ := intr_vec_store_isSome h i
        (I.RTE_INTR_VEC_RXTX_OFFSET + I.RTE_MAX_RXTX_INTR_VEC_ID) hv
      simp only [rx_intr_vec_loop, hr, hs]
      exact ih (i + 1) count h' hv' (by omega) (by omega) (by omega) (by rw [he', he])
    · obtain ⟨h', hs, hv', he'⟩ := intr_vec_store_isSome h i
        (I.RTE_INTR_VEC_RXTX_OFFSET + I.RTE_MAX_RXTX_INTR_VEC_ID) hv
      simp only [rx_intr_vec_loop, hr, hs]
      exact ih (i + 1) count h' hv' (by omega) (by omega) (by omega) (by rw [he', he])
    · obtain ⟨h', hs, hv', he'⟩ := intr_vec_store_isSome h i
        (I.RTE_INTR_VEC_RXTX_OFFSET + count) hv
      have hlt : count < h'.efds.length := by rw [he', he]; omega
      simp only [rx_intr_vec_loop, hr, hs, if_pos hlt]
      split
      · rfl
      · split
        · rfl
        · exact ih (i + 1) (count + 1) { h' with efds := h'.efds.set count fd } hv'
            (by omega) (by omega) (by omega) (by simp [he', he])

/-- The accesses of `priv_rx_intr_vec_enable` to `priv->rxqs` and to `efds`
are within bounds: on a vector which records every store the statements
have a result for every outcome of `malloc` and `fcntl`. -/
theorem priv_rx_intr_vec_enable_defined (I : IntrDecls) (F : IntrFaults)
    (intr_conf_rxq : Bool) (rxqs_n : Nat) (rxqs : List rxq_channel) (h : rte_intr_handle)
    (hrxqs : rxqs_n ≤ rxqs.length)
    (hefds : h.efds.length = I.RTE_MAX_RXTX_INTR_VEC_ID) :
    (priv_rx_intr_vec_enable I F intr_conf_rxq rxqs_n rxqs h).isSome := by
  have hmod : I.RTE_MAX_RXTX_INTR_VEC_ID % 2 ^ 32 ≤ I.RTE_MAX_RXTX_INTR_VEC_ID :=
    Nat.mod_le _ _
  have hloop := rx_intr_vec_loop_defined I F rxqs
    (min rxqs_n (I.RTE_MAX_RXTX_INTR_VEC_ID % 2 ^ 32)) 0 0
    { type := I.RTE_INTR_HANDLE_EXT
      intr_vec := some { alloc_size := I.sizeof_int, stores := [] }
      nb_efd := 0
      efds := h.efds }
    rfl (le_refl _) (by omega) (by omega) hefds
  unfold priv_rx_intr_vec_enable
  cases intr_conf_rxq
  · rfl
  · cases hm : F.malloc_fails
    · simp only [Bool.not_true, Bool.false_eq_true, if_false, priv_rx_intr_vec_disable]
      cases hl : rx_intr_vec_loop I F rxqs (min rxqs_n (I.RTE_MAX_RXTX_INTR_VEC_ID % 2 ^ 32)) 0 0
          { type := I.RTE_INTR_HANDLE_EXT
            intr_vec := some { alloc_size := I.sizeof_int, stores := [] }
            nb_efd := 0
            efds := h.efds } with
      | none => rw [hl] at hloop; cases hloop
      | some r =>
        obtain ⟨ret, count, h'⟩ := r
        cases ret with
        | none => simp only; split <;> rfl
        | some ret => rfl
    · rfl

/-- C21: with two queues, which both have an event channel, and every call
succeeding, `priv_rx_intr_vec_enable` returns 0 with a vector whose area was
asked from `malloc` with the size of one entry, 4 bytes, and through which
the entries of index 0 and 1 have been stored: the area has no room for
`min(rxqs_n, RTE_MAX_RXTX_INTR_VEC_ID) = 2` entries, and the store of the
entry of index 1 is out of its bounds. -/
theorem priv_rx_intr_vec_enable_overflow :
    (priv_rx_intr_vec_enable IntrDecls.sample IntrFaults.never true 2
      [some (some 7), some (some 9)] rte_intr_handle.sample).map
      (fun r => (r.1, r.2.intr_vec)) =
      some (0, some { alloc_size := 4, stores := [(0, 1), (1, 2)] }) ∧
    ¬ (min 2 IntrDecls.sample.RTE_MAX_RXTX_INTR_VEC_ID * IntrDecls.sample.sizeof_int ≤ 4) ∧
    intr_vec_store_in_bounds IntrDecls.sample { alloc_size := 4, stores := [(0, 1), (1, 2)] } 0 =
      true ∧
    intr_vec_store_in_bounds IntrDecls.sample { alloc_size := 4, stores := [(0, 1), (1, 2)] } 1 =
      false := by
  decide

/-! ## The reference table and the area of the vector -/

theorem intr_vec_store_checked_eq (I : IntrDecls) (h h' : rte_intr_handle) (i v : Nat)
    (hs : intr_vec_store_checked I h i v = some h') : intr_vec_store h i v = some h' := by
  unfold intr_vec_store_checked at hs
  cases ha : h.intr_vec with
  | none => rw [ha] at hs; cases hs
  | some a =>
    rw [ha] at hs
    simp only at hs
    split at hs
    · exact hs
    · cases hs

theorem rx_intr_vec_loop_checked_eq (I : IntrDecls) (F : IntrFaults) (rxqs : List rxq_channel) :
    ∀ (fuel i count : Nat) (h : rte_intr_handle) (r : Option Int × Nat × rte_intr_handle),
      rx_intr_vec_loop_checked I F rxqs fuel i count h = some r →
      rx_intr_vec_loop I F rxqs fuel i count h = some r := by
  intro fuel
  induction fuel with
  | zero => intro i count h r hr; exact hr
  | succ fuel ih =>
    intro i count h r hr
    cases hg : rxqs.get? i with
    | none => simp only [rx_intr_vec_loop_checked, hg] at hr; cases hr
    | some q =>
      rcases q with _ | _ | fd
      · simp only [rx_intr_vec_loop_checked, hg] at hr
        cases hs : intr_vec_store_checked I h i
            (I.RTE_INTR_VEC_RXTX_OFFSET + I.RTE_MAX_RXTX_INTR_VEC_ID) with
        | none => rw [hs] at hr; cases hr
        | some h' =>
          rw [hs] at hr
          simp only [rx_intr_vec_loop, hg, intr_vec_store_checked_eq I h h' i _ hs]
          exact ih _ _ _ _ hr
      · simp only [rx_intr_vec_loop_checked, hg] at hr
        cases hs : intr_vec_store_checked I h i
            (I.RTE_INTR_VEC_RXTX_OFFSET + I.RTE_MAX_RXTX_INTR_VEC_ID) with
        | none => rw [hs] at hr; cases hr
        | some h' =>
          rw [hs] at hr
          simp only [rx_intr_vec_loop, hg, intr_vec_store_checked_eq I h h' i _ hs]
          exact ih _ _ _ _ hr
      · simp only [rx_intr_vec_loop_checked, hg] at hr
        simp only [rx_intr_vec_loop, hg]
        split
        · rename_i hc; rw [if_pos hc] at hr; exact hr
        · rename_i hc
          rw [if_neg hc] at hr
          split
          · rename_i hf; rw [if_pos hf] at hr; exact hr
          · rename_i hf
            rw [if_neg hf] at hr
            cases hs : intr_vec_store_checked I h i (I.RTE_INTR_VEC_RXTX_OFFSET + count) with
            | none => rw [hs] at hr; cases hr
            | some h' =>
              rw [hs] at hr
              simp only [intr_vec_store_checked_eq I h h' i _ hs]
              simp only at hr
              split
              · rename_i hl; rw [if_pos hl] at hr; exact ih _ _ _ _ hr
              · rename_i hl; rw [if_neg hl] at hr; cases hr

theorem priv_rx_intr_vec_enable_checked_eq (I : IntrDecls) (F : IntrFaults)
    (intr_conf_rxq : Bool) (rxqs_n : Nat) (rxqs : List rxq_channel) (h : rte_intr_handle)
    (r : Int × rte_intr_handle)
    (hr : priv_rx_intr_vec_enable_checked I F intr_conf_rxq rxqs_n rxqs h = some r) :
    priv_rx_intr_vec_enable I F intr_conf_rxq rxqs_n rxqs h = some r := by
  unfold priv_rx_intr_vec_enable_checked at hr
  unfold priv_rx_intr_vec_enable
  cases intr_conf_rxq
  · exact hr
  · cases hm : F.malloc_fails
    · simp only [hm, Bool.not_true, Bool.false_eq_true, if_false] at hr ⊢
      cases hl : rx_intr_vec_loop_checked I F rxqs
          (min rxqs_n (I.RTE_MAX_RXTX_INTR_VEC_ID % 2 ^ 32)) 0 0
          { type := I.RTE_INTR_HANDLE_EXT
            intr_vec := some { alloc_size := I.sizeof_int, stores := [] }
            nb_efd := (priv_rx_intr_vec_disable h).nb_efd
            efds := (priv_rx_intr_vec_disable h).efds } with
      | none => rw [hl] at hr; cases hr
      | some x =>
        rw [hl] at hr
        rw [rx_intr_vec_loop_checked_eq I F rxqs _ _ _ _ x hl]
        exact hr
    · simp only [hm, Bool.not_true, Bool.false_eq_true, if_false, if_true] at hr ⊢
      exact hr
theorem priv_rx_intr_vec_enable_checked_undefined (I : IntrDecls) (F : IntrFaults)
    (rxqs_n : Nat) (rxqs : List rxq_channel) (h : rte_intr_handle)
    (hsize : 0 < I.sizeof_int)
    (hn : 2 ≤ min rxqs_n (I.RTE_MAX_RXTX_INTR_VEC_ID % 2 ^ 32))
    (hrxqs : rxqs_n ≤ rxqs.length)
    (hmalloc : F.malloc_fails = false)
    (hfcntl : ∀ fd, F.fcntl_fails fd = false) :
    priv_rx_intr_vec_enable_checked I F true rxqs_n rxqs h = none := by
  obtain ⟨m, hm⟩ : ∃ m, min rxqs_n (I.RTE_MAX_RXTX_INTR_VEC_ID % 2 ^ 32) = m + 2 :=
    ⟨min rxqs_n (I.RTE_MAX_RXTX_INTR_VEC_ID % 2 ^ 32) - 2, by omega⟩
  have hmax : ¬ 0 ≥ I.RTE_MAX_RXTX_INTR_VEC_ID := by
    have := Nat.mod_le I.RTE_MAX_RXTX_INTR_VEC_ID (2 ^ 32)
    omega
  have hmax1 : ¬ 1 ≥ I.RTE_MAX_RXTX_INTR_VEC_ID := by
    have := Nat.mod_le I.RTE_MAX_RXTX_INTR_VEC_ID (2 ^ 32)
    omega
  obtain ⟨q0, q1, rest, rfl⟩ : ∃ q0 q1 rest, rxqs = q0 :: q1 :: rest := by
    match rxqs, hrxqs with
    | [], hr => simp at hr; omega
    | [_], hr => simp at hr; omega
    | q0 :: q1 :: rest, _ => exact ⟨q0, q1, rest, rfl⟩
  have hb0 : ∀ st, intr_vec_store_in_bounds I { alloc_size := I.sizeof_int, stores := st } 0 =
      true := by
    intro st; simp [intr_vec_store_in_bounds]
  have hb1 : ∀ st, intr_vec_store_in_bounds I { alloc_size := I.sizeof_int, stores := st } 1 =
      false := by
    intro st; simp [intr_vec_store_in_bounds]; omega
  unfold priv_rx_intr_vec_enable_checked
  simp only [hm, hmalloc, Bool.not_true, Bool.false_eq_true, if_false]
  rcases q0 with _ | _ | fd0 <;> rcases q1 with _ | _ | fd1 <;>
    simp [rx_intr_vec_loop_checked, intr_vec_store_checked, intr_vec_store,
      priv_rx_intr_vec_disable, hb0, hb1, hfcntl, hmax, hmax1]

theorem priv_rx_intr_vec_enable_checked_some (I : IntrDecls) (F : IntrFaults)
    (rxqs_n : Nat) (rxqs : List rxq_channel) (h : rte_intr_handle)
    (r : Int × rte_intr_handle)
    (hmax : I.RTE_MAX_RXTX_INTR_VEC_ID < 2 ^ 32)
    (hrxqs : rxqs_n ≤ rxqs.length)
    (hmalloc : F.malloc_fails = false)
    (hfcntl : ∀ fd, F.fcntl_fails fd = false)
    (hr : priv_rx_intr_vec_enable_checked I F true rxqs_n rxqs h = some r) :
    min rxqs_n I.RTE_MAX_RXTX_INTR_VEC_ID ≤ 1 ∨ I.sizeof_int = 0 := by
  by_cases hs : 0 < I.sizeof_int
  · left
    by_contra hn
    have := priv_rx_intr_vec_enable_checked_undefined I F rxqs_n rxqs h hs
      (by rw [Nat.mod_eq_of_lt hmax]; omega) hrxqs hmalloc hfcntl
    rw [this] at hr
    cases hr
  · right; omega

/-- C18: with three queues, the first and the last with an event channel,
and every call succeeding, the call has no result the C program defines: the
area of the vector was asked from `malloc` with the size of one entry, 4
bytes, and the entries of index 1 and 2 of the reference table, which the
statements of the function store as the values 33 and 2, are stored out of
its bounds. With one queue the call is defined and the table is the
reference table. -/
theorem priv_rx_intr_vec_enable_table_overflow :
    priv_rx_intr_vec_enable_checked IntrDecls.sample IntrFaults.never true 3
      [some (some 7), none, some (some 9)] rte_intr_handle.sample = none ∧
    (priv_rx_intr_vec_enable IntrDecls.sample IntrFaults.never true 3
      [some (some 7), none, some (some 9)] rte_intr_handle.sample).map
      (fun r => (r.1, r.2.nb_efd, r.2.intr_vec)) =
      some (0, 2, some { alloc_size := 4, stores := [(0, 1), (1, 33), (2, 2)] }) ∧
    intr_vec_store_in_bounds IntrDecls.sample
      { alloc_size := 4, stores := [(0, 1), (1, 33), (2, 2)] } 1 = false ∧
    intr_vec_store_in_bounds IntrDecls.sample
      { alloc_size := 4, stores := [(0, 1), (1, 33), (2, 2)] } 2 = false ∧
    (priv_rx_intr_vec_enable_checked IntrDecls.sample IntrFaults.never true 1
      [some (some 7)] rte_intr_handle.sample).map
      (fun r => (r.1, r.2.nb_efd, r.2.intr_vec)) =
      some (0, 1, some { alloc_size := 4, stores := [(0, 1)] }) := by
  decide

end Mlx5
